import Mathlib

/-!
# go-tdlib: engine adapter, correlation table and dispatch loop

A shallow embedding of `client/tdlib.go`, `client/client.go` and `client/listener.go`.
Goroutines are modelled as program counters over a shared state; every function that
can block or crash returns a `Step`.
-/

namespace TDLib

/-! ## Outcomes of one atomic action of a goroutine -/

/-- What one atomic action of a goroutine does: it completes, it cannot move yet
(a held mutex, an empty or full channel), or it brings the runtime down (a panic or
a fatal error). -/
inductive Step (σ : Type) where
  | ok (s : σ)
  | blocked
  | fatal
deriving DecidableEq, Repr

/-- Runs `f` on the result of an action that completed; an action that waits or panics
stays so. -/
def Step.bind {α β : Type} (x : Step α) (f : α → Step β) : Step β :=
  match x with
  | .ok a => f a
  | .blocked => .blocked
  | .fatal => .fatal

/-! ## tdlib.go: wire structures -/

/-- The struct `meta`: the fields `@type` and `@extra` of a message. -/
structure Meta where
  Typ : String
  Extra : String
deriving DecidableEq, Repr

/-- The struct `Request`; the values of `Data` are kept as text. -/
structure Request where
  Typ : String
  Extra : String
  Data : List (String × String)
deriving DecidableEq, Repr

/-- The struct `Response`. `Handled` is the identity of its `chan error`, `none` for
the nil channel. -/
structure Response where
  Typ : String
  Extra : String
  Data : String
  Handled : Option Nat
deriving DecidableEq, Repr

/-- A C string returned by the engine together with what `json.Unmarshal` reads from it
into the embedded `meta`; `none` stands for an unmarshalling error. -/
structure Raw where
  data : String
  parsed : Option Meta
deriving DecidableEq, Repr

/-! ## tdlib.go: the adapter -/

/-- The struct `TDClient`: the mutex `locker` (true when held) and every `chan error`
made by `Receive` and `Execute` so far. A `chan error` is unbuffered, so its state is
the queue of senders parked on it, each with the value it sends. -/
structure TDClient where
  locker : Bool
  handled : List (List (Option String))
deriving DecidableEq, Repr

/-- The adapter `NewTDClient` returns: a free mutex. -/
def NewTDClient : TDClient := { locker := false, handled := [] }

/-- Method `TDClient.Lock`: `c.locker.Lock()` waits while the mutex is held. -/
def TDClient.Lock (c : TDClient) : Step TDClient :=
  if c.locker then .blocked else .ok { c with locker := true }

/-- Method `TDClient.Unlock`: `c.locker.Unlock()`; unlocking a free `sync.Mutex` is a fatal
error of the Go runtime. -/
def TDClient.Unlock (c : TDClient) : Step TDClient :=
  if c.locker then .ok { c with locker := false } else .fatal

/-- The call `make(chan error)`: a fresh channel on which nobody is parked. -/
def TDClient.makeHandled (c : TDClient) : Nat × TDClient :=
  (c.handled.length, { c with handled := c.handled ++ [[]] })

/-- The receive `<-response.Handled`: takes the value of the first parked sender, and waits when
there is none. -/
def TDClient.recvHandled (c : TDClient) (ch : Option Nat) :
    Step (Option String × TDClient) :=
  match ch with
  | none => .blocked
  | some i =>
    match c.handled[i]? with
    | some (e :: rest) => .ok (e, { c with handled := c.handled.set i rest })
    | _ => .blocked

/-- Method `Response.NotifyHandled`: `if r.Handled != nil { r.Handled <- err }`. The sender
parks on the channel; the send is over when a receiver takes the value. -/
def Response.NotifyHandled (r : Response) (err : Option String) (c : TDClient) : TDClient :=
  match r.Handled with
  | none => c
  | some i =>
    match c.handled[i]? with
    | some q => { c with handled := c.handled.set i (q ++ [err]) }
    | none => c

/-- Where a call of `Receive` or `Execute` stands. -/
inductive CallPc where
  /-- before `c.Lock(..)` -/
  | entry
  /-- the mutex is held, the engine is about to be called -/
  | locked
  /-- the engine gave nothing usable; the `c.Unlock(..)` of that branch comes next -/
  | failed (err : String)
  /-- the statement `return &response, nil` has set the results; the deferred function stands at
  `<-response.Handled` -/
  | deferred (r : Response)
  /-- the deferred function has its signal; its `c.Unlock(..)` comes next -/
  | handled (r : Response)
  /-- the call has returned to its caller -/
  | returned (r : Option Response) (err : Option String)
deriving DecidableEq, Repr

/-- The part `Receive` and `Execute` share after the engine call: `result == nil`,
`json.Unmarshal`, `response.Data = data`, `response.Handled = make(chan error)`. -/
def TDClient.build (c : TDClient) (result : Option Raw) (nilError : String) :
    TDClient × CallPc :=
  match result with
  | none => (c, .failed nilError)
  | some raw =>
    match raw.parsed with
    | none => (c, .failed "json: cannot unmarshal")
    | some m =>
      let (ch, c1) := c.makeHandled
      (c1, .deferred { Typ := m.Typ, Extra := m.Extra, Data := raw.data, Handled := some ch })

/-- The actions both calls share once the engine has answered: the `Unlock` of a failing
branch, the deferred function's receive, and its `Unlock`. -/
def TDClient.finish (c : TDClient) (pc : CallPc) : Step (TDClient × CallPc) :=
  match pc with
  | .failed err =>
    match c.Unlock with
    | .ok c1 => .ok (c1, .returned none (some err))
    | .blocked => .blocked
    | .fatal => .fatal
  | .deferred r =>
    match c.recvHandled r.Handled with
    | .ok (_, c1) => .ok (c1, .handled r)
    | .blocked => .blocked
    | .fatal => .fatal
  | .handled r =>
    match c.Unlock with
    | .ok c1 => .ok (c1, .returned (some r) none)
    | .blocked => .blocked
    | .fatal => .fatal
  | _ => .blocked

/-- One atomic action of `TDClient.Receive`. `result` is what `td_json_client_receive`
returns when it is called (`none` for the nil of a timeout). -/
def TDClient.Receive (c : TDClient) (result : Option Raw) (pc : CallPc) :
    Step (TDClient × CallPc) :=
  match pc with
  | .entry =>
    match c.Lock with
    | .ok c1 => .ok (c1, .locked)
    | .blocked => .blocked
    | .fatal => .fatal
  | .locked => .ok (c.build result "update receiving timeout")
  | .returned _ _ => .blocked
  | pc => c.finish pc

/-- One atomic action of `TDClient.Execute`. `result` is what `td_json_client_execute`
returns for the marshalled request (`none` when the engine cannot parse it). -/
def TDClient.Execute (c : TDClient) (request : Request) (result : Request → Option Raw)
    (pc : CallPc) : Step (TDClient × CallPc) :=
  match pc with
  | .entry =>
    match c.Lock with
    | .ok c1 => .ok (c1, .locked)
    | .blocked => .blocked
    | .fatal => .fatal
  | .locked => .ok (c.build (result request) "request can't be parsed")
  | .returned _ _ => .blocked
  | pc => c.finish pc

/-- Runs a call for at most `fuel` actions, stopping where it cannot move. -/
def runCall (step : TDClient → CallPc → Step (TDClient × CallPc)) :
    Nat → TDClient → CallPc → TDClient × CallPc
  | 0, c, pc => (c, pc)
  | fuel + 1, c, pc =>
    match step c pc with
    | .ok (c1, pc1) => runCall step fuel c1 pc1
    | _ => (c, pc)

/-! ## Go channels with a buffer -/

/-- A buffered channel: what it holds, its capacity, and whether it is closed. -/
structure Chan (α : Type) where
  buf : List α
  cap : Nat
  closed : Bool
deriving DecidableEq, Repr

/-- The call `make(chan T, cap)`. -/
def Chan.make {α : Type} (cap : Nat) : Chan α := { buf := [], cap := cap, closed := false }

/-- The send `ch <- v`: panics on a closed channel, waits while the buffer is full. -/
def Chan.send {α : Type} (ch : Chan α) (v : α) : Step (Chan α) :=
  if ch.closed then .fatal
  else if ch.buf.length < ch.cap then .ok { ch with buf := ch.buf ++ [v] }
  else .blocked

/-- The receive `<-ch`: the oldest value; on a closed and drained channel the zero value (`none`);
waits on an open empty channel. -/
def Chan.recv {α : Type} (ch : Chan α) : Step (Option α × Chan α) :=
  match ch.buf with
  | v :: rest => .ok (some v, { ch with buf := rest })
  | [] => if ch.closed then .ok (none, ch) else .blocked

/-- The call `close(ch)`: panics on a channel that is closed already. -/
def Chan.close {α : Type} (ch : Chan α) : Step (Chan α) :=
  if ch.closed then .fatal else .ok { ch with closed := true }

/-! ## sync.Map keyed by the correlation token -/

/-- Method `sync.Map.Store`: the entry under `k` is replaced. -/
def Store (m : List (String × Nat)) (k : String) (v : Nat) : List (String × Nat) :=
  (k, v) :: m.filter (fun e => e.1 ≠ k)

/-- Method `sync.Map.Delete`. -/
def Delete (m : List (String × Nat)) (k : String) : List (String × Nat) :=
  m.filter (fun e => e.1 ≠ k)

/-- Method `sync.Map.Load`. -/
def Load (m : List (String × Nat)) (k : String) : Option Nat :=
  (m.find? (fun e => e.1 = k)).map (fun e => e.2)

/-! ## listener.go -/

/-- A value of the interface `Type`: a parsed event. -/
structure TdType where
  GetType : String
  GetClass : String
deriving DecidableEq, Repr

/-- The struct `Listener` (its mutex only guards `isActive`). -/
structure Listener where
  isActive : Bool
  Updates : Chan TdType
deriving DecidableEq, Repr

/-- Method `Listener.IsActive`. -/
def Listener.IsActive (listener : Listener) : Bool := listener.isActive

/-- Method `Listener.Close`: `listener.isActive = false; close(listener.Updates)`. -/
def Listener.Close (listener : Listener) : Step Listener :=
  match listener.Updates.close with
  | .ok ch => .ok { isActive := false, Updates := ch }
  | .blocked => .blocked
  | .fatal => .fatal

/-! ## client.go -/

/-- The struct `Client`. Pointers are positions in a heap: `slots` holds every
`chan *Response` made by `Send`, `listeners` every `Listener` made by `GetListener`;
`catchersStore` and `listenerStore` hold positions. `extraCalls` counts the calls of
`extraGenerator`, `sent` lists the requests handed to `tdClient.Send`. -/
structure Client where
  tdClient : TDClient
  extraCalls : Nat
  catcher : Chan Response
  slots : List (Chan Response)
  catchersStore : List (String × Nat)
  listeners : List Listener
  listenerStore : List Nat
  sent : List Request
deriving DecidableEq, Repr

/-- The client `NewClient` builds, before its goroutines start. -/
def NewClient : Client :=
  { tdClient := NewTDClient, extraCalls := 0, catcher := Chan.make 1024, slots := [],
    catchersStore := [], listeners := [], listenerStore := [], sent := [] }

/-- Method `listenerStore.Add`. -/
def listenerStore.Add (store : List Nat) (listener : Nat) : List Nat := store ++ [listener]

/-- Method `listenerStore.Listeners`: the list of the store as it stands. -/
def listenerStore.Listeners (store : List Nat) : List Nat := store

/-- The answer of `listener.IsActive()` for the listener at `p`. -/
def listenerStore.isActiveAt (heap : List Listener) (p : Nat) : Bool :=
  match heap[p]? with
  | some listener => listener.IsActive
  | none => false

/-- The loop `for _, listener := range oldListeners` of `listenerStore.gc`: the
listeners still to visit and `store.listeners` as appended so far. -/
def listenerStore.gcLoop (heap : List Listener) : List Nat → List Nat → List Nat
  | [], kept => kept
  | p :: rest, kept =>
    if listenerStore.isActiveAt heap p then listenerStore.gcLoop heap rest (kept ++ [p])
    else listenerStore.gcLoop heap rest kept

/-- Method `listenerStore.gc`: `store.listeners` is emptied and the loop appends the
old listeners whose `IsActive()` holds. -/
def listenerStore.gc (heap : List Listener) (store : List Nat) : List Nat :=
  listenerStore.gcLoop heap store []

/-- Method `Client.GetListener`: a fresh active listener with a queue of 1024, added to the
store; returns its position. -/
def Client.GetListener (client : Client) : Nat × Client :=
  (client.listeners.length,
    { client with
      listeners := client.listeners ++ [{ isActive := true, Updates := Chan.make 1024 }]
      listenerStore := listenerStore.Add client.listenerStore client.listeners.length })

/-- The call `listener.Close()` by the owner of the listener at `p`. -/
def Client.closeListener (client : Client) (p : Nat) : Step Client :=
  match client.listeners[p]? with
  | none => .fatal
  | some listener =>
    match listener.Close with
    | .ok listener1 => .ok { client with listeners := client.listeners.set p listener1 }
    | .blocked => .blocked
    | .fatal => .fatal

/-- The loop `for _, listener := range listeners` of `Client.receive`: the listeners
still to visit, the heap, and `needGc` so far. -/
def Client.broadcast (typ : TdType) :
    List Nat → List Listener → Bool → Step (List Listener × Bool)
  | [], heap, needGc => .ok (heap, needGc)
  | p :: rest, heap, needGc =>
    match heap[p]? with
    | none => .fatal
    | some listener =>
      if listener.IsActive then
        match listener.Updates.send typ with
        | .ok ch => Client.broadcast typ rest (heap.set p { listener with Updates := ch }) needGc
        | .blocked => .blocked
        | .fatal => .fatal
      else Client.broadcast typ rest heap true

/-- One iteration of the loop of `Client.receive` after `Receive` has returned
`response`: the push onto `client.catcher`, `UnmarshalType`, the fan-out and the
collection. `UnmarshalType` is generated code; `none` stands for its error. -/
def Client.receive (UnmarshalType : String → Option TdType) (client : Client)
    (response : Response) : Step Client :=
  match client.catcher.send response with
  | .blocked => .blocked
  | .fatal => .fatal
  | .ok catcher =>
    match UnmarshalType response.Data with
    | none => .ok { client with catcher := catcher }
    | some typ =>
      match Client.broadcast typ client.listenerStore client.listeners false with
      | .blocked => .blocked
      | .fatal => .fatal
      | .ok (heap, needGc) =>
        .ok { client with
              catcher := catcher
              listeners := heap
              listenerStore :=
                if needGc then listenerStore.gc heap client.listenerStore
                else client.listenerStore }

/-- Runs the iterations of `Client.receive` for the responses `Receive` returns, in
order. -/
def Client.receiveAll (UnmarshalType : String → Option TdType) :
    List Response → Client → Step Client
  | [], client => .ok client
  | response :: rest, client =>
    match Client.receive UnmarshalType client response with
    | .ok client1 => Client.receiveAll UnmarshalType rest client1
    | .blocked => .blocked
    | .fatal => .fatal

/-- The send `value.(chan *Response) <- update` of `Client.catch`, on the slot at `slot`. -/
def Client.deliver (client : Client) (update : Response) (slot : Nat) : Step Client :=
  match client.slots[slot]? with
  | none => .fatal
  | some ch =>
    match ch.send update with
    | .ok ch1 => .ok { client with slots := client.slots.set slot ch1 }
    | .blocked => .blocked
    | .fatal => .fatal

/-- The body of the loop of `Client.catch` for one `update`. -/
def Client.catch (client : Client) (update : Response) : Step Client :=
  if update.Extra ≠ "" then
    match Load client.catchersStore update.Extra with
    | some slot => client.deliver update slot
    | none => .ok client
  else .ok client

/-- Where the goroutine of `Client.catch` stands. -/
inductive CatchPc where
  /-- at `range updates` -/
  | ranging
  /-- holds `update`, before `catchersStore.Load` -/
  | loading (update : Response)
  /-- the call of `Load` gave the slot, the send comes next -/
  | sending (update : Response) (slot : Nat)
  /-- the channel `updates` is closed and drained, the loop is over -/
  | done
deriving DecidableEq, Repr

/-- One atomic action of the goroutine of `Client.catch`. -/
def Client.catchStep (client : Client) (pc : CatchPc) : Step (Client × CatchPc) :=
  match pc with
  | .ranging =>
    match client.catcher.recv with
    | .ok (some update, ch) => .ok ({ client with catcher := ch }, .loading update)
    | .ok (none, _) => .ok (client, .done)
    | .blocked => .blocked
    | .fatal => .fatal
  | .loading update =>
    if update.Extra ≠ "" then
      match Load client.catchersStore update.Extra with
      | some slot => .ok (client, .sending update slot)
      | none => .ok (client, .ranging)
    else .ok (client, .ranging)
  | .sending update slot =>
    match client.deliver update slot with
    | .ok client1 => .ok (client1, .ranging)
    | .blocked => .blocked
    | .fatal => .fatal
  | .done => .blocked

/-- Where a call of `Client.Send` stands. -/
inductive SendPc where
  | entry (request : Request)
  /-- the slot is stored and the `defer` is set; `client.tdClient.Send(request)` is next -/
  | stored (request : Request) (catcher : Nat)
  /-- at the `select` -/
  | selecting (request : Request) (catcher : Nat)
  /-- the results are set; the deferred `close(catcher)` is next -/
  | closing (request : Request) (catcher : Nat) (response : Option Response)
      (err : Option String)
  /-- the deferred `client.catchersStore.Delete(request.Extra)` is next -/
  | deleting (request : Request) (response : Option Response) (err : Option String)
  | returned (response : Option Response) (err : Option String)
deriving DecidableEq, Repr

/-- The case a `select` of `Client.Send` takes: a reply on `catcher`, or the timer. -/
inductive SelectCase where
  | reply
  | timeout
deriving DecidableEq, Repr

/-- One atomic action of `Client.Send`. `extraGenerator k` is what the configured
generator returns at its call number `k`; `pick` is the case the `select` takes. -/
def Client.Send (extraGenerator : Nat → String) (client : Client) (pick : SelectCase)
    (pc : SendPc) : Step (Client × SendPc) :=
  match pc with
  | .entry request =>
    let extra := extraGenerator client.extraCalls
    let catcher := client.slots.length
    .ok ({ client with
           extraCalls := client.extraCalls + 1
           slots := client.slots ++ [Chan.make 1]
           catchersStore := Store client.catchersStore extra catcher },
         .stored { request with Extra := extra } catcher)
  | .stored request catcher =>
    .ok ({ client with sent := client.sent ++ [request] }, .selecting request catcher)
  | .selecting request catcher =>
    match pick with
    | .timeout => .ok (client, .closing request catcher none (some "response catching timeout"))
    | .reply =>
      match client.slots[catcher]? with
      | none => .blocked
      | some ch =>
        match ch.recv with
        | .ok (response, ch1) =>
          .ok ({ client with slots := client.slots.set catcher ch1 },
               .closing request catcher response none)
        | .blocked => .blocked
        | .fatal => .fatal
  | .closing request catcher response err =>
    match client.slots[catcher]? with
    | none => .fatal
    | some ch =>
      match ch.close with
      | .ok ch1 => .ok ({ client with slots := client.slots.set catcher ch1 },
                        .deleting request response err)
      | .blocked => .blocked
      | .fatal => .fatal
  | .deleting request response err =>
    .ok ({ client with catchersStore := Delete client.catchersStore request.Extra },
         .returned response err)
  | .returned _ _ => .blocked

/-- Runs a call of `Client.Send` on its own for at most `fuel` actions, every `select`
taking the case `pick`; stops where the call cannot move. -/
def runSend (extraGenerator : Nat → String) (pick : SelectCase) :
    Nat → Client → SendPc → Client × SendPc
  | 0, client, pc => (client, pc)
  | fuel + 1, client, pc =>
    match Client.Send extraGenerator client pick pc with
    | .ok (client1, pc1) => runSend extraGenerator pick fuel client1 pc1
    | _ => (client, pc)

/-! ## The adapter while the goroutine of `Client.receive` runs -/

/-- What happens next at the adapter: the goroutine of `Client.receive` takes its next
action (`result` is what the engine returns should that action be the engine call), or
another goroutine locks or unlocks the mutex (`Client.Lock` and `Client.Unlock` are
exported, `Execute` locks it, generated methods unlock it), or some goroutine calls
`NotifyHandled` on a response. -/
inductive Move where
  | loop (result : Option Raw)
  | lock
  | unlock
  | notify (r : Response) (err : Option String)
deriving DecidableEq, Repr

/-- What a move is seen to do. -/
inductive Event where
  /-- a call of `Receive` took the mutex -/
  | acquired
  /-- the `Receive` holding the mutex got a message from the engine -/
  | yielded (r : Response)
  /-- the `Receive` holding the mutex got nothing usable -/
  | nothing
  /-- a deferred function of `Receive` received on this `Handled` channel -/
  | receipt (ch : Option Nat)
  /-- a call of `Receive` released the mutex and returned -/
  | returned (r : Option Response)
  /-- the loop of `Client.receive` came round to its next call of `Receive` -/
  | again
  /-- a move of another goroutine -/
  | other
deriving DecidableEq, Repr

/-- The event of an action of `Receive` that led to `pc`. -/
def Event.ofPc : CallPc → Event
  | .entry => .again
  | .locked => .acquired
  | .failed _ => .nothing
  | .deferred r => .yielded r
  | .handled r => .receipt r.Handled
  | .returned r _ => .returned r

/-- One move of the adapter; `none` when the move is not possible in this state or
ends the program. -/
def adapterStep (s : TDClient × CallPc) (m : Move) : Option (Event × (TDClient × CallPc)) :=
  match m with
  | .loop result =>
    match s.2 with
    | .returned _ _ => some (.again, (s.1, .entry))
    | pc =>
      match s.1.Receive result pc with
      | .ok (c, pc1) => some (Event.ofPc pc1, (c, pc1))
      | _ => none
  | .lock =>
    match s.1.Lock with
    | .ok c => some (.other, (c, s.2))
    | _ => none
  | .unlock =>
    match s.1.Unlock with
    | .ok c => some (.other, (c, s.2))
    | _ => none
  | .notify r err => some (.other, (r.NotifyHandled err s.1, s.2))

/-- Runs a list of moves, collecting the events. -/
def adapterRun : TDClient × CallPc → List Move → Option (List Event × (TDClient × CallPc))
  | s, [] => some ([], s)
  | s, m :: ms =>
    match adapterStep s m with
    | none => none
    | some (e, s1) =>
      match adapterRun s1 ms with
      | none => none
      | some (es, t) => some (e :: es, t)

/-! ## Overlapping calls of `Send` -/

/-- The token under which a call of `Send` has stored a slot that it has not deleted
yet. -/
def SendPc.token : SendPc → Option String
  | .stored request _ => some request.Extra
  | .selecting request _ => some request.Extra
  | .closing request _ _ _ => some request.Extra
  | .deleting request _ _ => some request.Extra
  | _ => none

/-- The token and the slot of a call of `Send` whose slot is outstanding: stored and
not closed yet. -/
def SendPc.live : SendPc → Option (String × Nat)
  | .stored request catcher => some (request.Extra, catcher)
  | .selecting request catcher => some (request.Extra, catcher)
  | .closing request catcher _ _ => some (request.Extra, catcher)
  | _ => none

/-- What happens next among the callers of `Send`: a goroutine calls `Send`, the call
number `i` takes its next action, or `Client.catch` handles an update. -/
inductive SendMove where
  | call (request : Request)
  | act (i : Nat) (pick : SelectCase)
  | deliver (update : Response)
deriving DecidableEq, Repr

/-- One move of the client with its calls of `Send`; `none` when the move is not
possible in this state or ends the program. -/
def sendsStep (extraGenerator : Nat → String) (s : Client × List SendPc) (m : SendMove) :
    Option (Client × List SendPc) :=
  match m with
  | .call request => some (s.1, s.2 ++ [.entry request])
  | .act i pick =>
    match s.2[i]? with
    | none => none
    | some pc =>
      match Client.Send extraGenerator s.1 pick pc with
      | .ok (client, pc1) => some (client, s.2.set i pc1)
      | _ => none
  | .deliver update =>
    match Client.catch s.1 update with
    | .ok client => some (client, s.2)
    | _ => none

/-- Runs a list of moves. -/
def sendsRun (extraGenerator : Nat → String) :
    Client × List SendPc → List SendMove → Option (Client × List SendPc)
  | s, [] => some s
  | s, m :: ms =>
    match sendsStep extraGenerator s m with
    | none => none
    | some s1 => sendsRun extraGenerator s1 ms

/-- What holds of the table `store`, the number `n` of tokens generated and the calls
`pcs` when tokens never repeat: entries and calls carry generated tokens, two calls
never carry the same token, and the slot of every outstanding call is the one found
under its token. -/
structure SendsInv (extraGenerator : Nat → String) (store : List (String × Nat)) (n : Nat)
    (pcs : List SendPc) : Prop where
  table : ∀ (t : String) (ch : Nat), Load store t = some ch →
    ∃ k, k < n ∧ t = extraGenerator k
  tokens : ∀ (i : Nat) (pc : SendPc) (t : String), pcs[i]? = some pc → pc.token = some t →
    ∃ k, k < n ∧ t = extraGenerator k
  distinct : ∀ (i j : Nat) (p q : SendPc) (t : String), pcs[i]? = some p → pcs[j]? = some q →
    p.token = some t → q.token = some t → i = j
  live : ∀ (i : Nat) (pc : SendPc) (t : String) (ch : Nat), pcs[i]? = some pc →
    pc.live = some (t, ch) → Load store t = some ch

/-! ## The calls of the adapter seen from their callers -/

/-- The state of the mutex after each action of a call, for at most `fuel` actions. -/
def lockerTrace (step : TDClient → CallPc → Step (TDClient × CallPc)) :
    Nat → TDClient → CallPc → List Bool
  | 0, _, _ => []
  | fuel + 1, c, pc =>
    match step c pc with
    | .ok (c1, pc1) => c1.locker :: lockerTrace step fuel c1 pc1
    | _ => []

/-- One iteration of the loop of `Client.receive` with its call of `Receive`: on an error
the loop goes to its next iteration (`continue`), otherwise the rest of the iteration
runs on the response. `result` is what the engine returns to `Receive`. -/
def Client.receiveIteration (UnmarshalType : String → Option TdType) (result : Option Raw)
    (client : Client) : Step Client :=
  match runCall (fun c pc => c.Receive result pc) 4 client.tdClient .entry with
  | (td, .returned response err) =>
    match err with
    | some _ => .ok { client with tdClient := td }
    | none =>
      match response with
      | some r => Client.receive UnmarshalType { client with tdClient := td } r
      | none => .fatal
  | _ => .blocked

/-- Method `Client.receive`: the loop `for` over the calls of `Receive`; `results` lists
what the engine returns to the successive calls. -/
def Client.receiveLoop (UnmarshalType : String → Option TdType) :
    List (Option Raw) → Client → Step Client
  | [], client => .ok client
  | result :: rest, client =>
    (Client.receiveIteration UnmarshalType result client).bind
      (Client.receiveLoop UnmarshalType rest)

/-- A method generated from the template of `GenerateFunctions`, as far as the mutex of
the adapter goes: `defer client.Unlock(..)`, then the call of `client.Send` or, for a
synchronous function, of `client.tdClient.Execute`; once the call has returned the
deferred `Unlock` runs. -/
def Client.generated (extraGenerator : Nat → String) (IsSynchronous : Bool)
    (td_json_client_execute : Request → Option Raw) (pick : SelectCase) (client : Client)
    (request : Request) : Step Client :=
  let called : Option Client :=
    if IsSynchronous then
      match runCall (fun c pc => c.Execute request td_json_client_execute pc) 4
          client.tdClient .entry with
      | (td, .returned _ _) => some { client with tdClient := td }
      | _ => none
    else
      match runSend extraGenerator pick 5 client (.entry request) with
      | (client1, .returned _ _) => some client1
      | _ => none
  match called with
  | none => .blocked
  | some client1 =>
    (client1.tdClient.Unlock).bind (fun td => .ok { client1 with tdClient := td })

/-! ## tdlib.go: requests, errors and Int64JSON -/

/-- The assignment `m[k] = v` on a Go map with string keys. -/
def mapAssign (m : List (String × String)) (k v : String) : List (String × String) :=
  (k, v) :: m.filter (fun e => e.1 ≠ k)

/-- The look-up `m[k]` on a Go map with string keys, `none` for a missing key. -/
def mapIndex (m : List (String × String)) (k : String) : Option String :=
  (m.find? (fun e => e.1 = k)).map (fun e => e.2)

/-- The map `Request.MarshalJSON` hands to `json.Marshal`: `request.Data` after the two
assignments. -/
def Request.object (request : Request) : List (String × String) :=
  mapAssign (mapAssign request.Data "@type" request.Typ) "@extra" request.Extra

/-- Method `Request.MarshalJSON`; `Marshal` stands for `json.Marshal` on a map. -/
def Request.MarshalJSON (Marshal : List (String × String) → String) (request : Request) :
    String :=
  Marshal request.object

/-- Modelled from the spec: the generated struct `Error`, the numeric code and the
message of an error reply. -/
structure Error where
  Code : Int
  Message : String
deriving DecidableEq, Repr

/-- The struct `ResponseError`. -/
structure ResponseError where
  Err : Error
deriving DecidableEq, Repr

/-- Method `ResponseError.Error`: `fmt.Sprintf("%d %s", Code, Message)`. -/
def ResponseError.Error (responseError : ResponseError) : String :=
  toString responseError.Err.Code ++ " " ++ responseError.Err.Message

/-- A value of the interface `error` as a generated method returns it: an error of
another kind with its text, or a `ResponseError`. -/
inductive GoError where
  | other (text : String)
  | ResponseError (e : ResponseError)
deriving DecidableEq, Repr

/-- The function `buildResponseError`; `UnmarshalError` is generated code. -/
def buildResponseError (UnmarshalError : String → Except String Error) (data : String) :
    GoError :=
  match UnmarshalError data with
  | .error err => .other err
  | .ok respErr => .ResponseError { Err := respErr }

/-- The end of a method generated from the template of `GenerateFunctions`, from what
`client.Send` or `client.tdClient.Execute` returned: the error check, the check of the
type tag `error`, and the decoding, for which `Unmarshal` stands. A nil result with a
nil error is dereferenced and panics. -/
def generatedResult {α : Type} (UnmarshalError : String → Except String Error)
    (Unmarshal : Response → Option α × Option GoError) (result : Option Response)
    (err : Option String) : Step (Option α × Option GoError) :=
  match err with
  | some e => .ok (none, some (.other e))
  | none =>
    match result with
    | none => .fatal
    | some r =>
      if r.Typ = "error" then .ok (none, some (buildResponseError UnmarshalError r.Data))
      else .ok (Unmarshal r)

/-- The value of the interface `error` a call of `Receive` or `Execute` returned, nil
being `none`: both build their errors with `errors.New`, or pass on that of
`json.Unmarshal`, values with a text and no type of this package. -/
def CallPc.error : CallPc → Option GoError
  | .returned _ (some text) => some (.other text)
  | _ => none

/-- The call `strconv.FormatInt(v, 10)`. -/
def FormatInt (v : Int) : List Char :=
  if v < 0 then '-' :: Nat.toDigits 10 v.natAbs else Nat.toDigits 10 v.natAbs

/-- The value of a decimal digit, `none` for another character. -/
def digitValue (c : Char) : Option Nat :=
  if '0' ≤ c ∧ c ≤ '9' then some (c.toNat - '0'.toNat) else none

/-- The digits of `strconv.ParseUint(s, 10, 64)` read left to right onto `acc`; `none`
for a character that is not a digit. -/
def parseDigits : List Char → Nat → Option Nat
  | [], acc => some acc
  | c :: cs, acc =>
    match digitValue c with
    | some d => parseDigits cs (acc * 10 + d)
    | none => none

/-- The call `strconv.ParseInt(s, 10, 64)`: an optional sign, then at least one digit
and digits only, the value within the range of `int64`; `none` stands for its error. -/
def ParseInt (s : List Char) : Option Int :=
  match s with
  | [] => none
  | '+' :: rest =>
    if rest = [] then none
    else (parseDigits rest 0).bind (fun n => if n < 2 ^ 63 then some (n : Int) else none)
  | '-' :: rest =>
    if rest = [] then none
    else (parseDigits rest 0).bind (fun n => if n ≤ 2 ^ 63 then some (-(n : Int)) else none)
  | c :: rest =>
    (parseDigits (c :: rest) 0).bind (fun n => if n < 2 ^ 63 then some (n : Int) else none)

/-- Method `Int64JSON.MarshalJSON`. -/
def Int64JSON.MarshalJSON (v : Int) : List Char := FormatInt v

/-- Method `Int64JSON.UnmarshalJSON`: `data[1:len(data)-1]` panics on fewer than two
bytes; `.ok none` stands for the error of `ParseInt`, `.ok (some n)` for `*v = n` and a
nil error. -/
def Int64JSON.UnmarshalJSON (data : List Char) : Step (Option Int) :=
  if data.length < 2 then .fatal
  else .ok (ParseInt ((data.drop 1).take (data.length - 2)))

/-- The value of a text of decimal digits. -/
def digitsValue (digits : List Char) : Nat :=
  digits.foldl (fun acc c => acc * 10 + (c.toNat - '0'.toNat)) 0

/-- From the claim: the text is a decimal `int64` of value `n`, an optional sign and then
digits only, at least one, the value with its sign within the range of `int64`. -/
def decimalInt64 (t : List Char) (n : Int) : Prop :=
  ∃ digits : List Char, digits ≠ [] ∧ (∀ c ∈ digits, '0' ≤ c ∧ c ≤ '9')
    ∧ ((t = digits ∧ n = (digitsValue digits : Int))
        ∨ (t = '+' :: digits ∧ n = (digitsValue digits : Int))
        ∨ (t = '-' :: digits ∧ n = -(digitsValue digits : Int)))
    ∧ -2 ^ 63 ≤ n ∧ n < 2 ^ 63

/-! ## authorization.go -/

/-- Modelled from the spec: the generated variants of the interface `AuthorizationState`,
one for each type constant `authorization.go` switches on; `IsRegistered` is the field of
`AuthorizationStateWaitCode` that `CliInteractor` reads. -/
inductive AuthorizationState where
  | WaitTdlibParameters
  | WaitEncryptionKey
  | WaitPhoneNumber
  | WaitCode (IsRegistered : Bool)
  | WaitPassword
  | Ready
  | LoggingOut
  | Closing
  | Closed
deriving DecidableEq, Repr

/-- Modelled from the spec: the generated constant `TypeAuthorizationStateReady`. -/
def TypeAuthorizationStateReady : String := "authorizationStateReady"

/-- Modelled from the spec: the generated method `AuthorizationStateType`, the type tag
of a state. -/
def AuthorizationState.AuthorizationStateType : AuthorizationState → String
  | .WaitTdlibParameters => "authorizationStateWaitTdlibParameters"
  | .WaitEncryptionKey => "authorizationStateWaitEncryptionKey"
  | .WaitPhoneNumber => "authorizationStateWaitPhoneNumber"
  | .WaitCode _ => "authorizationStateWaitCode"
  | .WaitPassword => "authorizationStateWaitPassword"
  | .Ready => "authorizationStateReady"
  | .LoggingOut => "authorizationStateLoggingOut"
  | .Closing => "authorizationStateClosing"
  | .Closed => "authorizationStateClosed"

/-- What a call of `client.GetAuthorizationState()` returns: a state or an error. -/
inductive Query where
  | state (s : AuthorizationState)
  | error (err : String)
deriving DecidableEq, Repr

/-- What `Authorize` is seen to do. -/
inductive AuthEvent where
  /-- a call of `client.GetAuthorizationState()` -/
  | query
  /-- a call of `authorizationStateHandler.Handle(client, state)` -/
  | handle (state : AuthorizationState)
  /-- the call `time.Sleep(1 * time.Second)` -/
  | sleep
  /-- the deferred call of `authorizationStateHandler.Close()` -/
  | close
deriving DecidableEq, Repr

/-- How a run of `Authorize` stands: it has returned an error or nil; it is at its next
call of `GetAuthorizationState` and the answer is not known yet; it waits inside the
handler; or it has panicked. -/
inductive AuthOutcome where
  | returned (err : Option String)
  | querying
  | blocked
  | panicked
deriving DecidableEq, Repr

/-- A run of `Authorize`: what it did, the handler as it left it, how it stands, and
the answers of the engine it has not asked for. -/
structure AuthRun (σ : Type) where
  trace : List AuthEvent
  handler : σ
  outcome : AuthOutcome
  rest : List Query

/-- The loop of `Authorize` for a handler with state `σ`. `answers` lists what the
successive calls of `GetAuthorizationState` return; `Handle` gives the handler after
the call and the error it returns. -/
def Authorize.loop {σ : Type} (Handle : σ → AuthorizationState → Step (σ × Option String)) :
    List Query → σ → List AuthEvent → AuthRun σ
  | [], h, tr => { trace := tr, handler := h, outcome := .querying, rest := [] }
  | .error err :: rest, h, tr =>
    { trace := tr ++ [.query], handler := h, outcome := .returned (some err), rest := rest }
  | .state s :: rest, h, tr =>
    match Handle h s with
    | .blocked =>
      { trace := tr ++ [.query, .handle s], handler := h, outcome := .blocked, rest := rest }
    | .fatal =>
      { trace := tr ++ [.query, .handle s], handler := h, outcome := .panicked, rest := rest }
    | .ok (h1, some err) =>
      { trace := tr ++ [.query, .handle s], handler := h1, outcome := .returned (some err),
        rest := rest }
    | .ok (h1, none) =>
      if s.AuthorizationStateType = TypeAuthorizationStateReady then
        { trace := tr ++ [.query, .handle s, .sleep], handler := h1,
          outcome := .returned none, rest := rest }
      else Authorize.loop Handle rest h1 (tr ++ [.query, .handle s])

/-- The function `Authorize`: the loop, and the deferred `Close()` of the handler when the
loop returns or panics. -/
def Authorize {σ : Type} (Handle : σ → AuthorizationState → Step (σ × Option String))
    (Close : σ → Step σ) (answers : List Query) (h : σ) : AuthRun σ :=
  let run := Authorize.loop Handle answers h []
  match run.outcome with
  | .querying => run
  | .blocked => run
  | _ =>
    match Close run.handler with
    | .ok h1 => { run with trace := run.trace ++ [.close], handler := h1 }
    | .blocked => { run with trace := run.trace ++ [.close], outcome := .blocked }
    | .fatal => { run with trace := run.trace ++ [.close], outcome := .panicked }

/-- The handler after `Handle` has returned nil on each of the states in turn; `none`
when a call returns an error, waits or panics. -/
def handleAll {σ : Type} (Handle : σ → AuthorizationState → Step (σ × Option String)) :
    σ → List AuthorizationState → Option σ
  | h, [] => some h
  | h, s :: rest =>
    match Handle h s with
    | .ok (h1, none) => handleAll Handle h1 rest
    | _ => none

/-- The events of the rounds of `Authorize` on the states in turn: a query and the
call of `Handle` on its answer, for each. -/
def AuthEvent.rounds : List AuthorizationState → List AuthEvent
  | [] => []
  | s :: rest => .query :: .handle s :: AuthEvent.rounds rest

/-- The states of the calls of `Handle` in a trace, in order. -/
def AuthEvent.handled : List AuthEvent → List AuthorizationState
  | [] => []
  | .handle s :: rest => s :: AuthEvent.handled rest
  | _ :: rest => AuthEvent.handled rest

/-- The handler after calls of `Handle` on the states in turn, each on the handler the
call before left; a call that waits or panics ends them and leaves the handler as it
found it. -/
def handleThrough {σ : Type} (Handle : σ → AuthorizationState → Step (σ × Option String)) :
    σ → List AuthorizationState → σ
  | h, [] => h
  | h, s :: rest =>
    match Handle h s with
    | .ok (h1, _) => handleThrough Handle h1 rest
    | _ => h

/-- What `NewClient` returns: the client or nil, the error or nil, and whether
`client.ForceStopAndDestroy()` ran. -/
structure NewClientResult where
  client : Option Client
  err : Option String
  destroyed : Bool
deriving DecidableEq, Repr

/-- The request of the generated method `Destroy`. -/
def destroyRequest : Request := { Typ := "destroy", Extra := "", Data := [] }

/-- Method `Client.ForceStopAndDestroy`: `client.Destroy()`, a method generated from the
template of `GenerateFunctions`, with its deferred `Unlock`, and then
`client.tdClient.Destroy()`, which only frees the engine. -/
def Client.ForceStopAndDestroy (extraGenerator : Nat → String) (IsSynchronous : Bool)
    (td_json_client_execute : Request → Option Raw) (pick : SelectCase) (client : Client) :
    Step Client :=
  Client.generated extraGenerator IsSynchronous td_json_client_execute pick client
    destroyRequest

/-- The end of `NewClient`, from the error `Authorize` returned: on an error
`client.ForceStopAndDestroy()` and then `return nil, err`. -/
def NewClient.finish (extraGenerator : Nat → String) (IsSynchronous : Bool)
    (td_json_client_execute : Request → Option Raw) (pick : SelectCase) (client : Client)
    (err : Option String) : Step NewClientResult :=
  match err with
  | some e =>
    (client.ForceStopAndDestroy extraGenerator IsSynchronous td_json_client_execute
      pick).bind (fun _ => .ok { client := none, err := some e, destroyed := true })
  | none => .ok { client := some client, err := none, destroyed := false }

/-- Modelled from the spec: the generated struct `TdlibParameters`, the engine
configuration supplied by the caller, kept as text. -/
structure TdlibParameters where
  text : String
deriving DecidableEq, Repr

/-- Modelled from the spec: the requests of the generated methods the handlers call,
each with the fields the handler sets. -/
inductive AuthRequest where
  | SetTdlibParameters (Parameters : Option TdlibParameters)
  | CheckDatabaseEncryptionKey
  | SetAuthenticationPhoneNumber (PhoneNumber : String) (AllowFlashCall : Bool)
      (IsCurrentPhoneNumber : Bool)
  | CheckAuthenticationCode (Code : String) (FirstName : String) (LastName : String)
  | CheckAuthenticationPassword (Password : String)
  | CheckAuthenticationBotToken (Token : String)
deriving DecidableEq, Repr

/-- The struct `Authorizer`. -/
structure Authorizer where
  TdlibParameters : Chan TdlibParameters
  PhoneNumber : Chan String
  Code : Chan String
  State : Chan AuthorizationState
  FirstName : Chan String
  LastName : Chan String
  Password : Chan String
deriving DecidableEq, Repr

/-- The function `NewClientAuthorizer`. -/
def NewClientAuthorizer : Authorizer :=
  { TdlibParameters := Chan.make 1, PhoneNumber := Chan.make 1, Code := Chan.make 1,
    State := Chan.make 10, FirstName := Chan.make 1, LastName := Chan.make 1,
    Password := Chan.make 1 }

/-- A receive `<-ch` on a channel of strings: the zero value of a closed and drained
channel is the empty string. -/
def recvString (ch : Chan String) : Step (String × Chan String) :=
  (Chan.recv ch).bind (fun r => .ok (r.1.getD "", r.2))

/-- The first statement of `Authorizer.Handle`: `a.State <- state`. -/
def Authorizer.announce (a : Authorizer) (state : AuthorizationState) : Step Authorizer :=
  (a.State.send state).bind (fun st => .ok { a with State := st })

/-- The `switch` of `Authorizer.Handle`: the handler afterwards, the request passed to the
client if any, and the error returned. `call` gives the error the generated method
returns for a request. -/
def Authorizer.act (call : AuthRequest → Option String) (a : Authorizer)
    (state : AuthorizationState) : Step (Authorizer × Option AuthRequest × Option String) :=
  match state with
  | .WaitTdlibParameters =>
    (Chan.recv a.TdlibParameters).bind (fun r =>
      .ok ({ a with TdlibParameters := r.2 }, some (.SetTdlibParameters r.1),
           call (.SetTdlibParameters r.1)))
  | .WaitEncryptionKey =>
    .ok (a, some .CheckDatabaseEncryptionKey, call .CheckDatabaseEncryptionKey)
  | .WaitPhoneNumber =>
    (recvString a.PhoneNumber).bind (fun r =>
      .ok ({ a with PhoneNumber := r.2 },
           some (.SetAuthenticationPhoneNumber r.1 false false),
           call (.SetAuthenticationPhoneNumber r.1 false false)))
  | .WaitCode _ =>
    (recvString a.Code).bind (fun c =>
      (recvString a.FirstName).bind (fun f =>
        (recvString a.LastName).bind (fun l =>
          .ok ({ a with Code := c.2, FirstName := f.2, LastName := l.2 },
               some (.CheckAuthenticationCode c.1 f.1 l.1),
               call (.CheckAuthenticationCode c.1 f.1 l.1)))))
  | .WaitPassword =>
    (recvString a.Password).bind (fun r =>
      .ok ({ a with Password := r.2 }, some (.CheckAuthenticationPassword r.1),
           call (.CheckAuthenticationPassword r.1)))
  | .Ready => .ok (a, none, none)
  | .LoggingOut => .ok (a, none, none)
  | .Closing => .ok (a, none, none)
  | .Closed => .ok (a, none, none)

/-- Method `Authorizer.Handle`. -/
def Authorizer.Handle (call : AuthRequest → Option String) (a : Authorizer)
    (state : AuthorizationState) : Step (Authorizer × Option AuthRequest × Option String) :=
  (a.announce state).bind (fun a1 => a1.act call state)

/-- Method `Authorizer.Handle` as `Authorize` sees it: the handler afterwards and the
error. -/
def Authorizer.handler (call : AuthRequest → Option String) (a : Authorizer)
    (state : AuthorizationState) : Step (Authorizer × Option String) :=
  (a.Handle call state).bind (fun r => .ok (r.1, r.2.2))

/-- Method `Authorizer.Close`: the seven channels are closed in the order of the
source. -/
def Authorizer.Close (a : Authorizer) : Step Authorizer :=
  (Chan.close a.TdlibParameters).bind (fun c1 =>
  (Chan.close a.PhoneNumber).bind (fun c2 =>
  (Chan.close a.Code).bind (fun c3 =>
  (Chan.close a.State).bind (fun c4 =>
  (Chan.close a.FirstName).bind (fun c5 =>
  (Chan.close a.LastName).bind (fun c6 =>
  (Chan.close a.Password).bind (fun c7 =>
    .ok { TdlibParameters := c1, PhoneNumber := c2, Code := c3, State := c4,
          FirstName := c5, LastName := c6, Password := c7 })))))))

/-- Function `unicode.IsSpace`, which `strings.Fields` splits at; `isSpace` of package
`fmt` holds of the same characters. -/
def IsSpace (c : Char) : Bool :=
  (0x09 ≤ c.toNat && c.toNat ≤ 0x0D) || c.toNat = 0x20 || c.toNat = 0x85 || c.toNat = 0xA0
    || c.toNat = 0x1680 || (0x2000 ≤ c.toNat && c.toNat ≤ 0x200A) || c.toNat = 0x2028
    || c.toNat = 0x2029 || c.toNat = 0x202F || c.toNat = 0x205F || c.toNat = 0x3000

/-- The method `ss.SkipSpace` as `Scanln` runs it, on the characters typed at the
terminal and not read yet: white space is passed over; a newline is read and is the
error `unexpected newline` (`false`); before another character it stops (`true`). With
nothing typed the read waits. -/
def Scanln.SkipSpace : List Char → Step (Bool × List Char)
  | [] => .blocked
  | c :: cs =>
    if c.toNat = 10 then .ok (false, cs)
    else if IsSpace c then Scanln.SkipSpace cs
    else .ok (true, c :: cs)

/-- The method `ss.token` with `notSpace`: the characters up to the next white space,
which is left unread. -/
def Scanln.token : List Char → Step (List Char × List Char)
  | [] => .blocked
  | c :: cs =>
    if IsSpace c then .ok ([], c :: cs)
    else (Scanln.token cs).bind (fun r => .ok (c :: r.1, r.2))

/-- The loop that ends `doScan` for `Scanln`: white space is passed over up to the
newline, which is read; another character is read as well and is the error
`expected newline`. -/
def Scanln.endOfLine : List Char → Step (List Char)
  | [] => .blocked
  | c :: cs =>
    if c.toNat = 10 then .ok cs
    else if IsSpace c then Scanln.endOfLine cs
    else .ok cs

/-- The call `fmt.Scanln(&v)` for a string `v` that is empty before the call, at a
terminal: one word, the characters up to the next white space, and what is typed and
not read; on an empty line `v` stays empty. The error `Scanln` returns is dropped by its
callers here. -/
def Scanln (stdin : List Char) : Step (String × List Char) :=
  (Scanln.SkipSpace stdin).bind (fun r =>
    if r.1 then
      (Scanln.token r.2).bind (fun t =>
        (Scanln.endOfLine t.2).bind (fun rest => .ok (String.mk t.1, rest)))
    else .ok ("", r.2))

/-- One iteration of the loop of `CliInteractor`: the handler and the characters still
to read afterwards, and whether the function has returned. -/
def CliInteractor (a : Authorizer) (stdin : List Char) :
    Step (Authorizer × List Char × Bool) :=
  (Chan.recv a.State).bind (fun r =>
    match r.1 with
    | none => .ok (a, stdin, true)
    | some state =>
      let a1 : Authorizer := { a with State := r.2 }
      match state with
      | .WaitPhoneNumber =>
        (Scanln stdin).bind (fun phoneNumber =>
          (a1.PhoneNumber.send phoneNumber.1).bind (fun ch =>
            .ok ({ a1 with PhoneNumber := ch }, phoneNumber.2, false)))
      | .WaitCode IsRegistered =>
        (Scanln stdin).bind (fun code =>
          (if !IsRegistered then
            (Scanln code.2).bind (fun firstName =>
              (Scanln firstName.2).bind (fun lastName =>
                .ok (firstName.1, lastName.1, lastName.2)))
           else .ok ("", "", code.2)).bind (fun names =>
            (a1.Code.send code.1).bind (fun c =>
              (a1.FirstName.send names.1).bind (fun f =>
                (a1.LastName.send names.2.1).bind (fun l =>
                  .ok ({ a1 with Code := c, FirstName := f, LastName := l },
                       names.2.2, false))))))
      | .WaitPassword =>
        (Scanln stdin).bind (fun password =>
          (a1.Password.send password.1).bind (fun ch =>
            .ok ({ a1 with Password := ch }, password.2, false)))
      | .Ready => .ok (a1, stdin, true)
      | _ => .ok (a1, stdin, false))

/-- The struct `BotAuthorizer`. -/
structure BotAuthorizer where
  TdlibParameters : Chan TdlibParameters
  Token : Chan String
  State : Chan AuthorizationState
deriving DecidableEq, Repr

/-- The function `NewBotAuthorizer`: the three channels, and `a.Token <- token`. -/
def NewBotAuthorizer (token : String) : BotAuthorizer :=
  { TdlibParameters := Chan.make 1
    Token := { buf := [token], cap := 1, closed := false }
    State := Chan.make 10 }

/-- The first statement of `BotAuthorizer.Handle`: `a.State <- state`. -/
def BotAuthorizer.announce (a : BotAuthorizer) (state : AuthorizationState) :
    Step BotAuthorizer :=
  (a.State.send state).bind (fun st => .ok { a with State := st })

/-- The `switch` of `BotAuthorizer.Handle`: the handler afterwards, the request passed to
the client if any, and the error returned. -/
def BotAuthorizer.act (call : AuthRequest → Option String) (a : BotAuthorizer)
    (state : AuthorizationState) :
    Step (BotAuthorizer × Option AuthRequest × Option String) :=
  match state with
  | .WaitTdlibParameters =>
    (Chan.recv a.TdlibParameters).bind (fun r =>
      .ok ({ a with TdlibParameters := r.2 }, some (.SetTdlibParameters r.1),
           call (.SetTdlibParameters r.1)))
  | .WaitEncryptionKey =>
    .ok (a, some .CheckDatabaseEncryptionKey, call .CheckDatabaseEncryptionKey)
  | .WaitPhoneNumber =>
    (recvString a.Token).bind (fun r =>
      .ok ({ a with Token := r.2 }, some (.CheckAuthenticationBotToken r.1),
           call (.CheckAuthenticationBotToken r.1)))
  | .WaitCode _ => .ok (a, none, none)
  | .WaitPassword => .ok (a, none, none)
  | .Ready => .ok (a, none, none)
  | .LoggingOut => .ok (a, none, none)
  | .Closing => .ok (a, none, none)
  | .Closed => .ok (a, none, none)

/-- Method `BotAuthorizer.Handle`. -/
def BotAuthorizer.Handle (call : AuthRequest → Option String) (a : BotAuthorizer)
    (state : AuthorizationState) :
    Step (BotAuthorizer × Option AuthRequest × Option String) :=
  (a.announce state).bind (fun a1 => a1.act call state)

/-- Method `BotAuthorizer.Handle` as `Authorize` sees it: the handler afterwards and the
error. -/
def BotAuthorizer.handler (call : AuthRequest → Option String) (a : BotAuthorizer)
    (state : AuthorizationState) : Step (BotAuthorizer × Option String) :=
  (a.Handle call state).bind (fun r => .ok (r.1, r.2.2))

/-- Method `BotAuthorizer.Close`: the three channels are closed in the order of the
source. -/
def BotAuthorizer.Close (a : BotAuthorizer) : Step BotAuthorizer :=
  (Chan.close a.TdlibParameters).bind (fun c1 =>
  (Chan.close a.Token).bind (fun c2 =>
  (Chan.close a.State).bind (fun c3 =>
    .ok { TdlibParameters := c1, Token := c2, State := c3 })))

/-- The handler after `Handle` has returned, with an error or with nil, on each of the
states in turn, nobody reading its queue meanwhile; `none` when a call waits or
panics. -/
def handleEach {σ : Type} (Handle : σ → AuthorizationState → Step (σ × Option String)) :
    σ → List AuthorizationState → Option σ
  | h, [] => some h
  | h, s :: rest =>
    match Handle h s with
    | .ok (h1, _) => handleEach Handle h1 rest
    | _ => none

/-- A call of `Authorizer.Handle` with `CliInteractor` running between its first
statement and its `switch`: `Handle` puts the state on `a.State`, one iteration of
`CliInteractor` takes it and reads the terminal, then the `switch` of `Handle` runs.
Gives what `Handle` gives, and the characters of the terminal not read. -/
def Authorizer.HandleWithCli (call : AuthRequest → Option String) (a : Authorizer)
    (state : AuthorizationState) (stdin : List Char) :
    Step ((Authorizer × Option AuthRequest × Option String) × List Char) :=
  (a.announce state).bind (fun a1 =>
    (CliInteractor a1 stdin).bind (fun r =>
      (r.1.act call state).bind (fun res => .ok (res, r.2.1))))

/-! ## tlparser/string.go -/

/-- Function `strings.Replace(s, old, new, -1)` for a non-empty `old`, on the characters
of `s` from left to right (the strings of `FixAAA` are ASCII, where bytes and characters
coincide): where `old` starts, `new` is written and the scan goes on
behind the occurrence (`skip` counts the characters of it still to pass), elsewhere the
character is copied. -/
def replaceFrom (old new : List Char) : Nat → List Char → List Char
  | _, [] => []
  | skip + 1, _ :: cs => replaceFrom old new skip cs
  | 0, c :: cs =>
    if old.isPrefixOf (c :: cs) then new ++ replaceFrom old new (old.length - 1) cs
    else c :: replaceFrom old new 0 cs

/-- Function `strings.ReplaceAll`: every non-overlapping occurrence of `old` in `s`,
from the left, is replaced by `new`; an empty `old` matches before every character and
at the end. -/
def ReplaceAll (s old new : String) : String :=
  if old.data = [] then String.mk (new.data ++ s.data.flatMap (fun c => c :: new.data))
  else String.mk (replaceFrom old.data new.data 0 s.data)

/-- Function `FixAAA`: fixes known acronyms and abbreviations to be upper case. -/
def FixAAA (str : String) : String :=
  let result := str
  let result := ReplaceAll result "Api" "API"
  let result := ReplaceAll result "Id" "ID"
  let result := ReplaceAll result "IDenti" "Identi"
  let result := ReplaceAll result "Ip" "IP"
  let result := ReplaceAll result "Json" "JSON"
  let result := ReplaceAll result "Html" "HTML"
  let result := ReplaceAll result "Http" "HTTP"
  let result := ReplaceAll result "Ttl" "TTL"
  let result := ReplaceAll result "Udp" "UDP"
  let result := ReplaceAll result "Uri" "URI"
  let result := ReplaceAll result "Url" "URL"
  result

/-- Function `strings.Contains`: `substr` occurs in `s`. -/
def Contains (s substr : String) : Prop :=
  substr.data <:+: s.data

instance Contains.decidable (s substr : String) : Decidable (Contains s substr) :=
  inferInstanceAs (Decidable (substr.data <:+: s.data))

/-! ## Notions used to reason about the replacements of FixAAA -/

/-- The replacements of `FixAAA`, in the order of the source. -/
def acronyms : List (String × String) :=
  [("Api", "API"), ("Id", "ID"), ("IDenti", "Identi"), ("Ip", "IP"), ("Json", "JSON"),
    ("Html", "HTML"), ("Http", "HTTP"), ("Ttl", "TTL"), ("Udp", "UDP"), ("Uri", "URI"),
    ("Url", "URL")]

/-- The characters that `new` has where it differs from `old`. -/
def changed : List Char → List Char → List Char
  | a :: old, b :: new => if a = b then changed old new else b :: changed old new
  | _, _ => []

/-- Text `t` has the length of `s` and, at every position, the character of `s` or one
of `C`. -/
def within (C : List Char) : List Char → List Char → Bool
  | [], [] => true
  | a :: s, b :: t => (b == a || C.contains b) && within C s t
  | _, _ => false

/-- Replacing `old` by `new` cannot produce an occurrence of `q`: the replacement only
writes characters that `q` does not have. -/
def keeps (q old new : List Char) : Bool :=
  !old.isEmpty && within (changed old new) old new
    && q.all (fun c => !(changed old new).contains c)

/-- Replacing `old` by `new` leaves no `old`: no end of `new` is a start of `old`, and
the characters written are not among those of `old` after the first. -/
def removes (old new : List Char) : Bool :=
  !old.isEmpty && within (changed old new) old new
    && old.tail.all (fun c => !(changed old new).contains c)
    && (List.range old.length).all (fun j => new.drop j != old.take (old.length - j))

/-- Pattern `q` stands in the text `t` at position `k`. -/
def occursAt (q t : List Char) (k : Nat) : Prop :=
  ∀ m, m < q.length → t[k + m]? = q[m]?

/-- Replacing `old` by `new` leaves an occurrence of `q` alone behind its first character:
`new` is as long as `old` and starts as it does, and no two neighbouring characters of `q`
are neighbours in `old` with the second of them rewritten. -/
def spares (q old new : List Char) : Bool :=
  !old.isEmpty && old.length == new.length && old[0]? == new[0]?
    && (List.range (q.length - 1)).all (fun m => (List.range old.length).all (fun j =>
      j == 0 || !(old[j - 1]? == q[m]? && old[j]? == q[m + 1]?) || new[j]? == old[j]?))

/-- Every `Id` of the text is the start of `Identi`. -/
def IdStartsIdenti (t : List Char) : Prop :=
  ∀ k, t[k]? = some 'I' → t[k + 1]? = some 'd' → occursAt ['I', 'd', 'e', 'n', 't', 'i'] t k

/-- Text `t` holds `UR` just before position `k`. -/
def followsUR (t : List Char) (k : Nat) : Prop :=
  2 ≤ k ∧ t[k - 2]? = some 'U' ∧ t[k - 1]? = some 'R'

/-- Every occurrence of `p` in the text is the start of an occurrence of `q`. -/
def eachStarts (p q : List Char) : List Char → Bool
  | [] => true
  | c :: cs => (!p.isPrefixOf (c :: cs) || q.isPrefixOf (c :: cs)) && eachStarts p q cs

/-! ## tlparser: the functions of package strings it calls -/

/-- Function `strings.HasPrefix`. -/
def HasPrefix (s pre : String) : Bool := pre.data.isPrefixOf s.data

/-- The scan of `strings.Fields`: the characters still to read and the field begun. -/
def Fields.loop : List Char → List Char → List String
  | [], field => if field = [] then [] else [String.mk field]
  | c :: cs, field =>
    if IsSpace c then
      if field = [] then Fields.loop cs [] else String.mk field :: Fields.loop cs []
    else Fields.loop cs (field ++ [c])

/-- Function `strings.Fields`: the maximal runs of characters that are not white space. -/
def Fields (s : String) : List String := Fields.loop s.data []

/-- The scan of `strings.Split` for a separator of one character. -/
def Split.loop (sep : Char) : List Char → List Char → List String
  | [], part => [String.mk part]
  | c :: cs, part =>
    if c = sep then String.mk part :: Split.loop sep cs [] else Split.loop sep cs (part ++ [c])

/-- Function `strings.Split` for a separator of one character, as at its calls in the
parser: the parts between the separators, one more than there are separators. -/
def Split (s : String) (sep : Char) : List String := Split.loop sep s.data []

/-- Function `strings.Join`. -/
def Join : List String → String → String
  | [], _ => ""
  | [a], _ => a
  | a :: b :: rest, sep => a ++ sep ++ Join (b :: rest) sep

/-- Function `strings.TrimLeft`: the leading characters that are in `cutset` removed. -/
def TrimLeft (s cutset : String) : String :=
  String.mk (s.data.dropWhile (fun c => cutset.data.contains c))

/-- Function `strings.TrimRight`: the trailing characters that are in `cutset` removed. -/
def TrimRight (s cutset : String) : String :=
  String.mk (s.data.reverse.dropWhile (fun c => cutset.data.contains c)).reverse

/-- Function `strings.TrimPrefix`. -/
def TrimPrefix (s pre : String) : String :=
  if HasPrefix s pre then String.mk (s.data.drop pre.data.length) else s

/-! ## tlparser/type.go -/

/-- The struct `Property`. -/
structure Property where
  Name : String
  Typ : String
  Description : String
deriving DecidableEq, Repr

/-- The struct `Type` of the schema. -/
structure SchemaType where
  Name : String
  Description : String
  Class : String
  Properties : List Property
deriving DecidableEq, Repr

/-- The struct `Class`. -/
structure Class where
  Name : String
  Description : String
deriving DecidableEq, Repr

/-- The constants of `FunctionType`. -/
inductive FunctionType where
  | FunctionTypeUnknown
  | FunctionTypeCommon
  | FunctionTypeUser
  | FunctionTypeBot
deriving DecidableEq, Repr

/-- The struct `Function`. -/
structure Function where
  Name : String
  Description : String
  Class : String
  Properties : List Property
  IsSynchronous : Bool
  Typ : FunctionType
deriving DecidableEq, Repr

/-- The struct `Schema`. -/
structure Schema where
  Types : List SchemaType
  Classes : List Class
  Functions : List Function
deriving DecidableEq, Repr

/-! ## tlparser/parser.go -/

/-- Function `parseProperty`: `strParts[0]` panics when the text has no field. -/
def parseProperty (str : String) : Step (String × String) :=
  match Fields str with
  | [] => .fatal
  | first :: rest => .ok (FixAAA first, FixAAA (Join rest " "))

/-- Function `getProperty`, the pointer it returns being the position of the property;
`none` is nil. -/
def getProperty : List Property → String → Option Nat
  | [], _ => none
  | property :: rest, name =>
    if property.Name = name then some 0 else (getProperty rest name).map (fun i => i + 1)

/-- Function `parseClass`: `classLineParts[1]` and `classLineParts[2]` panic on a line
with fewer than two `@`. -/
def parseClass (firstLine : String) : Step Class :=
  match Split firstLine '@' with
  | _ :: p1 :: rest =>
    (parseProperty p1).bind (fun name =>
      match rest with
      | p2 :: _ => (parseProperty p2).bind (fun description =>
          .ok { Name := name.2, Description := description.2 })
      | [] => .fatal)
  | _ => .fatal

/-- The loop `Loop:` of `parseEntity` on the lines the scanner still has: it reads on
while a line starts with `//@` or with two slashes and a dash, adding to
`propertiesLine`, and stops behind the
first other line, the body. Returns `propertiesLine`, the body if there is one, and the
number of lines read. -/
def parseEntity.scan : String → List String → String × Option String × Nat
  | propertiesLine, [] => (propertiesLine, none, 0)
  | propertiesLine, line :: rest =>
    if HasPrefix line "//@" then
      let r := parseEntity.scan (propertiesLine ++ " " ++ TrimLeft line "//") rest
      (r.1, r.2.1, r.2.2 + 1)
    else if HasPrefix line "//-" then
      let r := parseEntity.scan (propertiesLine ++ " " ++ TrimLeft line "//-") rest
      (r.1, r.2.1, r.2.2 + 1)
    else (propertiesLine, some line, 1)

/-- The loop over `bodyFields[1 : len(bodyFields)-2]` of `parseEntity`:
`propertyParts[1]` panics on a field without a colon. -/
def parseEntity.properties : List String → Step (List Property)
  | [] => .ok []
  | rawProperty :: rest =>
    match Split rawProperty ':' with
    | p0 :: p1 :: _ =>
      (parseEntity.properties rest).bind (fun properties =>
        .ok ({ Name := FixAAA p0, Typ := FixAAA p1, Description := "" } :: properties))
    | _ => .fatal

/-- The default case of the loop of `parseEntity`, on the body line: `name`, the
properties and `class`. Both `bodyFields[0]` and the slice
`bodyFields[1 : len(bodyFields)-2]` panic on a line of fewer than three fields. -/
def parseEntity.body (line : String) : Step (String × List Property × String) :=
  let bodyFields := Fields line
  match bodyFields with
  | [] => .fatal
  | first :: _ =>
    if bodyFields.length < 3 then .fatal
    else
      (parseEntity.properties ((bodyFields.take (bodyFields.length - 2)).drop 1)).bind
        (fun properties =>
          .ok (FixAAA first, properties,
            FixAAA (TrimRight (bodyFields.getLastD "") ";")))

/-- The loop over `rawProperties[1:]` of `parseEntity`: an annotation `description`
sets the description, any other sets the description of the property of its name, and
`property.Description = value` panics when `getProperty` returned nil. -/
def parseEntity.rawProperties :
    List String → String → List Property → Step (String × List Property)
  | [], description, properties => .ok (description, properties)
  | rawProperty :: rest, description, properties =>
    match parseProperty rawProperty with
    | .ok (name, value) =>
      if name = "description" then parseEntity.rawProperties rest value properties
      else
        match getProperty properties (TrimPrefix name "param_") with
        | none => .fatal
        | some i =>
          parseEntity.rawProperties rest description
            (properties.modify (fun property => { property with Description := value }) i)
    | .blocked => .blocked
    | .fatal => .fatal

/-- What `parseEntity` returns. -/
structure Entity where
  name : String
  description : String
  class_ : String
  properties : List Property
  isSynchronous : Bool
deriving DecidableEq, Repr

/-- Function `parseEntity` on its first line and the lines the scanner still has;
returns the entity with the number of lines it read from the scanner. -/
def parseEntity (firstLine : String) (scanner : List String) : Step (Entity × Nat) :=
  let r := parseEntity.scan (TrimLeft firstLine "//") scanner
  let found : Step (String × List Property × String) :=
    match r.2.1 with
    | some line => parseEntity.body line
    | none => .ok ("", [], "")
  found.bind (fun b =>
    (parseEntity.rawProperties ((Split r.1 '@').drop 1) "" b.2.1).bind (fun a =>
      .ok ({ name := b.1, description := a.1, class_ := b.2.2, properties := a.2,
             isSynchronous := decide (Contains a.1 "Can be called synchronously") },
           r.2.2)))

/-- Function `parseType`. -/
def parseType (firstLine : String) (scanner : List String) : Step (SchemaType × Nat) :=
  (parseEntity firstLine scanner).bind (fun e =>
    .ok ({ Name := e.1.name, Description := e.1.description, Class := e.1.class_,
           Properties := e.1.properties }, e.2))

/-- Function `parseFunction`. -/
def parseFunction (firstLine : String) (scanner : List String) : Step (Function × Nat) :=
  (parseEntity firstLine scanner).bind (fun e =>
    .ok ({ Name := e.1.name, Description := e.1.description, Class := e.1.class_,
           Properties := e.1.properties, IsSynchronous := e.1.isSynchronous,
           Typ := .FunctionTypeUnknown }, e.2))

/-- The default case of the loop of `Parse`, on a line outside a description block:
`bodyFields[0]` panics on a line of white space. -/
def Parse.bare (line : String) (schema : Schema) (hitFunctions : Bool) : Step Schema :=
  let bodyFields := Fields line
  match bodyFields with
  | [] => .fatal
  | first :: _ =>
    let name := FixAAA first
    let class_ := FixAAA (TrimRight (bodyFields.getLastD "") ";")
    if hitFunctions then
      .ok { schema with
            Functions := schema.Functions ++
              [{ Name := name, Description := "", Class := class_, Properties := [],
                 IsSynchronous := false, Typ := .FunctionTypeUnknown }] }
    else
      if name = "vector" then
        .ok { schema with
              Types := schema.Types ++
                [{ Name := "vector<t>", Description := "", Class := "Vector<T>",
                   Properties := [] }] }
      else
        .ok { schema with
              Types := schema.Types ++
                [{ Name := name, Description := "", Class := class_, Properties := [] }] }

/-- The loop `for scanner.Scan()` of `Parse` over the lines of the text. The scanner is
shared with `parseEntity`: `skip` counts the lines that call has read already. -/
def Parse.loop : Nat → List String → Schema → Bool → Step Schema
  | _, [], schema, _ => .ok schema
  | skip + 1, _ :: rest, schema, hitFunctions => Parse.loop skip rest schema hitFunctions
  | 0, line :: rest, schema, hitFunctions =>
    if HasPrefix line "//@description" then
      if hitFunctions then
        match parseFunction line rest with
        | .ok (function, read) =>
          Parse.loop read rest { schema with Functions := schema.Functions ++ [function] }
            hitFunctions
        | .blocked => .blocked
        | .fatal => .fatal
      else
        match parseType line rest with
        | .ok (type, read) =>
          Parse.loop read rest { schema with Types := schema.Types ++ [type] } hitFunctions
        | .blocked => .blocked
        | .fatal => .fatal
    else if HasPrefix line "//@class" then
      match parseClass line with
      | .ok c =>
        Parse.loop 0 rest { schema with Classes := schema.Classes ++ [c] } hitFunctions
      | .blocked => .blocked
      | .fatal => .fatal
    else if Contains line "---functions---" then Parse.loop 0 rest schema true
    else if line = "" then Parse.loop 0 rest schema hitFunctions
    else
      match Parse.bare line schema hitFunctions with
      | .ok schema1 => Parse.loop 0 rest schema1 hitFunctions
      | .blocked => .blocked
      | .fatal => .fatal

/-- Function `Parse` on the lines the scanner yields from the reader; `.fatal` is a
panic, and the error returned is always nil. -/
def Parse (lines : List String) : Step Schema :=
  Parse.loop 0 lines { Types := [], Classes := [], Functions := [] } false

/-! ## tlparser/code.go -/

/-- The call `fmt.Sscanf(field, "td_api::%s", &methodName)` on a field, which holds no
white space: the text behind the literal, `none` (an error of `Sscanf`) when the field
does not start with the literal or has nothing behind it. -/
def Sscanf (field : String) : Option String :=
  if HasPrefix field "td_api::" then
    if field.data.drop 8 = [] then none else some (String.mk (field.data.drop 8))
  else none

/-- The loop `for _, field := range fields` of `ParseCode`; the map is the list of its
keys. -/
def ParseCode.methods : List String → List String → List String
  | [], methods => methods
  | field :: rest, methods =>
    match Sscanf field with
    | some methodName => ParseCode.methods rest (methods ++ [methodName])
    | none => ParseCode.methods rest methods

/-- The loop `for scanner.Scan()` of `ParseCode`: the lines still to read, `curLine`,
`userMethods` and `botMethods`. -/
def ParseCode.scan : List String → String → List String → List String →
    List String × List String
  | [], _, userMethods, botMethods => (userMethods, botMethods)
  | line :: rest, curLine, userMethods, botMethods =>
    let prevLine := curLine
    let curLine := line
    let userMethods :=
      if Contains curLine "CHECK_IS_USER();" then
        ParseCode.methods (Fields prevLine) userMethods
      else userMethods
    let botMethods :=
      if Contains curLine "CHECK_IS_BOT();" then
        ParseCode.methods (Fields prevLine) botMethods
      else botMethods
    ParseCode.scan rest curLine userMethods botMethods

/-- The body of the loop `for index := range schema.Functions` of `ParseCode`. -/
def ParseCode.setType (userMethods botMethods : List String) (function : Function) :
    Function :=
  let hasType := false
  let r : Function × Bool :=
    if function.Name ∈ userMethods then
      ({ function with Typ := .FunctionTypeUser }, true)
    else (function, hasType)
  let r : Function × Bool :=
    if function.Name ∈ botMethods then ({ r.1 with Typ := .FunctionTypeBot }, true)
    else r
  if !r.2 then { r.1 with Typ := .FunctionTypeCommon } else r.1

/-- Function `ParseCode` on the lines the scanner yields; `scannerErr` is
`scanner.Err()`. Returns the schema as it is afterwards and the error. -/
def ParseCode (lines : List String) (scannerErr : Option String) (schema : Schema) :
    Schema × Option String :=
  let maps := ParseCode.scan lines "" [] []
  match scannerErr with
  | some err => (schema, some err)
  | none =>
    ({ schema with Functions := schema.Functions.map (ParseCode.setType maps.1 maps.2) },
     none)

/-- From the claim: some line of `lines` immediately preceding a line that contains
`marker` has a field, in the sense of white space separation, equal to `td_api::`
followed by `name`. -/
def guardedBy (marker : String) (lines : List String) (name : String) : Prop :=
  ∃ (i : Nat) (prev cur : String), lines[i]? = some prev ∧ lines[i + 1]? = some cur
    ∧ Contains cur marker ∧ ("td_api::" ++ name) ∈ Fields prev

/-- Some line of `cur :: lines` just before a line with `marker` has a field `Sscanf` reads
`m` from. -/
def scannedBy (marker : String) (lines : List String) (m : String) : Prop :=
  ∃ (i : Nat) (prev cur : String), lines[i]? = some prev ∧ lines[i + 1]? = some cur
    ∧ Contains cur marker ∧ ∃ field ∈ Fields prev, Sscanf field = some m

/-- From the claim: the pieces a schema text is made of, a description block (its first
line, the further annotation lines, the definition line), a bare definition line, a class
line, a line that opens the functions, and an empty line. -/
inductive Part where
  | block (firstLine : String) (more : List String) (body : String)
  | bare (line : String)
  | classLine (line : String)
  | functions (line : String)
  | blank
deriving DecidableEq, Repr

/-- The lines of a piece. -/
def Part.lines : Part → List String
  | .block firstLine more body => firstLine :: (more ++ [body])
  | .bare line => [line]
  | .classLine line => [line]
  | .functions line => [line]
  | .blank => [""]

/-- The piece is a line that opens the functions. -/
def Part.isFunctions : Part → Bool
  | .functions _ => true
  | _ => false

/-- The lines of a piece have the shape of its kind, and the function that reads the
piece returns. -/
def Part.shaped : Part → Bool
  | .block firstLine more body =>
    HasPrefix firstLine "//@description"
      && more.all (fun line => HasPrefix line "//@" || HasPrefix line "//-")
      && !HasPrefix body "//@" && !HasPrefix body "//-"
      && (match parseEntity firstLine (more ++ [body]) with
          | .ok _ => true
          | _ => false)
  | .bare line =>
    !HasPrefix line "//@description" && !HasPrefix line "//@class"
      && !decide (Contains line "---functions---") && line ≠ "" && Fields line ≠ []
  | .classLine line =>
    !HasPrefix line "//@description" && HasPrefix line "//@class"
      && (match parseClass line with
          | .ok _ => true
          | _ => false)
  | .functions line =>
    !HasPrefix line "//@description" && !HasPrefix line "//@class"
      && decide (Contains line "---functions---")
  | .blank => true

/-- A piece is well formed when it is shaped and only a line that opens the functions
contains `---functions---`. -/
def Part.wellFormed (p : Part) : Bool :=
  p.shaped && p.lines.all (fun line => decide (Contains line "---functions---") == p.isFunctions)

/-- The empty schema `Parse` starts from. -/
def Schema.empty : Schema := { Types := [], Classes := [], Functions := [] }

/-- The type an entity read on its own gives. -/
def Part.type? : Part → Option SchemaType
  | .block firstLine more body =>
    match parseType firstLine (more ++ [body]) with
    | .ok r => some r.1
    | _ => none
  | .bare line =>
    match Parse.bare line Schema.empty false with
    | .ok schema => schema.Types.head?
    | _ => none
  | _ => none

/-- The function an entity read on its own gives. -/
def Part.function? : Part → Option Function
  | .block firstLine more body =>
    match parseFunction firstLine (more ++ [body]) with
    | .ok r => some r.1
    | _ => none
  | .bare line =>
    match Parse.bare line Schema.empty true with
    | .ok schema => schema.Functions.head?
    | _ => none
  | _ => none

/-- The class a class line read on its own gives. -/
def Part.class? : Part → Option Class
  | .classLine line =>
    match parseClass line with
    | .ok c => some c
    | _ => none
  | _ => none

/-! ## Examples used in the statements below -/

/-- An update as the engine hands it over, with what `json.Unmarshal` reads from it. -/
def rawUpdate : Raw :=
  { data := "\x7b\"@type\":\"updateOption\",\"@extra\":\"\"\x7d"
    parsed := some { Typ := "updateOption", Extra := "" } }

/-- The response `Receive` builds from `rawUpdate` on a fresh adapter. -/
def updateResponse : Response :=
  { Typ := "updateOption", Extra := "", Data := rawUpdate.data, Handled := some 0 }

/-- A second message of the engine. -/
def rawOk : Raw :=
  { data := "\x7b\"@type\":\"ok\",\"@extra\":\"7\"\x7d"
    parsed := some { Typ := "ok", Extra := "7" } }

/-- The response `Receive` builds from `rawOk` as the second message of an adapter. -/
def okResponse : Response :=
  { Typ := "ok", Extra := "7", Data := rawOk.data, Handled := some 1 }

/-- A reply of the engine to the request with token `7`. -/
def reply7 : Response := { Typ := "ok", Extra := "7", Data := rawOk.data, Handled := some 0 }

/-- A client with one call of `Send` outstanding under the token `7`, its slot empty,
and the adapter waiting for the signal of `reply7`. -/
def clientWaiting : Client :=
  { NewClient with
    tdClient := { locker := true, handled := [[]] }
    extraCalls := 1
    slots := [Chan.make 1]
    catchersStore := [("7", 0)] }

/-- The same client once a first reply sits in the slot of token `7`. -/
def clientFull : Client :=
  { clientWaiting with slots := [{ buf := [reply7], cap := 1, closed := false }] }

/-- A parser standing for the generated `UnmarshalType`: every payload but the empty one
parses. -/
def parseAny (data : String) : Option TdType :=
  if data = "" then none else some { GetType := data, GetClass := "Update" }

/-- A generator that returns the token `7` at every call. -/
def constantGenerator (_ : Nat) : String := "7"

/-- A request to send. -/
def getMe : Request := { Typ := "getMe", Extra := "", Data := [] }

/-- A generator that never repeats a token: its call number `k` returns `k + 1` times
the letter `x`. -/
def unaryGenerator (k : Nat) : String := String.mk (List.replicate (k + 1) 'x')

/-- A listener with the events `es` appended to its queue. -/
def Listener.pushAll (listener : Listener) (es : List TdType) : Listener :=
  { listener with Updates := { listener.Updates with buf := listener.Updates.buf ++ es } }

/-- A client with two listeners in its store, the first active and the second closed. -/
def clientListening : Client :=
  { NewClient with
    listeners := [{ isActive := true, Updates := Chan.make 1024 },
                  { isActive := false, Updates := { buf := [], cap := 1024, closed := true } }]
    listenerStore := [0, 1] }

/-- Two updates as `Receive` would return them. -/
def twoUpdates : List Response :=
  [{ Typ := "updateOption", Extra := "", Data := "a", Handled := some 0 },
   { Typ := "updateOption", Extra := "", Data := "b", Handled := some 1 }]

/-- An open listener that holds one event. -/
def openListener : Listener :=
  { isActive := true
    Updates := { buf := [{ GetType := "updateOption", GetClass := "Update" }], cap := 1024,
                 closed := false } }

/-- An engine that answers every request of the handlers with success. -/
def acceptAll (_ : AuthRequest) : Option String := none

/-- An engine that rejects the encryption key check and accepts the rest. -/
def rejectKey (request : AuthRequest) : Option String :=
  match request with
  | .CheckDatabaseEncryptionKey => some "401 Unauthorized"
  | _ => none

/-- An interactive handler to which every value has been supplied. -/
def authorizerSupplied : Authorizer :=
  { NewClientAuthorizer with
    TdlibParameters := { buf := [{ text := "api_id=1" }], cap := 1, closed := false }
    PhoneNumber := { buf := ["+15551234567"], cap := 1, closed := false }
    Password := { buf := ["hunter2"], cap := 1, closed := false } }

/-- An interactive handler to which a code and two empty names have been supplied. -/
def authorizerWithCode : Authorizer :=
  { NewClientAuthorizer with
    Code := { buf := ["12345"], cap := 1, closed := false }
    FirstName := { buf := [""], cap := 1, closed := false }
    LastName := { buf := [""], cap := 1, closed := false } }

/-- An error reply of the engine, with the error the generated `UnmarshalError` reads
from its payload. -/
def errorReply : Response :=
  { Typ := "error", Extra := "7",
    Data := "\x7b\"@type\":\"error\",\"code\":404,\"message\":\"Not Found\"\x7d",
    Handled := some 0 }

/-- A stand-in for the generated `UnmarshalError`: it reads the payload of `errorReply`
and rejects the rest. -/
def readError (data : String) : Except String Error :=
  if data = errorReply.Data then .ok { Code := 404, Message := "Not Found" }
  else .error "unexpected end of JSON input"

/-- An update whose payload `parseAny` does not parse. -/
def unparsedUpdate : Response :=
  { Typ := "updateOption", Extra := "", Data := "", Handled := some 0 }

/-- A small schema text in pieces. -/
def sampleParts : List Part :=
  [.block "//@description An error @code Error code"
      ["//@message Error message; cannot",
       "//-be empty"]
      "error code:int32 message:string = Error;",
   .blank,
   .classLine "//@class AuthenticationCodeType @description Provides information",
   .bare "double ? = Double;",
   .functions "---functions---",
   .block "//@description Returns the user @user_id User identifier" []
      "getUser user_id:int32 = User;",
   .bare "testCallEmpty = Ok;"]

/-- A function to classify. -/
def sampleFunction (name : String) : Function :=
  { Name := name, Description := "", Class := "Ok", Properties := [],
    IsSynchronous := false, Typ := .FunctionTypeUnknown }

/-- A schema of three functions. -/
def sampleSchema : Schema :=
  { Types := [], Classes := [],
    Functions := [sampleFunction "getMe", sampleFunction "getChat",
                  sampleFunction "answerInlineQuery"] }

/-- Lines of the source of the engine. -/
def sampleCode : List String :=
  ["on_request(id, td_api::getMe &r)",
   " CHECK_IS_USER();",
   "on_request(id, td_api::answerInlineQuery &r)",
   " CHECK_IS_BOT();"]

/-! # Theorems -/

/-! ## The adapter -/

/-- A call that returns a message has just released the mutex itself: the action that
reaches `returned (some r)` is the `Unlock` of the deferred function. -/
theorem finish_returned_unlocked (c c1 : TDClient) (pc : CallPc) (r : Response)
    (err : Option String) (h : c.finish pc = .ok (c1, .returned (some r) err)) :
    pc = .handled r ∧ c.locker = true ∧ c1.locker = false := by
  cases pc with
  | handled r0 =>
    by_cases hl : c.locker = true
    · simp [TDClient.finish, TDClient.Unlock, hl] at h
      obtain ⟨h1, h2, _⟩ := h
      subst h1; subst h2
      simp [hl]
    · simp [TDClient.finish, TDClient.Unlock, hl] at h
  | failed e =>
    by_cases hl : c.locker = true <;> simp [TDClient.finish, TDClient.Unlock, hl] at h
  | deferred r0 =>
    simp only [TDClient.finish] at h
    split at h <;> simp at h
  | entry => simp [TDClient.finish] at h
  | locked => simp [TDClient.finish] at h
  | returned a b => simp [TDClient.finish] at h

/-- The deferred function of a call whose `Handled` channel nobody sends on cannot move:
the call does not return. -/
theorem finish_deferred_blocked (c : TDClient) (r : Response) (i : Nat)
    (hr : r.Handled = some i) (hq : c.handled[i]? = some []) :
    c.finish (.deferred r) = .blocked := by
  simp [TDClient.finish, TDClient.recvHandled, hr, hq]

/-- C1 (evaluated on the code). `Receive` and `Execute`, given a message by the engine
on a fresh adapter, stop inside their deferred function with the mutex held and do not
return; once a signal is sent on `Handled` they release the mutex and only then return,
so the mutex is free at the moment the call returns the message. -/
theorem Receive_Execute_unlock_before_return :
    runCall (fun c pc => c.Receive (some rawUpdate) pc) 10 NewTDClient .entry
        = ({ locker := true, handled := [[]] }, .deferred updateResponse)
    ∧ runCall (fun c pc => c.Receive (some rawUpdate) pc) 10
          (updateResponse.NotifyHandled none { locker := true, handled := [[]] })
          (.deferred updateResponse)
        = ({ locker := false, handled := [[]] }, .returned (some updateResponse) none)
    ∧ runCall (fun c pc => c.Execute ⟨"getOption", "", []⟩ (fun _ => some rawUpdate) pc) 10
          NewTDClient .entry
        = ({ locker := true, handled := [[]] }, .deferred updateResponse)
    ∧ runCall (fun c pc => c.Execute ⟨"getOption", "", []⟩ (fun _ => some rawUpdate) pc) 10
          (updateResponse.NotifyHandled none { locker := true, handled := [[]] })
          (.deferred updateResponse)
        = ({ locker := false, handled := [[]] }, .returned (some updateResponse) none) := by
  refine ⟨?_, ?_, ?_, ?_⟩ <;> rfl

/-- An action of `Receive` that yields a message leaves the call in its deferred
function, waiting on the `Handled` channel of that message. -/
theorem adapterStep_yielded (s t : TDClient × CallPc) (m : Move) (r : Response)
    (h : adapterStep s m = some (.yielded r, t)) : t.2 = .deferred r := by
  obtain ⟨c, pc⟩ := s
  cases m with
  | loop result =>
    cases pc with
    | returned a b => simp [adapterStep] at h
    | entry =>
      simp only [adapterStep] at h
      split at h
      · next c1 pc1 hs =>
        simp only [Option.some.injEq, Prod.mk.injEq] at h
        obtain ⟨h1, h2⟩ := h
        subst h2
        cases pc1 <;> simp [Event.ofPc] at h1
        subst h1; rfl
      · simp at h
    | locked =>
      simp only [adapterStep] at h
      split at h
      · next c1 pc1 hs =>
        simp only [Option.some.injEq, Prod.mk.injEq] at h
        obtain ⟨h1, h2⟩ := h
        subst h2
        cases pc1 <;> simp [Event.ofPc] at h1
        subst h1; rfl
      · simp at h
    | failed e =>
      simp only [adapterStep] at h
      split at h
      · next c1 pc1 hs =>
        simp only [Option.some.injEq, Prod.mk.injEq] at h
        obtain ⟨h1, h2⟩ := h
        subst h2
        cases pc1 <;> simp [Event.ofPc] at h1
        subst h1; rfl
      · simp at h
    | deferred r0 =>
      simp only [adapterStep] at h
      split at h
      · next c1 pc1 hs =>
        simp only [Option.some.injEq, Prod.mk.injEq] at h
        obtain ⟨h1, h2⟩ := h
        subst h2
        cases pc1 <;> simp [Event.ofPc] at h1
        subst h1; rfl
      · simp at h
    | handled r0 =>
      simp only [adapterStep] at h
      split at h
      · next c1 pc1 hs =>
        simp only [Option.some.injEq, Prod.mk.injEq] at h
        obtain ⟨h1, h2⟩ := h
        subst h2
        cases pc1 <;> simp [Event.ofPc] at h1
        subst h1; rfl
      · simp at h
  | lock =>
    simp only [adapterStep] at h
    split at h <;> simp at h
  | unlock =>
    simp only [adapterStep] at h
    split at h <;> simp at h
  | notify r0 err => simp [adapterStep] at h

/-- While `Receive` waits in its deferred function, every move either is the receipt on
the `Handled` channel of its message or leaves it waiting there; none yields a message. -/
theorem adapterStep_deferred (c : TDClient) (r : Response) (m : Move) (e : Event)
    (t : TDClient × CallPc) (h : adapterStep (c, .deferred r) m = some (e, t)) :
    e = .receipt r.Handled ∨ (t.2 = .deferred r ∧ ∀ r1, e ≠ .yielded r1) := by
  cases m with
  | loop result =>
    left
    simp only [adapterStep, TDClient.Receive, TDClient.finish] at h
    split at h
    · next c1 pc1 hs =>
      simp only [Option.some.injEq, Prod.mk.injEq] at h
      split at hs
      · simp only [Step.ok.injEq, Prod.mk.injEq] at hs
        rw [← h.1, ← hs.2]; rfl
      · simp at hs
      · simp at hs
    · simp at h
  | lock =>
    right
    simp only [adapterStep] at h
    split at h
    · simp only [Option.some.injEq, Prod.mk.injEq] at h
      refine ⟨by rw [← h.2], fun r1 => by rw [← h.1]; simp⟩
    · simp at h
  | unlock =>
    right
    simp only [adapterStep] at h
    split at h
    · simp only [Option.some.injEq, Prod.mk.injEq] at h
      refine ⟨by rw [← h.2], fun r1 => by rw [← h.1]; simp⟩
    · simp at h
  | notify r0 err =>
    right
    simp only [adapterStep, Option.some.injEq, Prod.mk.injEq] at h
    refine ⟨by rw [← h.2], fun r1 => by rw [← h.1]; simp⟩

/-- Unfolding of one move at the head of a run. -/
theorem adapterRun_cons (s t : TDClient × CallPc) (m : Move) (ms : List Move)
    (es : List Event) (h : adapterRun s (m :: ms) = some (es, t)) :
    ∃ e s1 es1, adapterStep s m = some (e, s1) ∧ adapterRun s1 ms = some (es1, t)
      ∧ es = e :: es1 := by
  simp only [adapterRun] at h
  split at h
  · simp at h
  · next e s1 hs =>
    split at h
    · simp at h
    · next es1 t1 hr =>
      simp only [Option.some.injEq, Prod.mk.injEq] at h
      exact ⟨e, s1, es1, hs, by rw [hr, h.2], h.1.symm⟩

/-- From the deferred function of `Receive`, a run whose events go on to a yielded
message has the receipt on the waiting message's `Handled` channel before it. -/
theorem adapterRun_deferred (r r2 : Response) (mid post : List Event) :
    ∀ (c : TDClient) (ms : List Move) (t : TDClient × CallPc),
      adapterRun (c, .deferred r) ms = some (mid ++ .yielded r2 :: post, t) →
      Event.receipt r.Handled ∈ mid := by
  induction mid with
  | nil =>
    intro c ms t h
    cases ms with
    | nil => simp [adapterRun] at h
    | cons m ms =>
      obtain ⟨e, s1, es1, hs, _, he⟩ := adapterRun_cons _ _ _ _ _ h
      simp only [List.nil_append, List.cons.injEq] at he
      rcases adapterStep_deferred c r m e s1 hs with h1 | ⟨_, h2⟩
      · rw [h1] at he; simp at he
      · exact absurd he.1.symm (h2 r2)
  | cons e0 mid ih =>
    intro c ms t h
    cases ms with
    | nil => simp [adapterRun] at h
    | cons m ms =>
      obtain ⟨e, s1, es1, hs, hr, he⟩ := adapterRun_cons _ _ _ _ _ h
      simp only [List.cons_append, List.cons.injEq] at he
      obtain ⟨he1, he2⟩ := he
      subst he1
      rcases adapterStep_deferred c r m e0 s1 hs with h1 | ⟨h2, _⟩
      · rw [h1]; simp
      · obtain ⟨c1, pc1⟩ := s1
        simp only at h2
        subst h2
        rw [← he2] at hr
        exact List.mem_cons_of_mem _ (ih c1 ms t hr)

/-- An action of `Receive` that yields a message has just made the `Handled` channel of
that message: nobody is parked on it. -/
theorem adapterStep_yielded_fresh (s t : TDClient × CallPc) (m : Move) (r : Response)
    (h : adapterStep s m = some (.yielded r, t)) :
    ∃ ch, r.Handled = some ch ∧ t.1.handled[ch]? = some [] := by
  obtain ⟨c, pc⟩ := s
  cases m with
  | loop result =>
    cases pc with
    | returned a b => simp [adapterStep] at h
    | entry =>
      simp only [adapterStep, TDClient.Receive] at h
      cases hl : c.Lock with
      | ok c1 => simp [hl, Event.ofPc] at h
      | blocked => simp [hl] at h
      | fatal => simp [hl] at h
    | locked =>
      simp only [adapterStep, TDClient.Receive, TDClient.build] at h
      cases result with
      | none => simp [Event.ofPc] at h
      | some raw =>
        cases hp : raw.parsed with
        | none => simp [hp, Event.ofPc] at h
        | some mt =>
          simp only [hp, TDClient.makeHandled, Event.ofPc, Option.some.injEq, Prod.mk.injEq,
            Event.yielded.injEq] at h
          obtain ⟨h1, h2⟩ := h
          subst h1
          subst h2
          exact ⟨c.handled.length, rfl, by simp⟩
    | failed e =>
      simp only [adapterStep, TDClient.Receive, TDClient.finish] at h
      cases hu : c.Unlock with
      | ok c1 => simp [hu, Event.ofPc] at h
      | blocked => simp [hu] at h
      | fatal => simp [hu] at h
    | deferred r0 =>
      simp only [adapterStep, TDClient.Receive, TDClient.finish] at h
      cases hu : c.recvHandled r0.Handled with
      | ok x => simp [hu, Event.ofPc] at h
      | blocked => simp [hu] at h
      | fatal => simp [hu] at h
    | handled r0 =>
      simp only [adapterStep, TDClient.Receive, TDClient.finish] at h
      cases hu : c.Unlock with
      | ok c1 => simp [hu, Event.ofPc] at h
      | blocked => simp [hu] at h
      | fatal => simp [hu] at h
  | lock =>
    simp only [adapterStep] at h
    split at h <;> simp at h
  | unlock =>
    simp only [adapterStep] at h
    split at h <;> simp at h
  | notify r0 err => simp [adapterStep] at h

/-- While `Receive` stands in its deferred function and nobody is parked on the `Handled`
channel of its message, the only move that changes this is a call of `NotifyHandled` on
that channel: the receive of the deferred function waits, and every other move leaves
the channel as it is. -/
theorem adapterStep_waiting (c : TDClient) (r : Response) (ch : Nat) (m : Move) (e : Event)
    (t : TDClient × CallPc) (hr : r.Handled = some ch) (hq : c.handled[ch]? = some [])
    (h : adapterStep (c, .deferred r) m = some (e, t)) :
    (∃ r0 err, m = .notify r0 err ∧ r0.Handled = some ch)
    ∨ (t.2 = .deferred r ∧ t.1.handled[ch]? = some [] ∧ ∀ r1, e ≠ .yielded r1) := by
  cases m with
  | loop result =>
    simp [adapterStep, TDClient.Receive, TDClient.finish, TDClient.recvHandled, hr, hq] at h
  | lock =>
    right
    simp only [adapterStep, TDClient.Lock] at h
    split at h
    · next c1 hs =>
      simp only [Option.some.injEq, Prod.mk.injEq] at h
      split at hs
      · simp at hs
      · simp only [Step.ok.injEq] at hs
        obtain ⟨h1, h2⟩ := h
        subst h1; subst h2; subst hs
        exact ⟨rfl, hq, fun r1 => by simp⟩
    · simp at h
  | unlock =>
    right
    simp only [adapterStep, TDClient.Unlock] at h
    split at h
    · next c1 hs =>
      simp only [Option.some.injEq, Prod.mk.injEq] at h
      split at hs
      · simp only [Step.ok.injEq] at hs
        obtain ⟨h1, h2⟩ := h
        subst h1; subst h2; subst hs
        exact ⟨rfl, hq, fun r1 => by simp⟩
      · simp at hs
    · simp at h
  | notify r0 err =>
    by_cases hc : r0.Handled = some ch
    · exact Or.inl ⟨r0, err, rfl, hc⟩
    · right
      simp only [adapterStep, Option.some.injEq, Prod.mk.injEq] at h
      obtain ⟨h1, h2⟩ := h
      subst h1; subst h2
      refine ⟨rfl, ?_, fun r1 => by simp⟩
      cases h0 : r0.Handled with
      | none =>
        simp only [Response.NotifyHandled, h0]
        exact hq
      | some i =>
        have hi : i ≠ ch := fun hi => hc (by rw [h0, hi])
        cases hg : c.handled[i]? with
        | none =>
          simp only [Response.NotifyHandled, h0, hg]
          exact hq
        | some q =>
          simp only [Response.NotifyHandled, h0, hg, List.getElem?_set_ne hi]
          exact hq

/-- From the deferred function of `Receive` with nobody parked on the `Handled` channel
of its message, a run whose events go on to a yielded message holds, before that
message, a call of `NotifyHandled` on the channel. -/
theorem adapterRun_waiting (r r2 : Response) (ch : Nat) (post : List Event)
    (hr : r.Handled = some ch) :
    ∀ (mid : List Event) (c : TDClient) (ms : List Move) (t : TDClient × CallPc),
      c.handled[ch]? = some [] →
      adapterRun (c, .deferred r) ms = some (mid ++ .yielded r2 :: post, t) →
      ∃ r0 err, Move.notify r0 err ∈ ms.take mid.length ∧ r0.Handled = r.Handled := by
  intro mid
  induction mid with
  | nil =>
    intro c ms t hq h
    cases ms with
    | nil => simp [adapterRun] at h
    | cons m ms =>
      obtain ⟨e, s1, es1, hs, _, he⟩ := adapterRun_cons _ _ _ _ _ h
      simp only [List.nil_append, List.cons.injEq] at he
      rcases adapterStep_waiting c r ch m e s1 hr hq hs with ⟨r0, err, hm, _⟩ | ⟨_, _, h2⟩
      · subst hm
        simp only [adapterStep, Option.some.injEq, Prod.mk.injEq] at hs
        rw [← hs.1] at he
        simp at he
      · exact absurd he.1.symm (h2 r2)
  | cons e0 mid ih =>
    intro c ms t hq h
    cases ms with
    | nil => simp [adapterRun] at h
    | cons m ms =>
      obtain ⟨e, s1, es1, hs, hrun, he⟩ := adapterRun_cons _ _ _ _ _ h
      simp only [List.cons_append, List.cons.injEq] at he
      obtain ⟨he1, he2⟩ := he
      subst he1
      rcases adapterStep_waiting c r ch m e0 s1 hr hq hs with
        ⟨r0, err, hm, hc⟩ | ⟨h1, h2, _⟩
      · exact ⟨r0, err, by simp [hm], by rw [hc, hr]⟩
      · obtain ⟨c1, pc1⟩ := s1
        simp only at h1 h2
        subst h1
        rw [← he2] at hrun
        obtain ⟨r0, err, hmem, hc⟩ := ih c1 ms t h2 hrun
        exact ⟨r0, err, by simp [List.take_succ_cons, hmem], hc⟩

/-- C2. In every run of the adapter under the goroutine of `Client.receive`, whatever
the other goroutines do with the mutex and the `Handled` channels, between two lock
acquisitions of `Receive` that yield a message lie a call of `NotifyHandled` on the
`Handled` channel of the earlier message, the completion signal, and the receipt on that
channel by the deferred function of `Receive`. -/
theorem Receive_no_second_message_before_receipt (r1 r2 : Response)
    (pre mid post : List Event) :
    ∀ (s t : TDClient × CallPc) (ms : List Move),
      adapterRun s ms = some (pre ++ .yielded r1 :: (mid ++ .yielded r2 :: post), t) →
      Event.receipt r1.Handled ∈ mid
      ∧ ∃ r0 err, Move.notify r0 err ∈ (ms.drop (pre.length + 1)).take mid.length
          ∧ r0.Handled = r1.Handled := by
  induction pre with
  | nil =>
    intro s t ms h
    cases ms with
    | nil => simp [adapterRun] at h
    | cons m ms =>
      obtain ⟨e, s1, es1, hs, hr, he⟩ := adapterRun_cons _ _ _ _ _ h
      simp only [List.nil_append, List.cons.injEq] at he
      obtain ⟨he1, he2⟩ := he
      subst he1
      have hpc := adapterStep_yielded s s1 m r1 hs
      obtain ⟨ch, hch, hq⟩ := adapterStep_yielded_fresh s s1 m r1 hs
      obtain ⟨c1, pc1⟩ := s1
      simp only at hpc hq
      subst hpc
      rw [← he2] at hr
      refine ⟨adapterRun_deferred r1 r2 mid post c1 ms t hr, ?_⟩
      simpa using adapterRun_waiting r1 r2 ch post hch mid c1 ms t hq hr
  | cons e0 pre ih =>
    intro s t ms h
    cases ms with
    | nil => simp [adapterRun] at h
    | cons m ms =>
      obtain ⟨e, s1, es1, hs, hr, he⟩ := adapterRun_cons _ _ _ _ _ h
      simp only [List.cons_append, List.cons.injEq] at he
      rw [← he.2] at hr
      simpa using ih s1 t ms hr

/-- Witness for C2: two messages, the signal of the first sent between them. -/
theorem Receive_no_second_message_before_receipt_witness :
    adapterRun (NewTDClient, .entry)
        [.loop none, .loop (some rawUpdate), .notify updateResponse none, .loop none,
         .loop none, .loop none, .loop none, .loop (some rawOk)]
      = some ([.acquired] ++ .yielded updateResponse ::
          ([.other, .receipt (some 0), .returned (some updateResponse), .again, .acquired]
            ++ .yielded okResponse :: []),
          ({ locker := true, handled := [[], []] }, .deferred okResponse))
    ∧ (Event.receipt updateResponse.Handled
        ∈ [Event.other, .receipt (some 0), .returned (some updateResponse), .again,
            .acquired]
      ∧ ∃ r0 err, Move.notify r0 err
          ∈ (([.loop none, .loop (some rawUpdate), .notify updateResponse none, .loop none,
                .loop none, .loop none, .loop none, .loop (some rawOk)] : List Move).drop
              ([Event.acquired].length + 1)).take
              [Event.other, .receipt (some 0), .returned (some updateResponse), .again,
                .acquired].length
          ∧ r0.Handled = updateResponse.Handled) :=
  ⟨by rfl, Receive_no_second_message_before_receipt updateResponse okResponse [.acquired]
    [.other, .receipt (some 0), .returned (some updateResponse), .again, .acquired] []
    (NewTDClient, .entry) ({ locker := true, handled := [[], []] }, .deferred okResponse)
    [.loop none, .loop (some rawUpdate), .notify updateResponse none, .loop none,
     .loop none, .loop none, .loop none, .loop (some rawOk)] (by rfl)⟩

/-! ## The dispatch loop and the correlation table -/

/-- The fan-out of `Client.receive` leaves everything but the listeners alone. -/
theorem receive_tdClient (U : String → Option TdType) (client client1 : Client)
    (response : Response) (h : Client.receive U client response = .ok client1) :
    client1.tdClient = client.tdClient := by
  simp only [Client.receive] at h
  split at h
  · simp at h
  · simp at h
  · split at h
    · simp only [Step.ok.injEq] at h
      rw [← h]
    · split at h
      · simp at h
      · simp at h
      · simp only [Step.ok.injEq] at h
        rw [← h]

/-- The send of `Client.catch` on a slot changes the slots only. -/
theorem deliver_tdClient (client client1 : Client) (update : Response) (slot : Nat)
    (h : client.deliver update slot = .ok client1) :
    client1.tdClient = client.tdClient := by
  simp only [Client.deliver] at h
  split at h
  · simp at h
  · split at h
    · simp only [Step.ok.injEq] at h
      rw [← h]
    · simp at h
    · simp at h

/-- C3 (evaluated on the code). No action of the dispatch loop, neither an iteration of
`Client.receive` nor an action of the goroutine of `Client.catch`, sends on a `Handled`
channel: the adapter, with every signal parked on it, is as before, so the completion
signal of a message is triggered zero times. -/
theorem dispatch_sends_no_completion_signal (U : String → Option TdType)
    (client client1 : Client) (response : Response) (pc pc1 : CatchPc)
    (h : Client.receive U client response = .ok client1
      ∨ Client.catchStep client pc = .ok (client1, pc1)) :
    client1.tdClient = client.tdClient := by
  rcases h with h | h
  · exact receive_tdClient U client client1 response h
  · cases pc with
    | ranging =>
      simp only [Client.catchStep] at h
      split at h
      · simp only [Step.ok.injEq, Prod.mk.injEq] at h
        rw [← h.1]
      · simp only [Step.ok.injEq, Prod.mk.injEq] at h
        rw [← h.1]
      · simp at h
      · simp at h
    | loading update =>
      simp only [Client.catchStep] at h
      split at h
      · split at h
        · simp only [Step.ok.injEq, Prod.mk.injEq] at h
          rw [← h.1]
        · simp only [Step.ok.injEq, Prod.mk.injEq] at h
          rw [← h.1]
      · simp only [Step.ok.injEq, Prod.mk.injEq] at h
        rw [← h.1]
    | sending update slot =>
      simp only [Client.catchStep] at h
      split at h
      · next c1 hd =>
        simp only [Step.ok.injEq, Prod.mk.injEq] at h
        rw [← h.1]
        exact deliver_tdClient client c1 update slot hd
      · simp at h
      · simp at h
    | done => simp [Client.catchStep] at h

/-- Witness for C3: the iteration of `Client.receive` on `reply7`, whose `Handled`
channel is the one the adapter waits on, leaves that channel without a sender. -/
theorem dispatch_sends_no_completion_signal_witness :
    Client.receive parseAny clientWaiting reply7
        = .ok { clientWaiting with catcher := { buf := [reply7], cap := 1024, closed := false } }
    ∧ ({ clientWaiting with
          catcher := { buf := [reply7], cap := 1024, closed := false } } : Client).tdClient
        = clientWaiting.tdClient :=
  ⟨by rfl, dispatch_sends_no_completion_signal parseAny clientWaiting _ reply7 .ranging .ranging
    (Or.inl (by rfl))⟩

/-- Counterexample to C4 as stated: the token `7` is not empty and has a slot, but the
slot already holds a reply, and the send of `Client.catch` waits instead of putting the
message into it. -/
theorem catch_full_slot_blocks :
    reply7.Extra ≠ "" ∧ Load clientFull.catchersStore reply7.Extra = some 0
    ∧ clientFull.slots[0]? = some { buf := [reply7], cap := 1, closed := false }
    ∧ Client.catch clientFull reply7 = .blocked
    ∧ ¬ ∃ client1, Client.catch clientFull reply7 = .ok client1 := by
  refine ⟨by decide, by rfl, by rfl, by rfl, ?_⟩
  rintro ⟨client1, h⟩
  have hb : Client.catch clientFull reply7 = .blocked := by rfl
  rw [hb] at h
  cases h

/-- C4 (amended). When the token of a message is not empty and an open slot is
registered under it: if the slot has room, the body of `Client.catch` appends the
message to that slot, and changes neither another slot nor the table; if the slot has
no room, it already holds a reply, the body waits. -/
theorem catch_delivers_to_registered_slot (client : Client) (update : Response)
    (slot : Nat) (ch : Chan Response)
    (hne : update.Extra ≠ "")
    (hload : Load client.catchersStore update.Extra = some slot)
    (hch : client.slots[slot]? = some ch)
    (hopen : ch.closed = false) :
    (ch.buf.length < ch.cap →
      ∃ client1, Client.catch client update = .ok client1
        ∧ client1.slots[slot]? = some { ch with buf := ch.buf ++ [update] }
        ∧ (∀ j, j ≠ slot → client1.slots[j]? = client.slots[j]?)
        ∧ client1.catchersStore = client.catchersStore
        ∧ client1.slots.length = client.slots.length)
    ∧ (ch.cap ≤ ch.buf.length → Client.catch client update = .blocked) := by
  have hlt : slot < client.slots.length := by
    rcases List.getElem?_eq_some.mp hch with ⟨h1, _⟩
    exact h1
  constructor
  · intro hroom
    refine ⟨{ client with
              slots := client.slots.set slot { ch with buf := ch.buf ++ [update] } },
      ?_, ?_, ?_, rfl, ?_⟩
    · simp [Client.catch, hne, hload, Client.deliver, hch, Chan.send, hopen, hroom]
    · simp [List.getElem?_set, hlt]
    · intro j hj
      simp [List.getElem?_set, Ne.symm hj]
    · simp
  · intro hfull
    have hnot : ¬ ch.buf.length < ch.cap := Nat.not_lt.mpr hfull
    simp [Client.catch, hne, hload, Client.deliver, hch, Chan.send, hopen, hnot]

/-- Witness for C4 (amended): the reply to token `7` reaches the empty slot of the
waiting call, and waits at the slot that holds a reply. -/
theorem catch_delivers_to_registered_slot_witness :
    (∃ client1, Client.catch clientWaiting reply7 = .ok client1
      ∧ client1.slots[0]? = some { (Chan.make 1 : Chan Response) with buf := [] ++ [reply7] }
      ∧ (∀ j, j ≠ 0 → client1.slots[j]? = clientWaiting.slots[j]?)
      ∧ client1.catchersStore = clientWaiting.catchersStore
      ∧ client1.slots.length = clientWaiting.slots.length)
    ∧ Client.catch clientFull reply7 = .blocked :=
  ⟨(catch_delivers_to_registered_slot clientWaiting reply7 0 (Chan.make 1)
      (by decide) (by rfl) (by rfl) (by rfl)).1 (by decide),
   (catch_delivers_to_registered_slot clientFull reply7 0
      { buf := [reply7], cap := 1, closed := false }
      (by decide) (by rfl) (by rfl) (by rfl)).2 (by decide)⟩

/-- C5. A message whose token is empty, or under whose token no slot is registered, is
dropped by the body of `Client.catch`: the client, with its table and the content of
every slot, is unchanged. -/
theorem catch_drops_unmatched (client : Client) (update : Response)
    (h : update.Extra = "" ∨ Load client.catchersStore update.Extra = none) :
    Client.catch client update = .ok client := by
  rcases h with h | h
  · simp [Client.catch, h]
  · simp [Client.catch, h]

/-- Witness for C5: an update without token, and a reply to a token nobody waits on. -/
theorem catch_drops_unmatched_witness :
    (updateResponse.Extra = "" ∨ Load clientWaiting.catchersStore updateResponse.Extra = none)
    ∧ Client.catch clientWaiting updateResponse = .ok clientWaiting :=
  ⟨Or.inl (by rfl), catch_drops_unmatched clientWaiting updateResponse (Or.inl (by rfl))⟩

/-! ## The table -/

/-- After `Delete` nothing is found under the key. -/
theorem Load_Delete_self (m : List (String × Nat)) (k : String) : Load (Delete m k) k = none := by
  induction m with
  | nil => rfl
  | cons e m ih =>
    obtain ⟨a, b⟩ := e
    simp only [Delete, Load] at ih ⊢
    by_cases h : a = k
    · subst h
      simp [List.filter_cons, ih]
    · simp [List.filter_cons, List.find?_cons, h, ih]

/-- A `Delete` does not touch the other keys. -/
theorem Load_Delete_ne (m : List (String × Nat)) (k t : String) (h : t ≠ k) :
    Load (Delete m k) t = Load m t := by
  induction m with
  | nil => rfl
  | cons e m ih =>
    obtain ⟨a, b⟩ := e
    simp only [Delete, Load] at ih ⊢
    by_cases h1 : a = k
    · subst h1
      simpa [List.filter_cons, List.find?_cons, Ne.symm h] using ih
    · by_cases h2 : a = t
      · subst h2
        simp [List.filter_cons, List.find?_cons, h1]
      · simpa [List.filter_cons, List.find?_cons, h1, h2] using ih

/-- After `Store` the new value is found under the key. -/
theorem Load_Store_self (m : List (String × Nat)) (k : String) (v : Nat) :
    Load (Store m k v) k = some v := by
  simp [Store, Load, List.find?_cons]

/-- A `Store` does not touch the other keys. -/
theorem Load_Store_ne (m : List (String × Nat)) (k t : String) (v : Nat) (h : t ≠ k) :
    Load (Store m k v) t = Load m t := by
  have h1 : Load (Store m k v) t = Load (Delete m k) t := by
    simp [Store, Load, Delete, List.find?_cons, Ne.symm h]
  rw [h1, Load_Delete_ne m k t h]

/-! ## Send -/

/-- C7. A call of `Send` that gets no reply stays at its `select` as long as the timer
has not fired (the reply case cannot be taken); when the timer fires it returns a nil
response with the timeout error, and then no slot is left under its token. -/
theorem Send_timeout (extraGenerator : Nat → String) (client : Client) (request : Request) :
    (runSend extraGenerator .reply 5 client (.entry request)).2
        = .selecting { request with Extra := extraGenerator client.extraCalls }
            client.slots.length
    ∧ (runSend extraGenerator .timeout 5 client (.entry request)).2
        = .returned none (some "response catching timeout")
    ∧ Load (runSend extraGenerator .timeout 5 client (.entry request)).1.catchersStore
        (extraGenerator client.extraCalls) = none := by
  refine ⟨?_, ?_, ?_⟩
  · simp [runSend, Client.Send, Chan.recv, Chan.make]
  · simp [runSend, Client.Send, Chan.close, Chan.make]
  · simp only [runSend, Client.Send]
    simp only [List.getElem?_concat_length, Chan.close, Chan.make]
    exact Load_Delete_self _ _

/-- From the `select` on: a call whose slot holds the reply `r` takes it, closes the
slot, deletes its entry and returns `(r, nil)`; the other entries and slots stay. -/
theorem Send_reply_from_select (extraGenerator : Nat → String) (client : Client)
    (request : Request) (catcher : Nat) (ch : Chan Response) (r : Response)
    (rest : List Response)
    (hch : client.slots[catcher]? = some ch) (hbuf : ch.buf = r :: rest)
    (hopen : ch.closed = false) :
    ∃ client1, runSend extraGenerator .reply 3 client (.selecting request catcher)
        = (client1, .returned (some r) none)
      ∧ client1.catchersStore = Delete client.catchersStore request.Extra
      ∧ (∀ j, j ≠ catcher → client1.slots[j]? = client.slots[j]?) := by
  have hlt : catcher < client.slots.length := (List.getElem?_eq_some.mp hch).1
  refine ⟨{ client with
            slots := (client.slots.set catcher { ch with buf := rest }).set catcher
              { buf := rest, cap := ch.cap, closed := true }
            catchersStore := Delete client.catchersStore request.Extra }, ?_, rfl, ?_⟩
  · simp [runSend, Client.Send, hch, Chan.recv, hbuf, hlt, Chan.close, hopen]
  · intro j hj
    simp [List.getElem?_set, Ne.symm hj]

/-- C8. When the reply `r` to a call of `Send` is put into its slot by `Client.catch`
before the timer fires, the call returns `(r, nil)`; afterwards no slot is left under
its token, and the entries under the other tokens and the slots of the other calls are
as they were. -/
theorem Send_reply (extraGenerator : Nat → String) (client : Client) (request : Request)
    (r : Response) (hr : r.Extra = extraGenerator client.extraCalls) (hne : r.Extra ≠ "") :
    ∃ client2 pc2 client3 client4,
      runSend extraGenerator .reply 2 client (.entry request) = (client2, pc2)
      ∧ Client.catch client2 r = .ok client3
      ∧ runSend extraGenerator .reply 3 client3 pc2 = (client4, .returned (some r) none)
      ∧ Load client4.catchersStore r.Extra = none
      ∧ (∀ t, t ≠ r.Extra → Load client4.catchersStore t = Load client.catchersStore t)
      ∧ (∀ j, j < client.slots.length → client4.slots[j]? = client.slots[j]?) := by
  have hne2 : extraGenerator client.extraCalls ≠ "" := hr ▸ hne
  let client2 : Client :=
    { client with
      extraCalls := client.extraCalls + 1
      slots := client.slots ++ [Chan.make 1]
      catchersStore := Store client.catchersStore r.Extra client.slots.length
      sent := client.sent ++ [{ request with Extra := r.Extra }] }
  let client3 : Client :=
    { client2 with
      slots := client2.slots.set client.slots.length { buf := [r], cap := 1, closed := false } }
  have h3 : client3.slots[client.slots.length]?
      = some { buf := [r], cap := 1, closed := false } := by
    simp [client3, client2]
  obtain ⟨client4, hrun, hstore, hslots⟩ :=
    Send_reply_from_select extraGenerator client3 { request with Extra := r.Extra }
      client.slots.length _ r [] h3 rfl rfl
  refine ⟨client2, .selecting { request with Extra := r.Extra } client.slots.length,
    client3, client4, ?_, ?_, hrun, ?_, ?_, ?_⟩
  · simp [runSend, Client.Send, client2, hr]
  · simp [Client.catch, hne, client2, client3, Load_Store_self, Client.deliver, Chan.send,
      Chan.make]
  · rw [hstore]
    exact Load_Delete_self _ _
  · intro t ht
    rw [hstore]
    show Load (Delete (Store client.catchersStore r.Extra client.slots.length) r.Extra) t = _
    rw [Load_Delete_ne _ _ _ ht, Load_Store_ne _ _ _ _ ht]
  · intro j hj
    rw [hslots j (Nat.ne_of_lt hj)]
    simp [client3, client2, List.getElem?_set, Nat.ne_of_gt hj, List.getElem?_append_left hj]

/-- Witness for C8: the reply to the first call of a fresh client. -/
theorem Send_reply_witness :
    reply7.Extra = constantGenerator NewClient.extraCalls ∧ reply7.Extra ≠ ""
    ∧ ∃ client2 pc2 client3 client4,
      runSend constantGenerator .reply 2 NewClient (.entry getMe) = (client2, pc2)
      ∧ Client.catch client2 reply7 = .ok client3
      ∧ runSend constantGenerator .reply 3 client3 pc2 = (client4, .returned (some reply7) none)
      ∧ Load client4.catchersStore reply7.Extra = none
      ∧ (∀ t, t ≠ reply7.Extra →
          Load client4.catchersStore t = Load NewClient.catchersStore t)
      ∧ (∀ j, j < NewClient.slots.length → client4.slots[j]? = NewClient.slots[j]?) :=
  ⟨by rfl, by decide, Send_reply constantGenerator NewClient getMe reply7 (by rfl) (by decide)⟩

/-- C9 (evaluated on the code). A call of `Send` under token `7` times out and closes
its slot; its entry is still in the table when `Client.catch` handles a reply with that
token, and the send on the closed slot panics. It panics as well when `Client.catch`
has loaded the slot before the close and sends after it. -/
theorem catch_panics_on_closed_slot :
    (runSend constantGenerator .timeout 4 NewClient (.entry getMe)).2
        = .deleting { getMe with Extra := "7" } none (some "response catching timeout")
    ∧ Load (runSend constantGenerator .timeout 4 NewClient (.entry getMe)).1.catchersStore "7"
        = some 0
    ∧ Client.catch (runSend constantGenerator .timeout 4 NewClient (.entry getMe)).1 reply7
        = .fatal
    ∧ Client.catchStep (runSend constantGenerator .timeout 3 NewClient (.entry getMe)).1
          (.loading reply7)
        = .ok ((runSend constantGenerator .timeout 3 NewClient (.entry getMe)).1,
            .sending reply7 0)
    ∧ Client.catchStep (runSend constantGenerator .timeout 4 NewClient (.entry getMe)).1
          (.sending reply7 0)
        = .fatal := by
  refine ⟨?_, ?_, ?_, ?_, ?_⟩ <;> rfl

/-! ## Overlapping calls of `Send` -/

/-- Counterexample to C6 as stated: with a generator that repeats its token, the second
call of `Send` stores its slot under the token of the first call while that slot is
outstanding and replaces it; and the first call, timing out, deletes the entry of the
second. -/
theorem Send_repeated_token_replaces_slot :
    (sendsRun constantGenerator (NewClient, [])
        [.call getMe, .call getMe, .act 0 .timeout]).map
        (fun s => (s.2[0]?, Load s.1.catchersStore (constantGenerator s.1.extraCalls)))
      = some (some (.stored { getMe with Extra := "7" } 0), some 0)
    ∧ (sendsRun constantGenerator (NewClient, [])
        [.call getMe, .call getMe, .act 0 .timeout, .act 1 .timeout]).map
        (fun s => (s.2[0]?, s.2[1]?, Load s.1.catchersStore "7"))
      = some (some (.stored { getMe with Extra := "7" } 0),
          some (.stored { getMe with Extra := "7" } 1), some 1)
    ∧ (sendsRun constantGenerator (NewClient, [])
        [.call getMe, .call getMe, .act 0 .timeout, .act 1 .timeout, .act 0 .timeout,
         .act 0 .timeout, .act 0 .timeout, .act 0 .timeout]).map
        (fun s => (s.2[0]?, s.2[1]?, Load s.1.catchersStore "7"))
      = some (some (.returned none (some "response catching timeout")),
          some (.stored { getMe with Extra := "7" } 1), none) := by
  refine ⟨?_, ?_, ?_⟩ <;> rfl

/-- A call with an outstanding slot carries the token of that slot. -/
theorem SendPc.live_token (pc : SendPc) (t : String) (ch : Nat)
    (h : pc.live = some (t, ch)) : pc.token = some t := by
  cases pc <;> simp [SendPc.live] at h <;> simp [SendPc.token, h.1]

/-- What is found after a `Delete` was there before, under another key. -/
theorem Load_Delete_some (m : List (String × Nat)) (k t : String) (ch : Nat)
    (h : Load (Delete m k) t = some ch) : t ≠ k ∧ Load m t = some ch := by
  by_cases hk : t = k
  · subst hk
    rw [Load_Delete_self] at h
    cases h
  · exact ⟨hk, by rw [← Load_Delete_ne m k t hk]; exact h⟩

/-- What is found after a `Store` is the new entry, or was there before under another
key. -/
theorem Load_Store_some (m : List (String × Nat)) (k t : String) (v ch : Nat)
    (h : Load (Store m k v) t = some ch) :
    (t = k ∧ ch = v) ∨ (t ≠ k ∧ Load m t = some ch) := by
  by_cases hk : t = k
  · subst hk
    rw [Load_Store_self] at h
    exact Or.inl ⟨rfl, (Option.some.inj h).symm⟩
  · exact Or.inr ⟨hk, by rw [← Load_Store_ne m k t v hk]; exact h⟩

/-- An entry of a list changed at `i` is the new one at `i` or an old one elsewhere. -/
theorem getElem?_set_cases {α : Type} (l : List α) (i j : Nat) (a b : α)
    (h : (l.set i a)[j]? = some b) : (j = i ∧ b = a) ∨ (j ≠ i ∧ l[j]? = some b) := by
  rw [List.getElem?_set] at h
  by_cases hij : i = j
  · subst hij
    rw [if_pos rfl] at h
    split at h
    · exact Or.inl ⟨rfl, (Option.some.inj h).symm⟩
    · cases h
  · rw [if_neg hij] at h
    exact Or.inr ⟨Ne.symm hij, h⟩

/-- The invariant survives a change of the calls under which every call keeps its
token and gains no outstanding slot, or carries no token at all. -/
theorem SendsInv.mono (g : Nat → String) (m : List (String × Nat)) (n : Nat)
    (pcs pcs1 : List SendPc) (hI : SendsInv g m n pcs)
    (H : ∀ (j : Nat) (q : SendPc), pcs1[j]? = some q → q.token = none ∨
      ∃ q1, pcs[j]? = some q1 ∧ q.token = q1.token ∧
        ∀ x, q.live = some x → q1.live = some x) :
    SendsInv g m n pcs1 := by
  refine ⟨hI.table, ?_, ?_, ?_⟩
  · intro i pc t hi ht
    rcases H i pc hi with h0 | ⟨q1, hq1, htok, _⟩
    · rw [h0] at ht; cases ht
    · exact hI.tokens i q1 t hq1 (htok ▸ ht)
  · intro i j p q t hi hj hp hq
    rcases H i p hi with h0 | ⟨p1, hp1, hptok, _⟩
    · rw [h0] at hp; cases hp
    · rcases H j q hj with h0 | ⟨q1, hq1, hqtok, _⟩
      · rw [h0] at hq; cases hq
      · exact hI.distinct i j p1 q1 t hp1 hq1 (hptok ▸ hp) (hqtok ▸ hq)
  · intro i pc t ch hi hl
    rcases H i pc hi with h0 | ⟨q1, hq1, _, hlive⟩
    · rw [SendPc.live_token pc t ch hl] at h0; cases h0
    · exact hI.live i q1 t ch hq1 (hlive _ hl)

/-- The invariant survives the `Store` of a slot under the next token of a generator
that never repeats. -/
theorem SendsInv.store (g : Nat → String) (hg : Function.Injective g)
    (m : List (String × Nat)) (n v : Nat) (pcs : List SendPc) (hI : SendsInv g m n pcs) :
    SendsInv g (Store m (g n) v) (n + 1) pcs := by
  refine ⟨?_, ?_, hI.distinct, ?_⟩
  · intro t ch h
    rcases Load_Store_some m (g n) t v ch h with ⟨h1, _⟩ | ⟨_, h2⟩
    · exact ⟨n, Nat.lt_succ_self n, h1⟩
    · obtain ⟨k, hk, hkt⟩ := hI.table t ch h2
      exact ⟨k, Nat.lt_succ_of_lt hk, hkt⟩
  · intro i pc t hi ht
    obtain ⟨k, hk, hkt⟩ := hI.tokens i pc t hi ht
    exact ⟨k, Nat.lt_succ_of_lt hk, hkt⟩
  · intro i pc t ch hi hl
    obtain ⟨k, hk, hkt⟩ := hI.tokens i pc t hi (SendPc.live_token pc t ch hl)
    have hne : t ≠ g n := by
      intro h
      rw [hkt] at h
      exact absurd (hg h) (Nat.ne_of_lt hk)
    rw [Load_Store_ne m (g n) t v hne]
    exact hI.live i pc t ch hi hl

/-- The invariant survives the step of a call from its entry to its stored slot, once
the slot is in the table under a token no other call carries. -/
theorem SendsInv.enter (g : Nat → String) (m : List (String × Nat)) (n v i : Nat)
    (pcs : List SendPc) (request : Request) (hI : SendsInv g m n pcs)
    (hload : Load m request.Extra = some v)
    (hfresh : ∀ (j : Nat) (q : SendPc), pcs[j]? = some q → q.token ≠ some request.Extra) :
    SendsInv g m n (pcs.set i (.stored request v)) := by
  refine ⟨hI.table, ?_, ?_, ?_⟩
  · intro j pc t hj ht
    rcases getElem?_set_cases pcs i j _ pc hj with ⟨_, h2⟩ | ⟨_, h2⟩
    · subst h2
      simp only [SendPc.token, Option.some.injEq] at ht
      exact hI.table t v (ht ▸ hload)
    · exact hI.tokens j pc t h2 ht
  · intro j1 j2 p q t h1 h2 hp hq
    rcases getElem?_set_cases pcs i j1 _ p h1 with ⟨e1, f1⟩ | ⟨e1, f1⟩
    · rcases getElem?_set_cases pcs i j2 _ q h2 with ⟨e2, f2⟩ | ⟨e2, f2⟩
      · rw [e1, e2]
      · subst f1
        simp only [SendPc.token, Option.some.injEq] at hp
        exact absurd (hp ▸ hq) (hfresh j2 q f2)
    · rcases getElem?_set_cases pcs i j2 _ q h2 with ⟨e2, f2⟩ | ⟨e2, f2⟩
      · subst f2
        simp only [SendPc.token, Option.some.injEq] at hq
        exact absurd (hq ▸ hp) (hfresh j1 p f1)
      · exact hI.distinct j1 j2 p q t f1 f2 hp hq
  · intro j pc t ch hj hl
    rcases getElem?_set_cases pcs i j _ pc hj with ⟨_, h2⟩ | ⟨_, h2⟩
    · subst h2
      simp only [SendPc.live, Option.some.injEq, Prod.mk.injEq] at hl
      rw [← hl.1, ← hl.2]
      exact hload
    · exact hI.live j pc t ch h2 hl

/-- The invariant survives the `Delete` of the entry under a token no call carries any
more. -/
theorem SendsInv.delete (g : Nat → String) (m : List (String × Nat)) (n : Nat)
    (pcs : List SendPc) (tok : String) (hI : SendsInv g m n pcs)
    (hgone : ∀ (j : Nat) (q : SendPc), pcs[j]? = some q → q.token ≠ some tok) :
    SendsInv g (Delete m tok) n pcs := by
  refine ⟨?_, hI.tokens, hI.distinct, ?_⟩
  · intro t ch h
    exact hI.table t ch (Load_Delete_some m tok t ch h).2
  · intro i pc t ch hi hl
    have hne : t ≠ tok := by
      intro h
      exact hgone i pc hi (h ▸ SendPc.live_token pc t ch hl)
    rw [Load_Delete_ne m tok t hne]
    exact hI.live i pc t ch hi hl

/-- The body of `Client.catch` changes neither the table nor the count of tokens. -/
theorem catch_frame (client client1 : Client) (update : Response)
    (h : Client.catch client update = .ok client1) :
    client1.catchersStore = client.catchersStore ∧ client1.extraCalls = client.extraCalls := by
  simp only [Client.catch] at h
  split at h
  · split at h
    · simp only [Client.deliver] at h
      split at h
      · simp at h
      · split at h
        · simp only [Step.ok.injEq] at h
          rw [← h]
          exact ⟨rfl, rfl⟩
        · simp at h
        · simp at h
    · simp only [Step.ok.injEq] at h
      rw [← h]
      exact ⟨rfl, rfl⟩
  · simp only [Step.ok.injEq] at h
    rw [← h]
    exact ⟨rfl, rfl⟩

/-- A change of the call at `i` that keeps its token and gives it no new outstanding
slot fits `SendsInv.mono`. -/
theorem set_keeps (pcs : List SendPc) (i : Nat) (pc pc1 : SendPc) (hi : pcs[i]? = some pc)
    (htok : pc1.token = pc.token) (hlive : ∀ x, pc1.live = some x → pc.live = some x) :
    ∀ (j : Nat) (q : SendPc), (pcs.set i pc1)[j]? = some q → q.token = none ∨
      ∃ q1, pcs[j]? = some q1 ∧ q.token = q1.token ∧
        ∀ x, q.live = some x → q1.live = some x := by
  intro j q hj
  right
  rcases getElem?_set_cases pcs i j pc1 q hj with ⟨e, f⟩ | ⟨_, f⟩
  · subst e; subst f
    exact ⟨pc, hi, htok, hlive⟩
  · exact ⟨q, f, rfl, fun _ hx => hx⟩

/-- Every move of the client and its calls of `Send` keeps the invariant, when the
generator never repeats a token. -/
theorem sendsStep_inv (g : Nat → String) (hg : Function.Injective g)
    (s s1 : Client × List SendPc) (m : SendMove) (h : sendsStep g s m = some s1)
    (hI : SendsInv g s.1.catchersStore s.1.extraCalls s.2) :
    SendsInv g s1.1.catchersStore s1.1.extraCalls s1.2 := by
  obtain ⟨c, pcs⟩ := s
  simp only at hI
  cases m with
  | call request =>
    simp only [sendsStep, Option.some.injEq] at h
    subst h
    refine SendsInv.mono g _ _ pcs _ hI ?_
    intro j q hj
    rw [List.getElem?_append] at hj
    split at hj
    · exact Or.inr ⟨q, hj, rfl, fun _ hx => hx⟩
    · left
      have hq : q = .entry request := by
        cases hlen : j - pcs.length with
        | zero => rw [hlen] at hj; simpa using hj.symm
        | succ k => rw [hlen] at hj; simp at hj
      rw [hq]; rfl
  | deliver update =>
    simp only [sendsStep] at h
    split at h
    · next client hc =>
      simp only [Option.some.injEq] at h
      subst h
      obtain ⟨h1, h2⟩ := catch_frame c client update hc
      simp only [h1, h2]
      exact hI
    · simp at h
  | act i pick =>
    simp only [sendsStep] at h
    split at h
    · simp at h
    · next pc hi =>
      split at h
      · next client pc1 hs =>
        simp only [Option.some.injEq] at h
        subst h
        simp only
        cases pc with
        | entry request =>
          simp only [Client.Send, Step.ok.injEq, Prod.mk.injEq] at hs
          obtain ⟨hc, hpc⟩ := hs
          subst hc; subst hpc
          simp only
          refine SendsInv.enter g _ _ _ i pcs _ (SendsInv.store g hg _ _ _ pcs hI)
            (Load_Store_self _ _ _) ?_
          intro j q hj hq
          obtain ⟨k, hk, hkt⟩ := hI.tokens j q _ hj hq
          exact absurd (hg hkt).symm (Nat.ne_of_lt hk)
        | stored request catcher =>
          simp only [Client.Send, Step.ok.injEq, Prod.mk.injEq] at hs
          obtain ⟨hc, hpc⟩ := hs
          subst hc; subst hpc
          exact SendsInv.mono g _ _ pcs _ hI
            (set_keeps pcs i _ _ hi rfl (fun _ hx => hx))
        | selecting request catcher =>
          have key : client.catchersStore = c.catchersStore
              ∧ client.extraCalls = c.extraCalls
              ∧ pc1.token = some request.Extra
              ∧ pc1.live = some (request.Extra, catcher) := by
            simp only [Client.Send] at hs
            split at hs
            · simp only [Step.ok.injEq, Prod.mk.injEq] at hs
              rw [← hs.1, ← hs.2]
              exact ⟨rfl, rfl, rfl, rfl⟩
            · split at hs
              · simp at hs
              · split at hs
                · simp only [Step.ok.injEq, Prod.mk.injEq] at hs
                  rw [← hs.1, ← hs.2]
                  exact ⟨rfl, rfl, rfl, rfl⟩
                · simp at hs
                · simp at hs
          obtain ⟨h1, h2, h3, h4⟩ := key
          rw [h1, h2]
          exact SendsInv.mono g _ _ pcs _ hI
            (set_keeps pcs i _ _ hi h3 (fun x hx => by rw [h4] at hx; exact hx))
        | closing request catcher response err =>
          have key : client.catchersStore = c.catchersStore
              ∧ client.extraCalls = c.extraCalls
              ∧ pc1 = .deleting request response err := by
            simp only [Client.Send] at hs
            split at hs
            · simp at hs
            · split at hs
              · simp only [Step.ok.injEq, Prod.mk.injEq] at hs
                rw [← hs.1, ← hs.2]
                exact ⟨rfl, rfl, rfl⟩
              · simp at hs
              · simp at hs
          obtain ⟨h1, h2, h3⟩ := key
          rw [h1, h2, h3]
          exact SendsInv.mono g _ _ pcs _ hI
            (set_keeps pcs i _ _ hi rfl (fun x hx => by simp [SendPc.live] at hx))
        | deleting request response err =>
          simp only [Client.Send, Step.ok.injEq, Prod.mk.injEq] at hs
          obtain ⟨hc, hpc⟩ := hs
          subst hc; subst hpc
          simp only
          have hset : SendsInv g c.catchersStore c.extraCalls
              (pcs.set i (.returned response err)) := by
            refine SendsInv.mono g _ _ pcs _ hI ?_
            intro j q hj
            rcases getElem?_set_cases pcs i j _ q hj with ⟨_, f⟩ | ⟨_, f⟩
            · left; rw [f]; rfl
            · exact Or.inr ⟨q, f, rfl, fun _ hx => hx⟩
          refine SendsInv.delete g _ _ _ request.Extra hset ?_
          intro j q hj hq
          rcases getElem?_set_cases pcs i j _ q hj with ⟨_, f⟩ | ⟨e, f⟩
          · rw [f] at hq; simp [SendPc.token] at hq
          · exact e (hI.distinct j i q _ request.Extra f hi hq rfl)
        | returned response err =>
          simp [Client.Send] at hs
      · simp at h

/-- Every run keeps the invariant. -/
theorem sendsRun_inv (g : Nat → String) (hg : Function.Injective g) (ms : List SendMove) :
    ∀ (s s1 : Client × List SendPc), sendsRun g s ms = some s1 →
      SendsInv g s.1.catchersStore s.1.extraCalls s.2 →
      SendsInv g s1.1.catchersStore s1.1.extraCalls s1.2 := by
  induction ms with
  | nil =>
    intro s s1 h hI
    simp only [sendsRun, Option.some.injEq] at h
    exact h ▸ hI
  | cons m ms ih =>
    intro s s1 h hI
    simp only [sendsRun] at h
    split at h
    · simp at h
    · next s2 hs => exact ih s2 s1 h (sendsStep_inv g hg s s2 m hs hI)

/-- C6 (amended). With a generator that never repeats a token, in every run of
overlapping calls of `Send` on a client whose table starts empty: the token the next
call will store its slot under has no slot; the slot of every outstanding call is the
one found under its token, so no other call has replaced or removed it; and no two calls
carry the same token. -/
theorem Send_fresh_tokens_keep_slots (g : Nat → String) (hg : Function.Injective g)
    (client : Client) (hempty : client.catchersStore = []) (ms : List SendMove)
    (s : Client × List SendPc) (hrun : sendsRun g (client, []) ms = some s) :
    Load s.1.catchersStore (g s.1.extraCalls) = none
    ∧ (∀ (i : Nat) (pc : SendPc) (t : String) (ch : Nat), s.2[i]? = some pc →
        pc.live = some (t, ch) → Load s.1.catchersStore t = some ch)
    ∧ (∀ (i j : Nat) (p q : SendPc) (t : String), s.2[i]? = some p → s.2[j]? = some q →
        p.token = some t → q.token = some t → i = j) := by
  have h0 : SendsInv g client.catchersStore client.extraCalls [] := by
    refine ⟨?_, ?_, ?_, ?_⟩
    · intro t ch h
      rw [hempty] at h
      simp [Load] at h
    · intro i pc t hi
      simp at hi
    · intro i j p q t hi
      simp at hi
    · intro i pc t ch hi
      simp at hi
  have hI := sendsRun_inv g hg ms (client, []) s hrun h0
  refine ⟨?_, hI.live, hI.distinct⟩
  cases hl : Load s.1.catchersStore (g s.1.extraCalls) with
  | none => rfl
  | some ch =>
    obtain ⟨k, hk, hkt⟩ := hI.table _ ch hl
    exact absurd (hg hkt) (Nat.ne_of_gt hk)

/-- The generator `unaryGenerator` never repeats a token. -/
theorem unaryGenerator_injective : Function.Injective unaryGenerator := by
  intro a b h
  have h1 := congrArg String.length h
  simp [unaryGenerator, String.length] at h1
  exact h1

/-- Witness for C6 (amended): two overlapping calls under the tokens `x` and `xx`. -/
theorem Send_fresh_tokens_keep_slots_witness :
    Function.Injective unaryGenerator ∧ NewClient.catchersStore = []
    ∧ sendsRun unaryGenerator (NewClient, [])
        [.call getMe, .call getMe, .act 0 .timeout, .act 1 .timeout]
      = some ({ NewClient with
                extraCalls := 2
                slots := [Chan.make 1, Chan.make 1]
                catchersStore := [("xx", 1), ("x", 0)] },
              [.stored { getMe with Extra := "x" } 0, .stored { getMe with Extra := "xx" } 1])
    ∧ Load [("xx", 1), ("x", 0)] (unaryGenerator 2) = none
    ∧ (∀ (i : Nat) (pc : SendPc) (t : String) (ch : Nat),
        [SendPc.stored { getMe with Extra := "x" } 0,
          .stored { getMe with Extra := "xx" } 1][i]? = some pc →
        pc.live = some (t, ch) → Load [("xx", 1), ("x", 0)] t = some ch)
    ∧ (∀ (i j : Nat) (p q : SendPc) (t : String),
        [SendPc.stored { getMe with Extra := "x" } 0,
          .stored { getMe with Extra := "xx" } 1][i]? = some p →
        [SendPc.stored { getMe with Extra := "x" } 0,
          .stored { getMe with Extra := "xx" } 1][j]? = some q →
        p.token = some t → q.token = some t → i = j) :=
  ⟨unaryGenerator_injective, rfl, by rfl,
    Send_fresh_tokens_keep_slots unaryGenerator unaryGenerator_injective NewClient rfl
      [.call getMe, .call getMe, .act 0 .timeout, .act 1 .timeout] _ (by rfl)⟩

/-! ## The registry of listeners -/

/-- The loop of `listenerStore.gc` appends to what it has kept the listeners still to
visit that are active, in order. -/
theorem gcLoop_eq_filter (heap : List Listener) (rest : List Nat) :
    ∀ kept : List Nat, listenerStore.gcLoop heap rest kept
      = kept ++ rest.filter (listenerStore.isActiveAt heap) := by
  induction rest with
  | nil => intro kept; simp [listenerStore.gcLoop]
  | cons p rest ih =>
    intro kept
    by_cases h : listenerStore.isActiveAt heap p = true
    · simp [listenerStore.gcLoop, h, ih]
    · simp [listenerStore.gcLoop, h, ih]

/-- What `listenerStore.gc` leaves is the old list filtered by `IsActive()`. -/
theorem gc_eq_filter (heap : List Listener) (store : List Nat) :
    listenerStore.gc heap store = store.filter (listenerStore.isActiveAt heap) := by
  simp [listenerStore.gc, gcLoop_eq_filter]

/-! ## The fan-out to the listeners -/

/-- Appending nothing leaves a listener as it is. -/
theorem Listener.pushAll_nil (l : Listener) : l.pushAll [] = l := by
  simp [Listener.pushAll]

/-- Appending one event and then more is appending them all. -/
theorem Listener.pushAll_pushAll (l : Listener) (es fs : List TdType) :
    (l.pushAll es).pushAll fs = l.pushAll (es ++ fs) := by
  simp [Listener.pushAll]

/-- The loop over the listeners of a store without repetition, when the queue of every
active listener is open and has room: it ends, every active listener of the store has
the event appended to its queue, and every other listener is as before. -/
theorem broadcast_ok (typ : TdType) :
    ∀ (store : List Nat) (heap : List Listener) (g : Bool), store.Nodup →
      (∀ p ∈ store, ∃ l, heap[p]? = some l ∧ (l.isActive = true →
        l.Updates.closed = false ∧ l.Updates.buf.length < l.Updates.cap)) →
      ∃ heap1 g1, Client.broadcast typ store heap g = .ok (heap1, g1) ∧
        ∀ (p : Nat) (l : Listener), heap[p]? = some l →
          heap1[p]? = some (if p ∈ store ∧ l.isActive = true then l.pushAll [typ] else l) := by
  intro store
  induction store with
  | nil =>
    intro heap g _ _
    exact ⟨heap, g, rfl, fun p l h => by simpa using h⟩
  | cons p rest ih =>
    intro heap g hnd hok
    obtain ⟨l, hl, hact⟩ := hok p (List.mem_cons_self p rest)
    have hprest : p ∉ rest := (List.nodup_cons.mp hnd).1
    have hndrest : rest.Nodup := (List.nodup_cons.mp hnd).2
    have hplt : p < heap.length := (List.getElem?_eq_some.mp hl).1
    by_cases ha : l.isActive = true
    · obtain ⟨hopen, hroom⟩ := hact ha
      have hok1 : ∀ q ∈ rest, ∃ l1, (heap.set p (l.pushAll [typ]))[q]? = some l1 ∧
          (l1.isActive = true →
            l1.Updates.closed = false ∧ l1.Updates.buf.length < l1.Updates.cap) := by
        intro q hq
        have hqp : p ≠ q := fun h => hprest (h ▸ hq)
        rw [List.getElem?_set_ne hqp]
        exact hok q (List.mem_cons_of_mem p hq)
      obtain ⟨heap1, g1, hb, hspec⟩ := ih (heap.set p (l.pushAll [typ])) g hndrest hok1
      refine ⟨heap1, g1, ?_, ?_⟩
      · simp only [Client.broadcast, hl, Listener.IsActive, ha, Chan.send, hopen, hroom]
        simpa [Listener.pushAll, ha, hopen] using hb
      · intro x lx hx
        by_cases hxp : x = p
        · subst hxp
          rw [hl] at hx
          cases hx
          have h1 := hspec x (l.pushAll [typ]) (by simp [hplt])
          simp only [hprest, false_and, if_false] at h1
          simp [h1, ha]
        · have h1 := hspec x lx (by rw [List.getElem?_set_ne (Ne.symm hxp)]; exact hx)
          simp only [List.mem_cons, hxp, false_or]
          exact h1
    · have hok1 : ∀ q ∈ rest, ∃ l1, heap[q]? = some l1 ∧
          (l1.isActive = true →
            l1.Updates.closed = false ∧ l1.Updates.buf.length < l1.Updates.cap) :=
        fun q hq => hok q (List.mem_cons_of_mem p hq)
      obtain ⟨heap1, g1, hb, hspec⟩ := ih heap true hndrest hok1
      refine ⟨heap1, g1, ?_, ?_⟩
      · simp only [Client.broadcast, hl, Listener.IsActive, ha]
        simpa using hb
      · intro x lx hx
        by_cases hxp : x = p
        · subst hxp
          rw [hl] at hx
          cases hx
          have h1 := hspec x l hl
          simp only [hprest, false_and, if_false] at h1
          simp [h1, ha]
        · have h1 := hspec x lx hx
          simp only [List.mem_cons, hxp, false_or]
          exact h1

/-- One iteration of `Client.receive` on a response that parses to the event `e`, when
the buffer `client.catcher` and the queue of every active listener are open and have
room: it ends; every active listener of the store has `e` appended to its queue and every
other listener is as before; the store afterwards has no repetition, holds listeners of
the store before only, and still holds every active one. -/
theorem receive_ok (U : String → Option TdType) (client : Client) (response : Response)
    (e : TdType) (hparse : U response.Data = some e)
    (hcatcher : client.catcher.closed = false
      ∧ client.catcher.buf.length < client.catcher.cap)
    (hnodup : client.listenerStore.Nodup)
    (hroom : ∀ p ∈ client.listenerStore, ∃ l, client.listeners[p]? = some l ∧
      (l.isActive = true →
        l.Updates.closed = false ∧ l.Updates.buf.length < l.Updates.cap)) :
    ∃ client1, Client.receive U client response = .ok client1
      ∧ (∀ (p : Nat) (l : Listener), client.listeners[p]? = some l →
          client1.listeners[p]? = some
            (if p ∈ client.listenerStore ∧ l.isActive = true then l.pushAll [e] else l))
      ∧ client1.listenerStore.Nodup
      ∧ (∀ p, p ∈ client1.listenerStore → p ∈ client.listenerStore)
      ∧ (∀ (p : Nat) (l : Listener), p ∈ client.listenerStore →
          client.listeners[p]? = some l → l.isActive = true → p ∈ client1.listenerStore)
      ∧ client1.catcher = { client.catcher with buf := client.catcher.buf ++ [response] } := by
  obtain ⟨heap1, g1, hb, hspec⟩ :=
    broadcast_ok e client.listenerStore client.listeners false hnodup hroom
  refine ⟨{ client with
            catcher := { client.catcher with buf := client.catcher.buf ++ [response] }
            listeners := heap1
            listenerStore :=
              if g1 then listenerStore.gc heap1 client.listenerStore
              else client.listenerStore }, ?_, hspec, ?_, ?_, ?_, rfl⟩
  · simp [Client.receive, Chan.send, hcatcher.1, hcatcher.2, hparse, hb]
  · show (if g1 = true then listenerStore.gc heap1 client.listenerStore
        else client.listenerStore).Nodup
    split
    · rw [gc_eq_filter]
      exact hnodup.filter _
    · exact hnodup
  · intro p hp
    have hp1 : p ∈ (if g1 = true then listenerStore.gc heap1 client.listenerStore
        else client.listenerStore) := hp
    split at hp1
    · rw [gc_eq_filter] at hp1
      exact (List.mem_filter.mp hp1).1
    · exact hp1
  · intro p l hp hl ha
    show p ∈ (if g1 = true then listenerStore.gc heap1 client.listenerStore
        else client.listenerStore)
    split
    · rw [gc_eq_filter]
      refine List.mem_filter.mpr ⟨hp, ?_⟩
      have h1 := hspec p l hl
      rw [if_pos ⟨hp, ha⟩] at h1
      simp [listenerStore.isActiveAt, h1, Listener.IsActive, Listener.pushAll, ha]
    · exact hp

/-- The body of the loop of `Client.receive` alone, handed responses as if `Receive` had
returned them, parsing to the events `events` in that order: when the store has no repetition and the buffer `client.catcher` and the queue
of every active listener are open with room for them all: the iterations of
`Client.receive` end, every active listener of the store has exactly `events`, in
order, appended to its queue, and the queue of every closed listener is unchanged. One
response is one iteration. -/
theorem receive_fans_out_in_order (U : String → Option TdType) :
    ∀ (responses : List Response) (events : List TdType) (client : Client),
      responses.map (fun r => U r.Data) = events.map some →
      (client.catcher.closed = false
        ∧ client.catcher.buf.length + responses.length ≤ client.catcher.cap) →
      client.listenerStore.Nodup →
      (∀ p ∈ client.listenerStore, ∃ l, client.listeners[p]? = some l ∧
        (l.isActive = true →
          l.Updates.closed = false ∧ l.Updates.buf.length + events.length ≤ l.Updates.cap)) →
      ∃ client1, Client.receiveAll U responses client = .ok client1
        ∧ ∀ (p : Nat) (l : Listener), client.listeners[p]? = some l →
            client1.listeners[p]? = some
              (if p ∈ client.listenerStore ∧ l.isActive = true then l.pushAll events
               else l) := by
  intro responses
  induction responses with
  | nil =>
    intro events client hparse _ _ _
    cases events with
    | nil =>
      refine ⟨client, rfl, ?_⟩
      intro p l hl
      simp [Listener.pushAll_nil, hl]
    | cons e es => simp at hparse
  | cons r rs ih =>
    intro events client hparse hcatcher hnodup hroom
    cases events with
    | nil => simp at hparse
    | cons e es =>
      simp only [List.map_cons, List.cons.injEq] at hparse
      obtain ⟨hpe, hprest⟩ := hparse
      simp only [List.length_cons] at hcatcher hroom
      have hroom1 : ∀ p ∈ client.listenerStore, ∃ l, client.listeners[p]? = some l ∧
          (l.isActive = true →
            l.Updates.closed = false ∧ l.Updates.buf.length < l.Updates.cap) := by
        intro p hp
        obtain ⟨l, hl, h⟩ := hroom p hp
        exact ⟨l, hl, fun ha => ⟨(h ha).1, by have := (h ha).2; omega⟩⟩
      obtain ⟨client1, hrecv, hspec, hnd1, hsub, hkeep, hcat⟩ :=
        receive_ok U client r e hpe ⟨hcatcher.1, by have := hcatcher.2; omega⟩ hnodup hroom1
      have hcatcher1 : client1.catcher.closed = false
          ∧ client1.catcher.buf.length + rs.length ≤ client1.catcher.cap := by
        rw [hcat]
        refine ⟨hcatcher.1, ?_⟩
        have := hcatcher.2
        simp only [List.length_append, List.length_singleton]
        omega
      have hroom2 : ∀ p ∈ client1.listenerStore, ∃ l, client1.listeners[p]? = some l ∧
          (l.isActive = true →
            l.Updates.closed = false ∧ l.Updates.buf.length + es.length ≤ l.Updates.cap) := by
        intro p hp
        have hp0 := hsub p hp
        obtain ⟨l, hl, h⟩ := hroom p hp0
        refine ⟨_, hspec p l hl, ?_⟩
        by_cases ha : l.isActive = true
        · rw [if_pos ⟨hp0, ha⟩]
          intro _
          have h2 := h ha
          refine ⟨h2.1, ?_⟩
          have := h2.2
          simp only [Listener.pushAll, List.length_append, List.length_singleton]
          omega
        · rw [if_neg (fun hc => ha hc.2)]
          intro hc
          exact absurd hc ha
      obtain ⟨client2, hall, hspec2⟩ := ih es client1 hprest hcatcher1 hnd1 hroom2
      refine ⟨client2, ?_, ?_⟩
      · simp only [Client.receiveAll, hrecv]
        exact hall
      · intro p l hl
        have h1 := hspec p l hl
        have h2 := hspec2 p _ h1
        rw [h2]
        by_cases hc : p ∈ client.listenerStore ∧ l.isActive = true
        · have hp1 : p ∈ client1.listenerStore := hkeep p l hc.1 hl hc.2
          simp only [if_pos hc]
          have hact : (l.pushAll [e]).isActive = true := hc.2
          rw [if_pos ⟨hp1, hact⟩, Listener.pushAll_pushAll]
          rfl
        · simp only [if_neg hc]
          have hc1 : ¬ (p ∈ client1.listenerStore ∧ l.isActive = true) :=
            fun h => hc ⟨hsub p h.1, h.2⟩
          rw [if_neg hc1]

/-! ## Closing, collecting and registering listeners -/

/-- C11 (evaluated on the code). After a first `Close` the listener is inactive and its
queue closed, and a second `Close` does not succeed: `close(listener.Updates)` runs on
the closed channel and panics. -/
theorem Close_twice_panics (listener listener1 : Listener)
    (h : listener.Close = .ok listener1) :
    listener1.isActive = false ∧ listener1.Updates.closed = true
      ∧ listener1.Close = .fatal := by
  simp only [Listener.Close, Chan.close] at h
  split at h
  · next ch hch =>
    split at hch
    · simp at hch
    · simp only [Step.ok.injEq] at hch h
      subst hch
      subst h
      simp [Listener.Close, Chan.close]
  · simp at h
  · simp at h

/-- Witness for C11: an open listener closed twice. -/
theorem Close_twice_panics_witness :
    openListener.Close
        = .ok { isActive := false, Updates := { openListener.Updates with closed := true } }
    ∧ ({ isActive := false, Updates := { openListener.Updates with closed := true } }
        : Listener).isActive = false
    ∧ ({ isActive := false, Updates := { openListener.Updates with closed := true } }
        : Listener).Updates.closed = true
    ∧ ({ isActive := false, Updates := { openListener.Updates with closed := true } }
        : Listener).Close = .fatal :=
  ⟨by rfl, Close_twice_panics openListener _ (by rfl)⟩

/-- C12. Whatever the registry holds, `listenerStore.gc` leaves exactly the old
listeners whose `IsActive()` holds, in their old order: the new list is the old one
filtered, a sublist of it, holds active listeners only, and holds every active listener
of the old list. -/
theorem gc_keeps_exactly_the_active (heap : List Listener) (store : List Nat) :
    listenerStore.gc heap store = store.filter (listenerStore.isActiveAt heap)
    ∧ List.Sublist (listenerStore.gc heap store) store
    ∧ (∀ p ∈ listenerStore.gc heap store, ∃ l, heap[p]? = some l ∧ l.IsActive = true)
    ∧ (∀ (p : Nat) (l : Listener), p ∈ store → heap[p]? = some l → l.IsActive = true →
        p ∈ listenerStore.gc heap store) := by
  refine ⟨gc_eq_filter heap store, ?_, ?_, ?_⟩
  · rw [gc_eq_filter]
    exact List.filter_sublist store
  · intro p hp
    rw [gc_eq_filter] at hp
    have h := (List.mem_filter.mp hp).2
    simp only [listenerStore.isActiveAt] at h
    split at h
    · next l hl => exact ⟨l, hl, h⟩
    · cases h
  · intro p l hp hl ha
    rw [gc_eq_filter]
    exact List.mem_filter.mpr ⟨hp, by simp [listenerStore.isActiveAt, hl, ha]⟩

/-- C13. `Close` on a listener of the registry whose queue is open: afterwards
`IsActive()` is false and the queue is closed with what it held; the list of the
registry and the other listeners are as before, so the listener is still handed out by
`Listeners()`; a `gc` pass then leaves it out. -/
theorem Close_keeps_registry (client : Client) (p : Nat) (l : Listener)
    (hp : p ∈ client.listenerStore) (hl : client.listeners[p]? = some l)
    (hopen : l.Updates.closed = false) :
    ∃ client1, client.closeListener p = .ok client1
      ∧ client1.listenerStore = client.listenerStore
      ∧ client1.listeners[p]?
          = some { isActive := false, Updates := { l.Updates with closed := true } }
      ∧ listenerStore.isActiveAt client1.listeners p = false
      ∧ (∀ q, q ≠ p → client1.listeners[q]? = client.listeners[q]?)
      ∧ p ∈ listenerStore.Listeners client1.listenerStore
      ∧ p ∉ listenerStore.gc client1.listeners client1.listenerStore := by
  have hlt : p < client.listeners.length := (List.getElem?_eq_some.mp hl).1
  refine ⟨{ client with
            listeners := client.listeners.set p
              { isActive := false, Updates := { l.Updates with closed := true } } },
    ?_, rfl, ?_, ?_, ?_, hp, ?_⟩
  · simp [Client.closeListener, hl, Listener.Close, Chan.close, hopen]
  · simp [hlt]
  · simp [listenerStore.isActiveAt, hlt, Listener.IsActive]
  · intro q hq
    simp [List.getElem?_set, Ne.symm hq]
  · rw [gc_eq_filter]
    intro hmem
    have h := (List.mem_filter.mp hmem).2
    simp [listenerStore.isActiveAt, hlt, Listener.IsActive] at h

/-- Witness for C13: the active listener of `clientListening` is closed. -/
theorem Close_keeps_registry_witness :
    (0 : Nat) ∈ clientListening.listenerStore
    ∧ ∃ client1, clientListening.closeListener 0 = .ok client1
      ∧ client1.listenerStore = clientListening.listenerStore
      ∧ client1.listeners[0]?
          = some { isActive := false,
                   Updates := { (Chan.make 1024 : Chan TdType) with closed := true } }
      ∧ listenerStore.isActiveAt client1.listeners 0 = false
      ∧ (∀ q, q ≠ 0 → client1.listeners[q]? = clientListening.listeners[q]?)
      ∧ 0 ∈ listenerStore.Listeners client1.listenerStore
      ∧ 0 ∉ listenerStore.gc client1.listeners client1.listenerStore :=
  ⟨by decide, Close_keeps_registry clientListening 0 _ (by decide) (by rfl) (by rfl)⟩

/-- C14. Whatever the registry holds, `GetListener` returns a listener that was not
there before, active and with an empty open queue of 1024; the list of the registry
afterwards is the old list with that listener appended, and the listeners that were
there are unchanged. -/
theorem GetListener_appends (client : Client) :
    client.listeners[client.GetListener.1]? = none
    ∧ client.GetListener.2.listeners[client.GetListener.1]?
        = some { isActive := true, Updates := { buf := [], cap := 1024, closed := false } }
    ∧ client.GetListener.2.listenerStore = client.listenerStore ++ [client.GetListener.1]
    ∧ (∀ q, q < client.listeners.length →
        client.GetListener.2.listeners[q]? = client.listeners[q]?) := by
  refine ⟨?_, ?_, rfl, ?_⟩
  · simp [Client.GetListener]
  · simp [Client.GetListener, Chan.make]
  · intro q hq
    simp [Client.GetListener, List.getElem?_append_left hq]

/-! ## Authorize -/

/-- Counterexample to C15 as stated: on the state closed, handled without error,
`Authorize` has not returned; it stands at its next query, and when the engine then
answers ready it has queried twice. -/
theorem Authorize_queries_again_after_closed :
    (Authorize (Authorizer.handler acceptAll) Authorizer.Close [.state .Closed]
        NewClientAuthorizer).outcome = .querying
    ∧ (Authorize (Authorizer.handler acceptAll) Authorizer.Close [.state .Closed]
        NewClientAuthorizer).trace = [.query, .handle .Closed]
    ∧ (Authorize (Authorizer.handler acceptAll) Authorizer.Close
        [.state .Closed, .state .Ready] NewClientAuthorizer).trace
      = [.query, .handle .Closed, .query, .handle .Ready, .sleep, .close] := by
  refine ⟨?_, ?_, ?_⟩ <;> rfl

/-- C15 (amended). On a shutdown state (logging out, closing, closed) the switch of the
interactive handler sends no request and returns nil; and when `Handle` returns nil on
such a state, `Authorize` does not return: it goes back to its query, and goes on with
the next answers as it would from there. -/
theorem Authorize_loops_on_shutdown_states {σ : Type}
    (H : σ → AuthorizationState → Step (σ × Option String)) (Close : σ → Step σ)
    (s : AuthorizationState) (h h1 : σ) (rest : List Query)
    (hs : s = .LoggingOut ∨ s = .Closing ∨ s = .Closed)
    (hH : H h s = .ok (h1, none)) :
    (∀ (call : AuthRequest → Option String) (a : Authorizer),
        a.act call s = .ok (a, none, none))
    ∧ (Authorize H Close [.state s] h).outcome = .querying
    ∧ (Authorize H Close [.state s] h).trace = [.query, .handle s]
    ∧ ∀ tr, Authorize.loop H (.state s :: rest) h tr
        = Authorize.loop H rest h1 (tr ++ [.query, .handle s]) := by
  have hne : s.AuthorizationStateType ≠ TypeAuthorizationStateReady := by
    rcases hs with h0 | h0 | h0 <;> subst h0 <;> decide
  refine ⟨?_, ?_, ?_, ?_⟩
  · intro call a
    rcases hs with h0 | h0 | h0 <;> subst h0 <;> rfl
  · simp [Authorize, Authorize.loop, hH, hne]
  · simp [Authorize, Authorize.loop, hH, hne]
  · intro tr
    simp [Authorize.loop, hH, hne]

/-- Witness for C15 (amended): the interactive handler on the state closed. -/
theorem Authorize_loops_on_shutdown_states_witness :
    (∀ (call : AuthRequest → Option String) (a : Authorizer),
        a.act call .Closed = .ok (a, none, none))
    ∧ (Authorize (Authorizer.handler acceptAll) Authorizer.Close [.state .Closed]
        NewClientAuthorizer).outcome = .querying
    ∧ (Authorize (Authorizer.handler acceptAll) Authorizer.Close [.state .Closed]
        NewClientAuthorizer).trace = [.query, .handle .Closed]
    ∧ ∀ tr, Authorize.loop (Authorizer.handler acceptAll) (.state .Closed :: [.state .Ready])
          NewClientAuthorizer tr
        = Authorize.loop (Authorizer.handler acceptAll) [.state .Ready]
            { NewClientAuthorizer with State := { buf := [.Closed], cap := 10, closed := false } }
            (tr ++ [.query, .handle .Closed]) :=
  Authorize_loops_on_shutdown_states (Authorizer.handler acceptAll) Authorizer.Close .Closed
    NewClientAuthorizer _ [.state .Ready] (Or.inr (Or.inr rfl)) (by rfl)

/-- One round of the loop of `Authorize` on a state that is not ready and on which
`Handle` returns nil. -/
theorem Authorize.loop_step {σ : Type}
    (H : σ → AuthorizationState → Step (σ × Option String)) (s : AuthorizationState)
    (h h1 : σ) (rest : List Query) (tr : List AuthEvent)
    (hs : s.AuthorizationStateType ≠ TypeAuthorizationStateReady)
    (hH : H h s = .ok (h1, none)) :
    Authorize.loop H (.state s :: rest) h tr
      = Authorize.loop H rest h1 (tr ++ [.query, .handle s]) := by
  simp [Authorize.loop, hH, hs]

/-- The loop of `Authorize` over states that are not ready and on which `Handle` returns
nil: it makes one round for each and goes on with the answers that follow. -/
theorem Authorize.loop_states {σ : Type}
    (H : σ → AuthorizationState → Step (σ × Option String)) :
    ∀ (pre : List AuthorizationState) (h h1 : σ) (tr : List AuthEvent) (more : List Query),
      (∀ s ∈ pre, s.AuthorizationStateType ≠ TypeAuthorizationStateReady) →
      handleAll H h pre = some h1 →
      Authorize.loop H (pre.map Query.state ++ more) h tr
        = Authorize.loop H more h1 (tr ++ AuthEvent.rounds pre) := by
  intro pre
  induction pre with
  | nil =>
    intro h h1 tr more _ hH
    simp only [handleAll, Option.some.injEq] at hH
    subst hH
    simp [AuthEvent.rounds]
  | cons s pre ih =>
    intro h h1 tr more hpre hH
    have hs : s.AuthorizationStateType ≠ TypeAuthorizationStateReady :=
      hpre s (List.mem_cons_self s pre)
    simp only [handleAll] at hH
    split at hH
    · next hm hstep =>
      have hrec := ih hm h1 (tr ++ [.query, .handle s]) more
        (fun t ht => hpre t (List.mem_cons_of_mem s ht)) hH
      rw [List.map_cons, List.cons_append, Authorize.loop_step H s h hm _ tr hs hstep, hrec]
      simp [AuthEvent.rounds]
    · cases hH

/-- C16. For engine states `s1..sk` of which `sk` is the first ready one, when every call
of `Handle` returns nil (and the handler's `Close` returns): `Authorize` makes one round
for each state in order, a query and `Handle` on its answer, the ready state included;
after `sk` it sleeps and closes the handler without another query, leaves the answers
that follow unasked, and returns nil. -/
theorem Authorize_handles_each_state_until_ready {σ : Type}
    (H : σ → AuthorizationState → Step (σ × Option String)) (Close : σ → Step σ)
    (pre : List AuthorizationState) (sk : AuthorizationState) (h hm h1 h2 : σ)
    (rest : List Query)
    (hpre : ∀ s ∈ pre, s.AuthorizationStateType ≠ TypeAuthorizationStateReady)
    (hk : sk.AuthorizationStateType = TypeAuthorizationStateReady)
    (hH : handleAll H h pre = some hm) (hHk : H hm sk = .ok (h1, none))
    (hC : Close h1 = .ok h2) :
    (Authorize H Close ((pre ++ [sk]).map Query.state ++ rest) h).trace
        = AuthEvent.rounds pre ++ [.query, .handle sk, .sleep, .close]
    ∧ (Authorize H Close ((pre ++ [sk]).map Query.state ++ rest) h).outcome = .returned none
    ∧ (Authorize H Close ((pre ++ [sk]).map Query.state ++ rest) h).rest = rest
    ∧ (Authorize H Close ((pre ++ [sk]).map Query.state ++ rest) h).handler = h2 := by
  have e : (pre ++ [sk]).map Query.state ++ rest
      = pre.map Query.state ++ .state sk :: rest := by simp
  have hloop : Authorize.loop H (pre.map Query.state ++ .state sk :: rest) h []
      = { trace := AuthEvent.rounds pre ++ [.query, .handle sk, .sleep], handler := h1,
          outcome := .returned none, rest := rest } := by
    rw [Authorize.loop_states H pre h hm [] (.state sk :: rest) hpre hH]
    simp [Authorize.loop, hHk, hk]
  rw [e]
  simp [Authorize, hloop, hC]

/-- Witness for C16: the interactive handler through the encryption key check to
ready. -/
theorem Authorize_handles_each_state_until_ready_witness :
    (∀ s ∈ [AuthorizationState.WaitEncryptionKey],
        s.AuthorizationStateType ≠ TypeAuthorizationStateReady)
    ∧ AuthorizationState.Ready.AuthorizationStateType = TypeAuthorizationStateReady
    ∧ (Authorize (Authorizer.handler acceptAll) Authorizer.Close
        (([AuthorizationState.WaitEncryptionKey] ++ [AuthorizationState.Ready]).map Query.state
          ++ [.state .Closed])
        NewClientAuthorizer).trace
        = AuthEvent.rounds [.WaitEncryptionKey] ++ [.query, .handle .Ready, .sleep, .close]
    ∧ (Authorize (Authorizer.handler acceptAll) Authorizer.Close
        (([AuthorizationState.WaitEncryptionKey] ++ [AuthorizationState.Ready]).map Query.state
          ++ [.state .Closed])
        NewClientAuthorizer).outcome = .returned none
    ∧ (Authorize (Authorizer.handler acceptAll) Authorizer.Close
        (([AuthorizationState.WaitEncryptionKey] ++ [AuthorizationState.Ready]).map Query.state
          ++ [.state .Closed])
        NewClientAuthorizer).rest = [.state .Closed]
    ∧ (Authorize (Authorizer.handler acceptAll) Authorizer.Close
        (([AuthorizationState.WaitEncryptionKey] ++ [AuthorizationState.Ready]).map Query.state
          ++ [.state .Closed])
        NewClientAuthorizer).handler
        = { TdlibParameters := { buf := [], cap := 1, closed := true },
            PhoneNumber := { buf := [], cap := 1, closed := true },
            Code := { buf := [], cap := 1, closed := true },
            State := { buf := [.WaitEncryptionKey, .Ready], cap := 10, closed := true },
            FirstName := { buf := [], cap := 1, closed := true },
            LastName := { buf := [], cap := 1, closed := true },
            Password := { buf := [], cap := 1, closed := true } } :=
  ⟨by decide, by rfl,
    Authorize_handles_each_state_until_ready (Authorizer.handler acceptAll) Authorizer.Close
      [.WaitEncryptionKey] .Ready NewClientAuthorizer _ _ _ [.state .Closed]
      (by decide) (by rfl) (by rfl) (by rfl) (by rfl)⟩

/-- The loop of `Authorize` never calls the handler's `Close`. -/
theorem Authorize.loop_no_close {σ : Type}
    (H : σ → AuthorizationState → Step (σ × Option String)) :
    ∀ (answers : List Query) (h : σ) (tr : List AuthEvent), AuthEvent.close ∉ tr →
      AuthEvent.close ∉ (Authorize.loop H answers h tr).trace := by
  intro answers
  induction answers with
  | nil =>
    intro h tr htr
    simpa [Authorize.loop] using htr
  | cons q rest ih =>
    intro h tr htr
    cases q with
    | error err => simpa [Authorize.loop] using htr
    | state s =>
      simp only [Authorize.loop]
      split
      · simpa using htr
      · simpa using htr
      · simpa using htr
      · split
        · simpa using htr
        · exact ih _ _ (by simpa using htr)

/-- An adapter whose mutex is free is what it is after the mutex was taken and
released. -/
theorem TDClient.unlocked_eq (c : TDClient) (h : c.locker = false) :
    ({ locker := false, handled := c.handled } : TDClient) = c := by
  cases c
  simp only at h
  subst h
  rfl

/-- The run of `Execute` when the engine returns nothing, the mutex being free. -/
theorem Execute_run_when_rejected (c : TDClient) (request : Request)
    (exec : Request → Option Raw) (hfree : c.locker = false) (hrej : exec request = none) :
    runCall (fun c pc => c.Execute request exec pc) 4 c .entry
        = (c, .returned none (some "request can't be parsed")) := by
  simp [runCall, TDClient.Execute, TDClient.Lock, TDClient.Unlock, TDClient.build,
    TDClient.finish, hfree, hrej, TDClient.unlocked_eq]

/-- The loop of `Authorize` only adds to the trace, never calls the handler's `Close`,
and leaves the handler as the calls of `Handle` it made left it. -/
theorem Authorize_loop_handler {σ : Type}
    (H : σ → AuthorizationState → Step (σ × Option String)) :
    ∀ (answers : List Query) (h : σ) (tr : List AuthEvent),
      ∃ more, (Authorize.loop H answers h tr).trace = tr ++ more
        ∧ AuthEvent.close ∉ more
        ∧ (Authorize.loop H answers h tr).handler
            = handleThrough H h (AuthEvent.handled more) := by
  intro answers
  induction answers with
  | nil =>
    intro h tr
    exact ⟨[], by simp [Authorize.loop], by simp, by simp [Authorize.loop, handleThrough,
      AuthEvent.handled]⟩
  | cons q rest ih =>
    intro h tr
    cases q with
    | error err =>
      exact ⟨[.query], by simp [Authorize.loop], by simp,
        by simp [Authorize.loop, handleThrough, AuthEvent.handled]⟩
    | state s =>
      cases hH : H h s with
      | blocked =>
        exact ⟨[.query, .handle s], by simp [Authorize.loop, hH], by simp,
          by simp [Authorize.loop, handleThrough, AuthEvent.handled, hH]⟩
      | fatal =>
        exact ⟨[.query, .handle s], by simp [Authorize.loop, hH], by simp,
          by simp [Authorize.loop, handleThrough, AuthEvent.handled, hH]⟩
      | ok r =>
        obtain ⟨h1, err⟩ := r
        cases err with
        | some e =>
          exact ⟨[.query, .handle s], by simp [Authorize.loop, hH], by simp,
            by simp [Authorize.loop, handleThrough, AuthEvent.handled, hH]⟩
        | none =>
          by_cases hr : s.AuthorizationStateType = TypeAuthorizationStateReady
          · exact ⟨[.query, .handle s, .sleep], by simp [Authorize.loop, hH, hr], by simp,
              by simp [Authorize.loop, handleThrough, AuthEvent.handled, hH, hr]⟩
          · obtain ⟨more, h1t, h1c, h1h⟩ := ih h1 (tr ++ [.query, .handle s])
            refine ⟨[.query, .handle s] ++ more, ?_, ?_, ?_⟩
            · simp only [Authorize.loop, hH, hr, if_false, h1t, List.append_assoc]
            · simpa using h1c
            · simp only [Authorize.loop, hH, hr, if_false, h1h]
              simp [handleThrough, AuthEvent.handled, hH]

/-- C17. Whenever `Authorize` returns, with nil or with the error of a query or of
`Handle`, the handler's `Close` has been called exactly once, and as the last thing
`Authorize` did, after every call of `Handle`: the trace is a trace without `Close`
followed by one `Close`, and the handler `Authorize` leaves is what `Close` made of the
handler the calls of `Handle` in the trace left. -/
theorem Authorize_closes_once_on_return {σ : Type}
    (H : σ → AuthorizationState → Step (σ × Option String)) (Close : σ → Step σ)
    (answers : List Query) (h : σ) (e : Option String)
    (hret : (Authorize H Close answers h).outcome = .returned e) :
    ∃ init, (Authorize H Close answers h).trace = init ++ [.close]
      ∧ AuthEvent.close ∉ init
      ∧ Close (handleThrough H h (AuthEvent.handled init))
          = .ok (Authorize H Close answers h).handler := by
  obtain ⟨more, ht, hc, hh⟩ := Authorize_loop_handler H answers h []
  simp only [List.nil_append] at ht
  rw [← ht] at hc hh
  refine ⟨(Authorize.loop H answers h []).trace, ?_, hc, ?_⟩
  · simp only [Authorize] at hret ⊢
    cases hout : (Authorize.loop H answers h []).outcome with
    | querying => simp [hout] at hret
    | blocked => simp [hout] at hret
    | panicked =>
      simp only [hout] at hret
      cases hC : Close (Authorize.loop H answers h []).handler <;> simp [hC, hout] at hret
    | returned e1 =>
      simp only [hout] at hret ⊢
      cases hC : Close (Authorize.loop H answers h []).handler <;> simp [hC] at hret ⊢
  · rw [← hh]
    simp only [Authorize] at hret ⊢
    cases hout : (Authorize.loop H answers h []).outcome with
    | querying => simp [hout] at hret
    | blocked => simp [hout] at hret
    | panicked =>
      simp only [hout] at hret
      cases hC : Close (Authorize.loop H answers h []).handler <;> simp [hC, hout] at hret
    | returned e1 =>
      simp only [hout] at hret ⊢
      cases hC : Close (Authorize.loop H answers h []).handler <;> simp [hC] at hret ⊢

/-- Witness for C17: a run that ends on the error of `Handle`. -/
theorem Authorize_closes_once_on_return_witness :
    (Authorize (Authorizer.handler rejectKey) Authorizer.Close
        [.state .WaitEncryptionKey, .state .Ready] NewClientAuthorizer).outcome
      = .returned (some "401 Unauthorized")
    ∧ ∃ init, (Authorize (Authorizer.handler rejectKey) Authorizer.Close
          [.state .WaitEncryptionKey, .state .Ready] NewClientAuthorizer).trace
        = init ++ [.close] ∧ AuthEvent.close ∉ init
        ∧ Authorizer.Close (handleThrough (Authorizer.handler rejectKey) NewClientAuthorizer
            (AuthEvent.handled init))
          = .ok (Authorize (Authorizer.handler rejectKey) Authorizer.Close
              [.state .WaitEncryptionKey, .state .Ready] NewClientAuthorizer).handler :=
  ⟨by rfl, Authorize_closes_once_on_return (Authorizer.handler rejectKey) Authorizer.Close
    [.state .WaitEncryptionKey, .state .Ready] NewClientAuthorizer _ (by rfl)⟩

/-- C18 (evaluated on the code). After rounds on states that are not ready and handled
without error, when the next query returns the error `e`, or `Handle` on its answer
does: `Authorize` returns exactly `e`, having done nothing after the failing call but
close the handler, and leaves the answers that follow unasked. `NewClient` then calls
`client.ForceStopAndDestroy()`, whose generated `Destroy` unlocks the mutex of the
adapter at its end without having locked it: with the mutex free `NewClient` does not
return no client and `e`, the program ends on a fatal error; with the mutex held by
`Receive` it returns them after releasing the lock of `Receive`. -/
theorem Authorize_returns_first_error {σ : Type}
    (H : σ → AuthorizationState → Step (σ × Option String)) (Close : σ → Step σ)
    (g : Nat → String) (exec : Request → Option Raw)
    (client : Client) (pre : List AuthorizationState) (q : Query) (e : String)
    (h hm hf h2 : σ) (rest : List Query)
    (hpre : ∀ s ∈ pre, s.AuthorizationStateType ≠ TypeAuthorizationStateReady)
    (hH : handleAll H h pre = some hm)
    (hq : (q = .error e ∧ hf = hm) ∨ ∃ s, q = .state s ∧ H hm s = .ok (hf, some e))
    (hC : Close hf = .ok h2)
    (hfree : client.tdClient.locker = false) (hrej : exec destroyRequest = none) :
    (Authorize H Close (pre.map Query.state ++ q :: rest) h).outcome = .returned (some e)
    ∧ (Authorize H Close (pre.map Query.state ++ q :: rest) h).trace
        = AuthEvent.rounds pre
          ++ (.query :: (match q with
              | .state s => [.handle s]
              | .error _ => [])) ++ [.close]
    ∧ (Authorize H Close (pre.map Query.state ++ q :: rest) h).rest = rest
    ∧ (Authorize H Close (pre.map Query.state ++ q :: rest) h).handler = h2
    ∧ NewClient.finish g false exec .timeout client (some e) = .fatal
    ∧ NewClient.finish g true exec .timeout client (some e) = .fatal
    ∧ (∃ r, NewClient.finish g false exec .timeout
          { client with tdClient := { client.tdClient with locker := true } } (some e)
        = .ok r ∧ r = { client := none, err := some e, destroyed := true }) := by
  have hstart := Authorize.loop_states H pre h hm [] (q :: rest) hpre hH
  have hexec := Execute_run_when_rejected client.tdClient destroyRequest exec hfree hrej
  have hfin1 : NewClient.finish g false exec .timeout client (some e) = .fatal := by
    simp [NewClient.finish, Client.ForceStopAndDestroy, Client.generated, runSend,
      Client.Send, Chan.close, Chan.make, Step.bind, TDClient.Unlock, hfree]
  have hfin2 : NewClient.finish g true exec .timeout client (some e) = .fatal := by
    simp [NewClient.finish, Client.ForceStopAndDestroy, Client.generated, hexec, Step.bind,
      TDClient.Unlock, hfree]
  have hfin3 : ∃ r, NewClient.finish g false exec .timeout
        { client with tdClient := { client.tdClient with locker := true } } (some e)
      = .ok r ∧ r = { client := none, err := some e, destroyed := true } := by
    simp [NewClient.finish, Client.ForceStopAndDestroy, Client.generated, runSend,
      Client.Send, Chan.close, Chan.make, Step.bind, TDClient.Unlock]
  rcases hq with ⟨hq1, hq2⟩ | ⟨s, hq1, hq2⟩
  · subst hq1; subst hq2
    refine ⟨?_, ?_, ?_, ?_, hfin1, hfin2, hfin3⟩ <;>
      simp [Authorize, hstart, Authorize.loop, hC]
  · subst hq1
    refine ⟨?_, ?_, ?_, ?_, hfin1, hfin2, hfin3⟩ <;>
      simp [Authorize, hstart, Authorize.loop, hq2, hC]

/-- Witness for C18: the engine rejects the encryption key check after the interactive
handler has gone through a closing state, on the client `NewClient` builds. -/
theorem Authorize_returns_first_error_witness :
    (∀ s ∈ [AuthorizationState.Closing],
        s.AuthorizationStateType ≠ TypeAuthorizationStateReady)
    ∧ NewClient.tdClient.locker = false
    ∧ (Authorize (Authorizer.handler rejectKey) Authorizer.Close
        ([AuthorizationState.Closing].map Query.state
          ++ .state .WaitEncryptionKey :: [.state .Ready]) NewClientAuthorizer).outcome
        = .returned (some "401 Unauthorized")
    ∧ NewClient.finish constantGenerator false (fun _ => none) .timeout NewClient
        (some "401 Unauthorized") = .fatal :=
  ⟨by decide, rfl,
    (Authorize_returns_first_error (Authorizer.handler rejectKey) Authorizer.Close
      constantGenerator (fun _ => none) NewClient
      [.Closing] (.state .WaitEncryptionKey) "401 Unauthorized" NewClientAuthorizer _ _ _
      [.state .Ready] (by decide) (by rfl)
      (Or.inr ⟨.WaitEncryptionKey, rfl, by rfl⟩) (by rfl) rfl rfl).1,
    (Authorize_returns_first_error (Authorizer.handler rejectKey) Authorizer.Close
      constantGenerator (fun _ => none) NewClient
      [.Closing] (.state .WaitEncryptionKey) "401 Unauthorized" NewClientAuthorizer _ _ _
      [.state .Ready] (by decide) (by rfl)
      (Or.inr ⟨.WaitEncryptionKey, rfl, by rfl⟩) (by rfl) rfl rfl).2.2.2.2.1⟩

/-! ## The interactive handler -/

/-- Counterexample to C19 as stated: the state says the account is registered and a
code has been supplied, but no names; `Handle` does not complete, it waits on the slot
of the first name. -/
theorem Handle_registered_waits_for_names :
    Authorizer.Handle acceptAll
      { NewClientAuthorizer with Code := { buf := ["12345"], cap := 1, closed := false } }
      (.WaitCode true) = .blocked := by
  rfl

/-- A character that is no white space is no newline. -/
theorem IsSpace_newline (c : Char) (h : IsSpace c = false) : c.toNat ≠ 10 := by
  intro h10
  simp [IsSpace, h10] at h

/-- The token of a word followed by white space is the word. -/
theorem Scanln_token_word (w : List Char) (c : Char) (more : List Char)
    (hw : ∀ x ∈ w, IsSpace x = false) (hc : IsSpace c = true) :
    Scanln.token (w ++ c :: more) = .ok (w, c :: more) := by
  induction w with
  | nil => simp [Scanln.token, hc]
  | cons x w ih =>
    have hx : IsSpace x = false := hw x (List.mem_cons_self x w)
    simp [Scanln.token, hx, ih (fun y hy => hw y (List.mem_cons_of_mem x hy)), Step.bind]

/-- On a word followed by a newline `Scanln` gives the word and has read the line. -/
theorem Scanln_word (w : String) (more : List Char) (hne : w.data ≠ [])
    (hw : ∀ x ∈ w.data, IsSpace x = false) :
    Scanln (w.data ++ Char.ofNat 10 :: more) = .ok (w, more) := by
  obtain ⟨d⟩ := w
  cases d with
  | nil => exact absurd rfl hne
  | cons x d =>
    have hx : IsSpace x = false := hw x (List.mem_cons_self x d)
    have hx10 : x.toNat ≠ 10 := IsSpace_newline x hx
    have ht := Scanln_token_word (x :: d) (Char.ofNat 10) more hw (by decide)
    simp only [List.cons_append] at ht
    have h10 : (Char.ofNat 10).toNat = 10 := by decide
    simp [Scanln, Scanln.SkipSpace, hx, hx10, ht, Step.bind, Scanln.endOfLine, h10]

/-- With a word typed and nothing behind its newline, the next `Scanln` waits. -/
theorem Scanln_nothing : Scanln [] = .blocked := rfl

/-- C19 (amended). On a wait-code state, with the slots as `NewClientAuthorizer` makes
them: `Handle` takes a code, a first name and a last name from the three slots whatever
the state says about registration, and sends all three; with only a code supplied it
waits. `CliInteractor` reads the names from the terminal only when the state says the
account is not registered and supplies empty names otherwise, so that with it `Handle`
completes once a code has been typed for a registered account. Each value it reads is
one word: of a name typed with a blank the part before the blank is taken, and the next
read starts behind the character after the blank. -/
theorem Handle_WaitCode_takes_code_and_names (call : AuthRequest → Option String)
    (a : Authorizer) (code first last : String) (more : List Char)
    (hs : a.State = Chan.make 10) (hc : a.Code = Chan.make 1)
    (hf : a.FirstName = Chan.make 1) (hl : a.LastName = Chan.make 1)
    (hcode : code.data ≠ [] ∧ ∀ x ∈ code.data, IsSpace x = false)
    (hfirst : first.data ≠ [] ∧ ∀ x ∈ first.data, IsSpace x = false)
    (hlast : last.data ≠ [] ∧ ∀ x ∈ last.data, IsSpace x = false) :
    (∀ reg, Authorizer.Handle call
        { a with Code := { buf := [code], cap := 1, closed := false } } (.WaitCode reg)
        = .blocked)
    ∧ (∀ reg, Authorizer.Handle call
        { a with Code := { buf := [code], cap := 1, closed := false }
                 FirstName := { buf := [first], cap := 1, closed := false }
                 LastName := { buf := [last], cap := 1, closed := false } } (.WaitCode reg)
        = .ok ({ a with State := { buf := [.WaitCode reg], cap := 10, closed := false } },
               some (.CheckAuthenticationCode code first last),
               call (.CheckAuthenticationCode code first last)))
    ∧ a.HandleWithCli call (.WaitCode true) (code.data ++ Char.ofNat 10 :: more)
        = .ok ((a, some (.CheckAuthenticationCode code "" ""),
                call (.CheckAuthenticationCode code "" "")), more)
    ∧ a.HandleWithCli call (.WaitCode false)
        (code.data ++ Char.ofNat 10 ::
          (first.data ++ Char.ofNat 10 :: (last.data ++ Char.ofNat 10 :: more)))
        = .ok ((a, some (.CheckAuthenticationCode code first last),
                call (.CheckAuthenticationCode code first last)), more)
    ∧ a.HandleWithCli call (.WaitCode false) (code.data ++ [Char.ofNat 10]) = .blocked
    ∧ a.HandleWithCli call (.WaitCode false) "12345\nMary Ann\nLee\n".data
        = .ok ((a, some (.CheckAuthenticationCode "12345" "Mary" "nn"),
                call (.CheckAuthenticationCode "12345" "Mary" "nn")), "Lee\n".data) := by
  obtain ⟨tp, pn, cd, st, fn, ln, pw⟩ := a
  simp only at hs hc hf hl
  subst hs; subst hc; subst hf; subst hl
  have s1 := fun m => Scanln_word code m hcode.1 hcode.2
  have s2 := fun m => Scanln_word first m hfirst.1 hfirst.2
  have s3 := fun m => Scanln_word last m hlast.1 hlast.2
  have t1 : Scanln "12345\nMary Ann\nLee\n".data = .ok ("12345", "Mary Ann\nLee\n".data) := by
    rfl
  have t2 : Scanln "Mary Ann\nLee\n".data = .ok ("Mary", "nn\nLee\n".data) := by rfl
  have t3 : Scanln "nn\nLee\n".data = .ok ("nn", "Lee\n".data) := by rfl
  refine ⟨?_, ?_, ?_, ?_, ?_, ?_⟩
  · intro reg
    simp [Authorizer.Handle, Authorizer.announce, Authorizer.act, Step.bind, Chan.send,
      Chan.recv, Chan.make, recvString]
  · intro reg
    simp [Authorizer.Handle, Authorizer.announce, Authorizer.act, Step.bind, Chan.send,
      Chan.recv, Chan.make, recvString]
  · simp [Authorizer.HandleWithCli, CliInteractor, s1, Authorizer.announce,
      Authorizer.act, Step.bind, Chan.send, Chan.recv, Chan.make, recvString]
  · simp [Authorizer.HandleWithCli, CliInteractor, s1, s2, s3, Authorizer.announce,
      Authorizer.act, Step.bind, Chan.send, Chan.recv, Chan.make, recvString]
  · simp [Authorizer.HandleWithCli, CliInteractor, s1, Scanln_nothing, Authorizer.announce,
      Authorizer.act, Step.bind, Chan.send, Chan.recv, Chan.make, recvString]
  · simp [Authorizer.HandleWithCli, CliInteractor, t1, t2, t3, Authorizer.announce,
      Authorizer.act, Step.bind, Chan.send, Chan.recv, Chan.make, recvString]

/-- Witness for C19 (amended): the handler `NewClientAuthorizer` makes, the code
`12345`, the names `Ann` and `Lee`. -/
theorem Handle_WaitCode_takes_code_and_names_witness :
    NewClientAuthorizer.State = Chan.make 10 ∧ NewClientAuthorizer.Code = Chan.make 1
    ∧ NewClientAuthorizer.HandleWithCli acceptAll (.WaitCode true)
        ("12345".data ++ Char.ofNat 10 :: [])
        = .ok ((NewClientAuthorizer, some (.CheckAuthenticationCode "12345" "" ""), none), [])
    ∧ NewClientAuthorizer.HandleWithCli acceptAll (.WaitCode false)
        ("12345".data ++ Char.ofNat 10 ::
          ("Ann".data ++ Char.ofNat 10 :: ("Lee".data ++ Char.ofNat 10 :: [])))
        = .ok ((NewClientAuthorizer, some (.CheckAuthenticationCode "12345" "Ann" "Lee"),
                none), []) :=
  ⟨rfl, rfl,
    (Handle_WaitCode_takes_code_and_names acceptAll NewClientAuthorizer "12345" "Ann" "Lee" []
      rfl rfl rfl rfl (by decide) (by decide) (by decide)).2.2.1,
    (Handle_WaitCode_takes_code_and_names acceptAll NewClientAuthorizer "12345" "Ann" "Lee" []
      rfl rfl rfl rfl (by decide) (by decide) (by decide)).2.2.2.1⟩

/-- C20. With room on the queue `a.State` and a value in each slot, `Handle` of the
interactive handler passes to the client exactly the request of the state: the
parameters taken from `TdlibParameters`; an empty key check; the phone number taken
from `PhoneNumber` with both flags false; the password taken from `Password`; and on
ready and the shutdown states no request, with a nil result. The error it returns is
the one of the request. -/
theorem Handle_issues_request_of_state (call : AuthRequest → Option String) (a : Authorizer)
    (params : TdlibParameters) (phone password : String)
    (rp : List TdlibParameters) (rph rpw : List String)
    (hopen : a.State.closed = false) (hroom : a.State.buf.length < a.State.cap)
    (hp : a.TdlibParameters.buf = params :: rp) (hph : a.PhoneNumber.buf = phone :: rph)
    (hpw : a.Password.buf = password :: rpw) :
    a.Handle call .WaitTdlibParameters
        = .ok ({ a with State := { a.State with buf := a.State.buf ++ [.WaitTdlibParameters] }
                        TdlibParameters := { a.TdlibParameters with buf := rp } },
               some (.SetTdlibParameters (some params)),
               call (.SetTdlibParameters (some params)))
    ∧ a.Handle call .WaitEncryptionKey
        = .ok ({ a with State := { a.State with buf := a.State.buf ++ [.WaitEncryptionKey] } },
               some .CheckDatabaseEncryptionKey, call .CheckDatabaseEncryptionKey)
    ∧ a.Handle call .WaitPhoneNumber
        = .ok ({ a with State := { a.State with buf := a.State.buf ++ [.WaitPhoneNumber] }
                        PhoneNumber := { a.PhoneNumber with buf := rph } },
               some (.SetAuthenticationPhoneNumber phone false false),
               call (.SetAuthenticationPhoneNumber phone false false))
    ∧ a.Handle call .WaitPassword
        = .ok ({ a with State := { a.State with buf := a.State.buf ++ [.WaitPassword] }
                        Password := { a.Password with buf := rpw } },
               some (.CheckAuthenticationPassword password),
               call (.CheckAuthenticationPassword password))
    ∧ (∀ s, s = .Ready ∨ s = .LoggingOut ∨ s = .Closing ∨ s = .Closed →
        a.Handle call s
          = .ok ({ a with State := { a.State with buf := a.State.buf ++ [s] } }, none, none)) := by
  refine ⟨?_, ?_, ?_, ?_, ?_⟩
  · simp [Authorizer.Handle, Authorizer.announce, Authorizer.act, Step.bind, Chan.send,
      Chan.recv, hopen, hroom, hp]
  · simp [Authorizer.Handle, Authorizer.announce, Authorizer.act, Step.bind, Chan.send,
      hopen, hroom]
  · simp [Authorizer.Handle, Authorizer.announce, Authorizer.act, Step.bind, Chan.send,
      Chan.recv, recvString, hopen, hroom, hph]
  · simp [Authorizer.Handle, Authorizer.announce, Authorizer.act, Step.bind, Chan.send,
      Chan.recv, recvString, hopen, hroom, hpw]
  · intro s hs
    rcases hs with h0 | h0 | h0 | h0 <;> subst h0 <;>
      simp [Authorizer.Handle, Authorizer.announce, Authorizer.act, Step.bind, Chan.send,
        hopen, hroom]

/-- Witness for C20: the handler with every value supplied. -/
theorem Handle_issues_request_of_state_witness :
    authorizerSupplied.State.closed = false
    ∧ authorizerSupplied.Handle acceptAll .WaitPhoneNumber
        = .ok ({ authorizerSupplied with
                 State := { authorizerSupplied.State with
                            buf := authorizerSupplied.State.buf ++ [.WaitPhoneNumber] }
                 PhoneNumber := { authorizerSupplied.PhoneNumber with buf := [] } },
               some (.SetAuthenticationPhoneNumber "+15551234567" false false),
               acceptAll (.SetAuthenticationPhoneNumber "+15551234567" false false)) :=
  ⟨rfl, (Handle_issues_request_of_state acceptAll authorizerSupplied { text := "api_id=1" }
    "+15551234567" "hunter2" [] [] [] rfl (by decide) rfl rfl rfl).2.2.1⟩

/-! ## The unattended handler, the state queue and Close -/

/-- C21. A handler that holds the token `t` as `NewBotAuthorizer(t)` left it, with room
on its queue `State`: on the state wait-phone-number `Handle` passes to the client the
token check carrying exactly `t` and returns the error of that request; on wait-code and
wait-password it passes no request and returns nil. -/
theorem BotAuthorizer_sends_token (call : AuthRequest → Option String) (t : String)
    (b : BotAuthorizer) (reg : Bool)
    (hT : b.Token = (NewBotAuthorizer t).Token)
    (hopen : b.State.closed = false) (hroom : b.State.buf.length < b.State.cap) :
    b.Handle call .WaitPhoneNumber
        = .ok ({ b with State := { b.State with buf := b.State.buf ++ [.WaitPhoneNumber] }
                        Token := { buf := [], cap := 1, closed := false } },
               some (.CheckAuthenticationBotToken t), call (.CheckAuthenticationBotToken t))
    ∧ b.Handle call (.WaitCode reg)
        = .ok ({ b with State := { b.State with buf := b.State.buf ++ [.WaitCode reg] } },
               none, none)
    ∧ b.Handle call .WaitPassword
        = .ok ({ b with State := { b.State with buf := b.State.buf ++ [.WaitPassword] } },
               none, none) := by
  refine ⟨?_, ?_, ?_⟩
  · simp [BotAuthorizer.Handle, BotAuthorizer.announce, BotAuthorizer.act, Step.bind,
      Chan.send, Chan.recv, recvString, hopen, hroom, hT, NewBotAuthorizer]
  · simp [BotAuthorizer.Handle, BotAuthorizer.announce, BotAuthorizer.act, Step.bind,
      Chan.send, hopen, hroom]
  · simp [BotAuthorizer.Handle, BotAuthorizer.announce, BotAuthorizer.act, Step.bind,
      Chan.send, hopen, hroom]

/-- Witness for C21: the handler `NewBotAuthorizer` returns for a token. -/
theorem BotAuthorizer_sends_token_witness :
    (NewBotAuthorizer "110201543:AAHdqTcvCH1vGWJxfSeofSAs0K5PALDsaw").Handle acceptAll
        .WaitPhoneNumber
        = .ok ({ NewBotAuthorizer "110201543:AAHdqTcvCH1vGWJxfSeofSAs0K5PALDsaw" with
                 State := { buf := [] ++ [.WaitPhoneNumber], cap := 10, closed := false }
                 Token := { buf := [], cap := 1, closed := false } },
               some (.CheckAuthenticationBotToken
                 "110201543:AAHdqTcvCH1vGWJxfSeofSAs0K5PALDsaw"),
               acceptAll (.CheckAuthenticationBotToken
                 "110201543:AAHdqTcvCH1vGWJxfSeofSAs0K5PALDsaw")) :=
  (BotAuthorizer_sends_token acceptAll "110201543:AAHdqTcvCH1vGWJxfSeofSAs0K5PALDsaw"
    (NewBotAuthorizer "110201543:AAHdqTcvCH1vGWJxfSeofSAs0K5PALDsaw") true rfl rfl
    (by decide)).1

/-- An action made of two completes only when the first completes and the second
completes on its result. -/
theorem Step.bind_eq_ok {α β : Type} (x : Step α) (f : α → Step β) (b : β)
    (h : x.bind f = .ok b) : ∃ a, x = .ok a ∧ f a = .ok b := by
  cases x with
  | ok a => exact ⟨a, rfl, h⟩
  | blocked => cases h
  | fatal => cases h

/-- The switch of the interactive handler leaves the queue `State` alone. -/
theorem Authorizer_act_State (call : AuthRequest → Option String) (a a1 : Authorizer)
    (s : AuthorizationState) (r : Option AuthRequest × Option String)
    (h : a.act call s = .ok (a1, r)) : a1.State = a.State := by
  cases s with
  | WaitTdlibParameters =>
    obtain ⟨_, _, h1⟩ := Step.bind_eq_ok _ _ _ h
    simp only [Step.ok.injEq, Prod.mk.injEq] at h1
    rw [← h1.1]
  | WaitEncryptionKey =>
    simp only [Authorizer.act, Step.ok.injEq, Prod.mk.injEq] at h
    rw [← h.1]
  | WaitPhoneNumber =>
    obtain ⟨_, _, h1⟩ := Step.bind_eq_ok _ _ _ h
    simp only [Step.ok.injEq, Prod.mk.injEq] at h1
    rw [← h1.1]
  | WaitCode reg =>
    obtain ⟨_, _, h1⟩ := Step.bind_eq_ok _ _ _ h
    obtain ⟨_, _, h2⟩ := Step.bind_eq_ok _ _ _ h1
    obtain ⟨_, _, h3⟩ := Step.bind_eq_ok _ _ _ h2
    simp only [Step.ok.injEq, Prod.mk.injEq] at h3
    rw [← h3.1]
  | WaitPassword =>
    obtain ⟨_, _, h1⟩ := Step.bind_eq_ok _ _ _ h
    simp only [Step.ok.injEq, Prod.mk.injEq] at h1
    rw [← h1.1]
  | Ready =>
    simp only [Authorizer.act, Step.ok.injEq, Prod.mk.injEq] at h
    rw [← h.1]
  | LoggingOut =>
    simp only [Authorizer.act, Step.ok.injEq, Prod.mk.injEq] at h
    rw [← h.1]
  | Closing =>
    simp only [Authorizer.act, Step.ok.injEq, Prod.mk.injEq] at h
    rw [← h.1]
  | Closed =>
    simp only [Authorizer.act, Step.ok.injEq, Prod.mk.injEq] at h
    rw [← h.1]

/-- The switch of the unattended handler leaves the queue `State` alone. -/
theorem BotAuthorizer_act_State (call : AuthRequest → Option String) (a a1 : BotAuthorizer)
    (s : AuthorizationState) (r : Option AuthRequest × Option String)
    (h : a.act call s = .ok (a1, r)) : a1.State = a.State := by
  cases s with
  | WaitTdlibParameters =>
    obtain ⟨_, _, h1⟩ := Step.bind_eq_ok _ _ _ h
    simp only [Step.ok.injEq, Prod.mk.injEq] at h1
    rw [← h1.1]
  | WaitEncryptionKey =>
    simp only [BotAuthorizer.act, Step.ok.injEq, Prod.mk.injEq] at h
    rw [← h.1]
  | WaitPhoneNumber =>
    obtain ⟨_, _, h1⟩ := Step.bind_eq_ok _ _ _ h
    simp only [Step.ok.injEq, Prod.mk.injEq] at h1
    rw [← h1.1]
  | WaitCode reg =>
    simp only [BotAuthorizer.act, Step.ok.injEq, Prod.mk.injEq] at h
    rw [← h.1]
  | WaitPassword =>
    simp only [BotAuthorizer.act, Step.ok.injEq, Prod.mk.injEq] at h
    rw [← h.1]
  | Ready =>
    simp only [BotAuthorizer.act, Step.ok.injEq, Prod.mk.injEq] at h
    rw [← h.1]
  | LoggingOut =>
    simp only [BotAuthorizer.act, Step.ok.injEq, Prod.mk.injEq] at h
    rw [← h.1]
  | Closing =>
    simp only [BotAuthorizer.act, Step.ok.injEq, Prod.mk.injEq] at h
    rw [← h.1]
  | Closed =>
    simp only [BotAuthorizer.act, Step.ok.injEq, Prod.mk.injEq] at h
    rw [← h.1]

/-- The send on a queue completes only on an open queue with room, and appends. -/
theorem Chan.send_eq_ok {α : Type} (ch ch1 : Chan α) (v : α) (h : ch.send v = .ok ch1) :
    ch.closed = false ∧ ch.buf.length < ch.cap ∧ ch1 = { ch with buf := ch.buf ++ [v] } := by
  simp only [Chan.send] at h
  split at h
  · cases h
  · split at h
    · next hc hl =>
      simp only [Step.ok.injEq] at h
      exact ⟨by simpa using hc, hl, h.symm⟩
    · cases h

/-- A call of `Handle` of the interactive handler that completes has appended the state
to the queue `State`. -/
theorem Authorizer_handler_State (call : AuthRequest → Option String) (a a1 : Authorizer)
    (s : AuthorizationState) (e : Option String)
    (h : Authorizer.handler call a s = .ok (a1, e)) :
    a1.State = { a.State with buf := a.State.buf ++ [s] } := by
  obtain ⟨r, hr, h1⟩ := Step.bind_eq_ok _ _ _ h
  simp only [Step.ok.injEq, Prod.mk.injEq] at h1
  obtain ⟨a2, ha2, hact⟩ := Step.bind_eq_ok _ _ _ hr
  obtain ⟨st, hst, h2⟩ := Step.bind_eq_ok _ _ _ ha2
  simp only [Step.ok.injEq] at h2
  have hs := (Chan.send_eq_ok _ _ _ hst).2.2
  obtain ⟨r1, r2⟩ := r
  have h3 := Authorizer_act_State call a2 r1 s r2 hact
  simp only at h1
  rw [← h1.1, h3, ← h2, hs]

/-- A call of `Handle` of the unattended handler that completes has appended the state
to the queue `State`. -/
theorem BotAuthorizer_handler_State (call : AuthRequest → Option String)
    (a a1 : BotAuthorizer) (s : AuthorizationState) (e : Option String)
    (h : BotAuthorizer.handler call a s = .ok (a1, e)) :
    a1.State = { a.State with buf := a.State.buf ++ [s] } := by
  obtain ⟨r, hr, h1⟩ := Step.bind_eq_ok _ _ _ h
  simp only [Step.ok.injEq, Prod.mk.injEq] at h1
  obtain ⟨a2, ha2, hact⟩ := Step.bind_eq_ok _ _ _ hr
  obtain ⟨st, hst, h2⟩ := Step.bind_eq_ok _ _ _ ha2
  simp only [Step.ok.injEq] at h2
  have hs := (Chan.send_eq_ok _ _ _ hst).2.2
  obtain ⟨r1, r2⟩ := r
  have h3 := BotAuthorizer_act_State call a2 r1 s r2 hact
  simp only at h1
  rw [← h1.1, h3, ← h2, hs]

/-- After calls of `Handle` on the states in turn, a queue that each call appends to
holds them in order after what it held. -/
theorem handleEach_queue {σ : Type} (H : σ → AuthorizationState → Step (σ × Option String))
    (queue : σ → Chan AuthorizationState)
    (hstep : ∀ (h h1 : σ) (s : AuthorizationState) (e : Option String),
      H h s = .ok (h1, e) → queue h1 = { queue h with buf := (queue h).buf ++ [s] }) :
    ∀ (ss : List AuthorizationState) (h h1 : σ), handleEach H h ss = some h1 →
      queue h1 = { queue h with buf := (queue h).buf ++ ss } := by
  intro ss
  induction ss with
  | nil =>
    intro h h1 hrun
    simp only [handleEach, Option.some.injEq] at hrun
    subst hrun
    simp
  | cons s rest ih =>
    intro h h1 hrun
    simp only [handleEach] at hrun
    split at hrun
    · next hm e hH =>
      rw [ih hm h1 hrun, hstep h hm s e hH]
      simp
    · cases hrun

/-- C22. For both handlers and every state: with room on the queue `State`, the first
statement of `Handle` appends the state to it without touching a slot, and the switch,
which alone reads slots and passes requests, runs after it and leaves the queue alone.
After calls of `Handle` on `n` states, nobody reading the queue, it holds the `n`
states in the order they were handled, after what it held before. -/
theorem Handle_announces_state_first (call : AuthRequest → Option String)
    (a a1 : Authorizer) (b b1 : BotAuthorizer) (ss : List AuthorizationState)
    (ha : handleEach (Authorizer.handler call) a ss = some a1)
    (hb : handleEach (BotAuthorizer.handler call) b ss = some b1) :
    a1.State = { a.State with buf := a.State.buf ++ ss }
    ∧ b1.State = { b.State with buf := b.State.buf ++ ss }
    ∧ (∀ (x : Authorizer) (s : AuthorizationState), x.State.closed = false →
        x.State.buf.length < x.State.cap →
        x.announce s = .ok { x with State := { x.State with buf := x.State.buf ++ [s] } }
        ∧ x.Handle call s
            = Authorizer.act call
                { x with State := { x.State with buf := x.State.buf ++ [s] } } s)
    ∧ (∀ (x : BotAuthorizer) (s : AuthorizationState), x.State.closed = false →
        x.State.buf.length < x.State.cap →
        x.announce s = .ok { x with State := { x.State with buf := x.State.buf ++ [s] } }
        ∧ x.Handle call s
            = BotAuthorizer.act call
                { x with State := { x.State with buf := x.State.buf ++ [s] } } s)
    ∧ (∀ (x x1 : Authorizer) (s : AuthorizationState)
        (r : Option AuthRequest × Option String),
        x.act call s = .ok (x1, r) → x1.State = x.State)
    ∧ (∀ (x x1 : BotAuthorizer) (s : AuthorizationState)
        (r : Option AuthRequest × Option String),
        x.act call s = .ok (x1, r) → x1.State = x.State) := by
  refine ⟨?_, ?_, ?_, ?_, Authorizer_act_State call, BotAuthorizer_act_State call⟩
  · exact handleEach_queue (Authorizer.handler call) (fun x => x.State)
      (Authorizer_handler_State call) ss a a1 ha
  · exact handleEach_queue (BotAuthorizer.handler call) (fun x => x.State)
      (BotAuthorizer_handler_State call) ss b b1 hb
  · intro x s hopen hroom
    simp [Authorizer.Handle, Authorizer.announce, Step.bind, Chan.send, hopen, hroom]
  · intro x s hopen hroom
    simp [BotAuthorizer.Handle, BotAuthorizer.announce, Step.bind, Chan.send, hopen, hroom]

/-- Witness for C22: both handlers through the encryption key check, the code and the
ready state. -/
theorem Handle_announces_state_first_witness :
    handleEach (Authorizer.handler acceptAll) authorizerWithCode
        [.WaitEncryptionKey, .WaitCode true, .Ready]
      = some { NewClientAuthorizer with
               State := { buf := [.WaitEncryptionKey, .WaitCode true, .Ready], cap := 10,
                          closed := false } }
    ∧ handleEach (BotAuthorizer.handler acceptAll) (NewBotAuthorizer "t")
        [.WaitEncryptionKey, .WaitCode true, .Ready]
      = some { NewBotAuthorizer "t" with
               State := { buf := [.WaitEncryptionKey, .WaitCode true, .Ready], cap := 10,
                          closed := false } }
    ∧ ({ NewClientAuthorizer with
         State := { buf := [.WaitEncryptionKey, .WaitCode true, .Ready], cap := 10,
                    closed := false } } : Authorizer).State
      = { authorizerWithCode.State with
          buf := authorizerWithCode.State.buf ++ [.WaitEncryptionKey, .WaitCode true, .Ready] } :=
  ⟨by rfl, by rfl,
    (Handle_announces_state_first acceptAll authorizerWithCode _ (NewBotAuthorizer "t") _
      [.WaitEncryptionKey, .WaitCode true, .Ready] (by rfl) (by rfl)).1⟩

/-- Counterexample to C23 as stated: after `Close` the caller that supplies the phone
number to the interactive handler, or the token to the unattended one, does not observe
an end of stream: its send on the closed slot panics. -/
theorem Close_makes_senders_panic :
    (∃ a1, NewClientAuthorizer.Close = .ok a1
      ∧ a1.PhoneNumber.send "+15551234567" = .fatal
      ∧ a1.Code.send "12345" = .fatal)
    ∧ (∃ b1, (NewBotAuthorizer "t").Close = .ok b1 ∧ b1.Token.send "t" = .fatal) :=
  ⟨⟨_, rfl, rfl, rfl⟩, ⟨_, rfl, rfl⟩⟩

/-- C23 (amended). `Close` on a handler whose slots are open, all seven of `Authorizer`,
all three of `BotAuthorizer`: it returns with every one of them closed, holding what it
held. A receive on a closed slot never waits, it takes what is left and then reads the
end of the stream; a send on a closed slot panics, whatever the slot holds. -/
theorem Close_closes_every_slot (a : Authorizer) (b : BotAuthorizer)
    (ha : a.TdlibParameters.closed = false ∧ a.PhoneNumber.closed = false
      ∧ a.Code.closed = false ∧ a.State.closed = false ∧ a.FirstName.closed = false
      ∧ a.LastName.closed = false ∧ a.Password.closed = false)
    (hb : b.TdlibParameters.closed = false ∧ b.Token.closed = false
      ∧ b.State.closed = false) :
    a.Close = .ok { TdlibParameters := { a.TdlibParameters with closed := true }
                    PhoneNumber := { a.PhoneNumber with closed := true }
                    Code := { a.Code with closed := true }
                    State := { a.State with closed := true }
                    FirstName := { a.FirstName with closed := true }
                    LastName := { a.LastName with closed := true }
                    Password := { a.Password with closed := true } }
    ∧ b.Close = .ok { TdlibParameters := { b.TdlibParameters with closed := true }
                      Token := { b.Token with closed := true }
                      State := { b.State with closed := true } }
    ∧ (∀ (buf : List String) (cap : Nat),
        Chan.recv ({ buf := buf, cap := cap, closed := true } : Chan String) ≠ .blocked
        ∧ Chan.recv ({ buf := [], cap := cap, closed := true } : Chan String)
            = .ok (none, { buf := [], cap := cap, closed := true }))
    ∧ (∀ (buf : List AuthorizationState) (cap : Nat),
        Chan.recv ({ buf := buf, cap := cap, closed := true } : Chan AuthorizationState)
          ≠ .blocked
        ∧ Chan.recv ({ buf := [], cap := cap, closed := true } : Chan AuthorizationState)
            = .ok (none, { buf := [], cap := cap, closed := true }))
    ∧ (∀ (buf : List TdlibParameters) (cap : Nat),
        Chan.recv ({ buf := buf, cap := cap, closed := true } : Chan TdlibParameters)
          ≠ .blocked
        ∧ Chan.recv ({ buf := [], cap := cap, closed := true } : Chan TdlibParameters)
            = .ok (none, { buf := [], cap := cap, closed := true }))
    ∧ (∀ (buf : List String) (cap : Nat) (v : String),
        Chan.send ({ buf := buf, cap := cap, closed := true } : Chan String) v = .fatal)
    ∧ (∀ (buf : List TdlibParameters) (cap : Nat) (v : TdlibParameters),
        Chan.send ({ buf := buf, cap := cap, closed := true } : Chan TdlibParameters) v
          = .fatal)
    ∧ (∀ (buf : List AuthorizationState) (cap : Nat) (v : AuthorizationState),
        Chan.send ({ buf := buf, cap := cap, closed := true } : Chan AuthorizationState) v
          = .fatal) := by
  obtain ⟨h1, h2, h3, h4, h5, h6, h7⟩ := ha
  obtain ⟨g1, g2, g3⟩ := hb
  refine ⟨?_, ?_, ?_, ?_, ?_, ?_, ?_, ?_⟩
  · simp [Authorizer.Close, Step.bind, Chan.close, h1, h2, h3, h4, h5, h6, h7]
  · simp [BotAuthorizer.Close, Step.bind, Chan.close, g1, g2, g3]
  · intro buf cap
    cases buf <;> simp [Chan.recv]
  · intro buf cap
    cases buf <;> simp [Chan.recv]
  · intro buf cap
    cases buf <;> simp [Chan.recv]
  · intro buf cap v
    simp [Chan.send]
  · intro buf cap v
    simp [Chan.send]
  · intro buf cap v
    simp [Chan.send]

/-- Witness for C23: the handlers as their constructors make them. -/
theorem Close_closes_every_slot_witness :
    NewClientAuthorizer.Close
        = .ok { TdlibParameters := { NewClientAuthorizer.TdlibParameters with closed := true }
                PhoneNumber := { NewClientAuthorizer.PhoneNumber with closed := true }
                Code := { NewClientAuthorizer.Code with closed := true }
                State := { NewClientAuthorizer.State with closed := true }
                FirstName := { NewClientAuthorizer.FirstName with closed := true }
                LastName := { NewClientAuthorizer.LastName with closed := true }
                Password := { NewClientAuthorizer.Password with closed := true } }
    ∧ (NewBotAuthorizer "t").Close
        = .ok { TdlibParameters := { (NewBotAuthorizer "t").TdlibParameters with closed := true }
                Token := { (NewBotAuthorizer "t").Token with closed := true }
                State := { (NewBotAuthorizer "t").State with closed := true } } :=
  ⟨(Close_closes_every_slot NewClientAuthorizer (NewBotAuthorizer "t")
      ⟨rfl, rfl, rfl, rfl, rfl, rfl, rfl⟩ ⟨rfl, rfl, rfl⟩).1,
   (Close_closes_every_slot NewClientAuthorizer (NewBotAuthorizer "t")
      ⟨rfl, rfl, rfl, rfl, rfl, rfl, rfl⟩ ⟨rfl, rfl, rfl⟩).2.1⟩

/-! ## The failing branches of Receive and Execute -/

/-- C24. When the engine returns nothing to `Receive`, called with the mutex free:
`Receive` takes the mutex, holds it over the engine call, releases it once and returns
a nil response with an error, the adapter being as before the call; and the iteration of
the loop of `Client.receive` ends there, the client unchanged: nothing was put on
`client.catcher` or on the queue of a listener. -/
theorem Receive_timeout_releases_and_continues (U : String → Option TdType) (client : Client)
    (hfree : client.tdClient.locker = false) :
    runCall (fun c pc => c.Receive none pc) 4 client.tdClient .entry
        = (client.tdClient, .returned none (some "update receiving timeout"))
    ∧ lockerTrace (fun c pc => c.Receive none pc) 4 client.tdClient .entry
        = [true, true, false]
    ∧ Client.receiveIteration U none client = .ok client := by
  have hrun : runCall (fun c pc => c.Receive none pc) 4 client.tdClient .entry
      = (client.tdClient, .returned none (some "update receiving timeout")) := by
    simp [runCall, TDClient.Receive, TDClient.Lock, TDClient.Unlock, TDClient.build,
      TDClient.finish, hfree, TDClient.unlocked_eq]
  refine ⟨hrun, ?_, ?_⟩
  · simp [lockerTrace, TDClient.Receive, TDClient.Lock, TDClient.Unlock, TDClient.build,
      TDClient.finish, hfree]
  · simp [Client.receiveIteration, hrun]

/-- Witness for C24: the client `NewClient` builds. -/
theorem Receive_timeout_releases_and_continues_witness :
    NewClient.tdClient.locker = false
    ∧ Client.receiveIteration parseAny none NewClient = .ok NewClient :=
  ⟨rfl, (Receive_timeout_releases_and_continues parseAny NewClient rfl).2.2⟩

/-- Counterexample to C25 as stated: the error `Execute` returns for a request the
engine cannot parse is the value of `errors.New` with its text, not a typed error such
as `ResponseError`. -/
theorem Execute_rejected_returns_plain_error :
    (runCall (fun c pc => c.Execute getMe (fun _ => none) pc) 4 NewTDClient .entry).2.error
        = some (.other "request can't be parsed")
    ∧ ∀ e : ResponseError,
        (runCall (fun c pc => c.Execute getMe (fun _ => none) pc) 4 NewTDClient
          .entry).2.error ≠ some (.ResponseError e) := by
  constructor
  · rfl
  · intro e h
    have h1 : (runCall (fun c pc => c.Execute getMe (fun _ => none) pc) 4 NewTDClient
        .entry).2.error = some (.other "request can't be parsed") := rfl
    rw [h1] at h
    cases h

/-- C25 (amended). When the engine returns nothing to `Execute`, called with the mutex
free: `Execute` takes the mutex, holds it over the engine call, releases it once, and
returns a nil response with the error of `errors.New` whose text is
`request can't be parsed`, the adapter being as before the call. -/
theorem Execute_rejected_releases_once (c : TDClient) (request : Request)
    (exec : Request → Option Raw) (hfree : c.locker = false) (hrej : exec request = none) :
    runCall (fun c pc => c.Execute request exec pc) 4 c .entry
        = (c, .returned none (some "request can't be parsed"))
    ∧ (runCall (fun c pc => c.Execute request exec pc) 4 c .entry).2.error
        = some (.other "request can't be parsed")
    ∧ lockerTrace (fun c pc => c.Execute request exec pc) 4 c .entry
        = [true, true, false] := by
  have hrun : runCall (fun c pc => c.Execute request exec pc) 4 c .entry
      = (c, .returned none (some "request can't be parsed")) := by
    simp [runCall, TDClient.Execute, TDClient.Lock, TDClient.Unlock, TDClient.build,
      TDClient.finish, hfree, hrej, TDClient.unlocked_eq]
  refine ⟨hrun, ?_, ?_⟩
  · rw [hrun]
    rfl
  · simp [lockerTrace, TDClient.Execute, TDClient.Lock, TDClient.Unlock, TDClient.build,
      TDClient.finish, hfree, hrej]

/-- Witness for C25: a fresh adapter and an engine that parses no request. -/
theorem Execute_rejected_releases_once_witness :
    NewTDClient.locker = false
    ∧ runCall (fun c pc => c.Execute getMe (fun _ => none) pc) 4 NewTDClient .entry
        = (NewTDClient, .returned none (some "request can't be parsed"))
    ∧ (runCall (fun c pc => c.Execute getMe (fun _ => none) pc) 4 NewTDClient
        .entry).2.error = some (.other "request can't be parsed")
    ∧ lockerTrace (fun c pc => c.Execute getMe (fun _ => none) pc) 4 NewTDClient .entry
        = [true, true, false] :=
  ⟨rfl, Execute_rejected_releases_once NewTDClient getMe (fun _ => none) rfl rfl⟩

/-! ## Requests and error replies -/

/-- What `m[k]` gives after the assignment `m[k0] = v`. -/
theorem mapIndex_mapAssign (m : List (String × String)) (k0 v k : String) :
    mapIndex (mapAssign m k0 v) k = if k = k0 then some v else mapIndex m k := by
  by_cases hk : k = k0
  · subst hk
    simp [mapIndex, mapAssign, List.find?_cons]
  · rw [if_neg hk]
    have h1 : mapIndex (mapAssign m k0 v) k
        = mapIndex (m.filter (fun e => e.1 ≠ k0)) k := by
      simp [mapIndex, mapAssign, List.find?_cons, Ne.symm hk]
    rw [h1]
    induction m with
    | nil => rfl
    | cons e m ih =>
      obtain ⟨a, b⟩ := e
      simp only [mapIndex, mapAssign] at ih h1 ⊢
      by_cases h2 : a = k0
      · subst h2
        simpa [List.filter_cons, List.find?_cons, Ne.symm hk] using
          ih (by simp [mapIndex, mapAssign, List.find?_cons, Ne.symm hk])
      · by_cases h3 : a = k
        · subst h3
          simp [List.filter_cons, List.find?_cons, h2]
        · simpa [List.filter_cons, List.find?_cons, h2, h3] using
            ih (by simp [mapIndex, mapAssign, List.find?_cons, Ne.symm hk])

/-- The keys of a map after the assignment `m[k0] = v`. -/
theorem mem_keys_mapAssign (m : List (String × String)) (k0 v k : String) :
    k ∈ (mapAssign m k0 v).map (fun e => e.1) ↔ k = k0 ∨ k ∈ m.map (fun e => e.1) := by
  simp only [mapAssign, List.map_cons, List.mem_cons, List.mem_map, List.mem_filter]
  constructor
  · rintro (h | ⟨e, ⟨he, _⟩, hk⟩)
    · exact Or.inl h
    · exact Or.inr ⟨e, he, hk⟩
  · rintro (h | ⟨e, he, hk⟩)
    · exact Or.inl h
    · by_cases h0 : k = k0
      · exact Or.inl h0
      · exact Or.inr ⟨e, ⟨he, by simpa [hk] using h0⟩, hk⟩

/-- C26. For every request with type tag `t`, token `x` and payload map `D`,
`MarshalJSON` encodes one map: its keys are the keys of `D` with `@type` and `@extra`;
`@type` maps to `t` and `@extra` to `x`, whatever `D` held under these names, and every
other key keeps the value it has in `D`. -/
theorem MarshalJSON_merges_tags (Marshal : List (String × String) → String)
    (request : Request) :
    request.MarshalJSON Marshal = Marshal request.object
    ∧ mapIndex request.object "@type" = some request.Typ
    ∧ mapIndex request.object "@extra" = some request.Extra
    ∧ (∀ k, k ≠ "@type" → k ≠ "@extra" →
        mapIndex request.object k = mapIndex request.Data k)
    ∧ (∀ k, k ∈ request.object.map (fun e => e.1)
        ↔ k = "@type" ∨ k = "@extra" ∨ k ∈ request.Data.map (fun e => e.1)) := by
  refine ⟨rfl, ?_, ?_, ?_, ?_⟩
  · simp only [Request.object, mapIndex_mapAssign]
    simp
  · simp only [Request.object, mapIndex_mapAssign]
    simp
  · intro k h1 h2
    simp only [Request.object, mapIndex_mapAssign, if_neg h1, if_neg h2]
  · intro k
    simp only [Request.object, mem_keys_mapAssign]
    constructor
    · rintro (h | h | h)
      · exact Or.inr (Or.inl h)
      · exact Or.inl h
      · exact Or.inr (Or.inr h)
    · rintro (h | h | h)
      · exact Or.inr (Or.inl h)
      · exact Or.inl h
      · exact Or.inr (Or.inr h)

/-- C27. For a reply whose type tag is `error` and whose payload carries the code `c`
and the message `m`, a generated method returns no result and a `ResponseError`
carrying `c` and `m`, whose `Error()` text is the decimal rendering of `c`, a space,
and `m`; and whatever the payload of a reply with that tag, the method returns no
result and an error. -/
theorem error_reply_becomes_ResponseError {α : Type}
    (UnmarshalError : String → Except String Error)
    (Unmarshal : Response → Option α × Option GoError) (r : Response) (c : Int)
    (m : String) (hT : r.Typ = "error")
    (hE : UnmarshalError r.Data = .ok { Code := c, Message := m }) :
    generatedResult UnmarshalError Unmarshal (some r) none
        = .ok (none, some (.ResponseError { Err := { Code := c, Message := m } }))
    ∧ ResponseError.Error { Err := { Code := c, Message := m } } = toString c ++ " " ++ m
    ∧ (∀ (U : String → Except String Error),
        ∃ e, generatedResult U Unmarshal (some r) none = .ok (none, some e)) := by
  refine ⟨?_, rfl, ?_⟩
  · simp [generatedResult, hT, buildResponseError, hE]
  · intro U
    exact ⟨buildResponseError U r.Data, by simp [generatedResult, hT]⟩

/-- Witness for C27: the reply `404 Not Found`. -/
theorem error_reply_becomes_ResponseError_witness :
    errorReply.Typ = "error"
    ∧ generatedResult readError (fun _ => ((some 0 : Option Nat), none)) (some errorReply) none
        = .ok (none, some (.ResponseError { Err := { Code := 404, Message := "Not Found" } }))
    ∧ ResponseError.Error { Err := { Code := 404, Message := "Not Found" } }
        = "404 Not Found" :=
  ⟨rfl,
    (error_reply_becomes_ResponseError readError (fun _ => ((some 0 : Option Nat), none))
      errorReply 404 "Not Found" rfl (by rfl)).1,
    by decide⟩

/-- C28 (evaluated on the code). `MarshalJSON` writes the digits of the value without
quotes, and `UnmarshalJSON` drops the first and the last byte of what it is given: on
the bytes of `123` it yields `2`, on those of `42` it returns the error of `ParseInt`
on the empty string, and on those of `5` it panics on `data[1:0]`. -/
theorem Int64JSON_does_not_round_trip :
    Int64JSON.MarshalJSON 123 = ['1', '2', '3']
    ∧ Int64JSON.UnmarshalJSON (Int64JSON.MarshalJSON 123) = .ok (some 2)
    ∧ Int64JSON.UnmarshalJSON (Int64JSON.MarshalJSON 42) = .ok none
    ∧ Int64JSON.UnmarshalJSON (Int64JSON.MarshalJSON 5) = .fatal := by
  refine ⟨?_, ?_, ?_, ?_⟩ <;> decide

/-! ## The Unlock of the generated methods -/

/-- C30 (evaluated on the code). A generated method unlocks the mutex of the adapter at
its end without having locked it. Through `Send`, which never touches the mutex: with
the mutex free the `Unlock` is a fatal error, and with the mutex held by another
goroutine, as by `Receive` waiting for the engine, it releases that goroutine's
acquisition. Through `Execute` rejected by the engine: `Execute` has released the mutex
itself, and the `Unlock` of the method is a second one for the same acquisition, a
fatal error. -/
theorem generated_Unlock_has_no_Lock (g : Nat → String) (exec : Request → Option Raw)
    (client : Client) (request : Request)
    (hfree : client.tdClient.locker = false) (hrej : exec request = none) :
    Client.generated g false exec .timeout client request = .fatal
    ∧ Client.generated g true exec .timeout client request = .fatal
    ∧ ∃ client1,
        Client.generated g false exec .timeout
          { client with tdClient := { client.tdClient with locker := true } } request
          = .ok client1
        ∧ client1.tdClient.locker = false := by
  have hexec := (Execute_run_when_rejected client.tdClient request exec hfree hrej)
  refine ⟨?_, ?_, ?_⟩
  · simp [Client.generated, runSend, Client.Send, Chan.close, Chan.make, Step.bind,
      TDClient.Unlock, hfree]
  · simp [Client.generated, hexec, Step.bind, TDClient.Unlock, hfree]
  · simp [Client.generated, runSend, Client.Send, Chan.close, Chan.make, Step.bind,
      TDClient.Unlock]

/-- Witness for C30: the method `GetMe()` on the client `NewClient` builds. -/
theorem generated_Unlock_has_no_Lock_witness :
    NewClient.tdClient.locker = false
    ∧ Client.generated constantGenerator false (fun _ => none) .timeout NewClient getMe = .fatal
    ∧ Client.generated constantGenerator true (fun _ => none) .timeout NewClient getMe
        = .fatal :=
  ⟨rfl,
    (generated_Unlock_has_no_Lock constantGenerator (fun _ => none) NewClient getMe rfl rfl).1,
    (generated_Unlock_has_no_Lock constantGenerator (fun _ => none) NewClient getMe rfl rfl).2.1⟩

/-! ## FixAAA -/

theorem replaceFrom_skip (old new : List Char) (s : List Char) (k : Nat) :
    replaceFrom old new k s = replaceFrom old new 0 (s.drop k) := by
  induction s generalizing k with
  | nil => cases k <;> simp [replaceFrom]
  | cons c cs ih =>
    cases k with
    | zero => simp
    | succ k => simp [replaceFrom, ih k]

theorem replaceFrom_hit (old new rest : List Char) (h : old ≠ []) :
    replaceFrom old new 0 (old ++ rest) = new ++ replaceFrom old new 0 rest := by
  cases old with
  | nil => exact absurd rfl h
  | cons a o =>
    have hp : (a :: o).isPrefixOf (a :: (o ++ rest)) = true := by
      rw [List.isPrefixOf_iff_prefix]
      exact List.prefix_append (a :: o) rest
    simp only [List.cons_append, replaceFrom, hp, if_true]
    rw [replaceFrom_skip]
    simp

theorem replaceFrom_miss (old new : List Char) (c : Char) (cs : List Char)
    (h : ¬ old <+: c :: cs) :
    replaceFrom old new 0 (c :: cs) = c :: replaceFrom old new 0 cs := by
  have hp : old.isPrefixOf (c :: cs) = false := by
    rw [← Bool.not_eq_true, List.isPrefixOf_iff_prefix]
    exact h
  simp [replaceFrom, hp]

/-- Induction along the scan of `replaceFrom`. -/
theorem replaceFrom_induction (old : List Char) (P : List Char → Prop) (nil : P [])
    (hit : ∀ rest, P rest → P (old ++ rest))
    (miss : ∀ c cs, ¬ old <+: c :: cs → P cs → P (c :: cs)) (h : old ≠ []) :
    ∀ s, P s := by
  have main : ∀ n (s : List Char), s.length ≤ n → P s := by
    intro n
    induction n with
    | zero =>
      intro s hs
      cases s with
      | nil => exact nil
      | cons c cs => simp at hs
    | succ n ih =>
      intro s hs
      cases s with
      | nil => exact nil
      | cons c cs =>
        by_cases hp : old <+: c :: cs
        · obtain ⟨rest, hr⟩ := hp
          rw [← hr]
          refine hit rest (ih rest ?_)
          have hl : 0 < old.length := List.length_pos.2 h
          have := congrArg List.length hr
          simp at this hs
          omega
        · exact miss c cs hp (ih cs (by simpa using hs))
  exact fun s => main s.length s (Nat.le_refl _)

theorem within_refl (C s : List Char) : within C s s = true := by
  induction s with
  | nil => rfl
  | cons a s ih => simp [within, ih]

theorem within_append (C : List Char) (a c b d : List Char) (h1 : within C a c = true)
    (h2 : within C b d = true) : within C (a ++ b) (c ++ d) = true := by
  induction a generalizing c with
  | nil =>
    cases c with
    | nil => simpa using h2
    | cons x c => simp [within] at h1
  | cons y a ih =>
    cases c with
    | nil => simp [within] at h1
    | cons x c =>
      simp only [within, Bool.and_eq_true] at h1
      simp only [List.cons_append, within, Bool.and_eq_true]
      exact ⟨h1.1, ih c h1.2⟩

theorem within_replaceFrom (C old new : List Char) (h : old ≠ [])
    (hC : within C old new = true) (s : List Char) :
    within C s (replaceFrom old new 0 s) = true := by
  refine replaceFrom_induction old (fun s => within C s (replaceFrom old new 0 s) = true)
    rfl ?_ ?_ h s
  · intro rest ih
    rw [replaceFrom_hit old new rest h]
    exact within_append C old new rest _ hC ih
  · intro c cs hp ih
    rw [replaceFrom_miss old new c cs hp]
    simp [within, ih]

theorem prefix_of_within (C q : List Char) (hq : ∀ c ∈ q, c ∉ C) (s t : List Char)
    (h : within C s t = true) (hp : q <+: t) : q <+: s := by
  induction q generalizing s t with
  | nil => exact List.nil_prefix
  | cons a q ih =>
    cases t with
    | nil => simp at hp
    | cons b t =>
      cases s with
      | nil => simp [within] at h
      | cons x s =>
        rw [List.cons_prefix_cons] at hp
        simp only [within, Bool.and_eq_true, Bool.or_eq_true, beq_iff_eq,
          List.elem_eq_mem, decide_eq_true_eq] at h
        have hab : b = x := by
          rcases h.1 with h1 | h1
          · exact h1
          · exact absurd (hp.1 ▸ h1) (hq a (List.mem_cons_self a q))
        rw [List.cons_prefix_cons]
        exact ⟨hp.1.trans hab, ih (fun c hc => hq c (List.mem_cons_of_mem a hc)) s t h.2 hp.2⟩

theorem infix_of_within (C q : List Char) (hq : ∀ c ∈ q, c ∉ C) (s t : List Char)
    (h : within C s t = true) (hp : q <:+: t) : q <:+: s := by
  induction s generalizing t with
  | nil =>
    cases t with
    | nil => exact hp
    | cons b t => simp [within] at h
  | cons x s ih =>
    cases t with
    | nil => simp [within] at h
    | cons b t =>
      rw [List.infix_cons_iff] at hp
      rcases hp with hp | hp
      · exact (prefix_of_within C q hq _ _ h hp).isInfix
      · simp only [within, Bool.and_eq_true] at h
        exact List.infix_cons_iff.2 (Or.inr (ih t h.2 hp))

theorem within_length (C : List Char) (s t : List Char) (h : within C s t = true) :
    s.length = t.length := by
  induction s generalizing t with
  | nil =>
    cases t with
    | nil => rfl
    | cons b t => simp [within] at h
  | cons a s ih =>
    cases t with
    | nil => simp [within] at h
    | cons b t =>
      simp only [within, Bool.and_eq_true] at h
      simp [ih t h.2]

theorem replaceFrom_never_starts (C old new : List Char) (hC : within C old new = true)
    (htail : ∀ c ∈ old.tail, c ∉ C) (hne : new ≠ old) (h : old ≠ []) (s : List Char) :
    ¬ old <+: replaceFrom old new 0 s := by
  cases s with
  | nil => simpa [replaceFrom] using h
  | cons c cs =>
    by_cases hp : old <+: c :: cs
    · obtain ⟨rest, hr⟩ := hp
      rw [← hr, replaceFrom_hit old new rest h]
      intro hpre
      have h1 : old <+: new :=
        List.prefix_of_prefix_length_le hpre (List.prefix_append new _)
          (Nat.le_of_eq (within_length C old new hC))
      exact hne (h1.eq_of_length (within_length C old new hC)).symm
    · rw [replaceFrom_miss old new c cs hp]
      intro hpre
      apply hp
      cases old with
      | nil => exact List.nil_prefix
      | cons a o =>
        rw [List.cons_prefix_cons] at hpre ⊢
        exact ⟨hpre.1, prefix_of_within C o htail cs _ (within_replaceFrom C _ new h hC cs) hpre.2⟩

theorem replaceFrom_never_contains (C old new : List Char) (hC : within C old new = true)
    (htail : ∀ c ∈ old.tail, c ∉ C)
    (hends : ∀ j, j < old.length → new.drop j ≠ old.take (old.length - j)) (h : old ≠ [])
    (s : List Char) : ¬ old <:+: replaceFrom old new 0 s := by
  have hlen := within_length C old new hC
  have hne : new ≠ old := by
    have := hends 0 (List.length_pos.2 h)
    simpa using this
  refine replaceFrom_induction old (fun s => ¬ old <:+: replaceFrom old new 0 s) ?_ ?_ ?_ h s
  · simpa [replaceFrom] using h
  · intro rest ih
    rw [replaceFrom_hit old new rest h]
    have main : ∀ k j, j + k = new.length →
        ¬ old <:+: new.drop j ++ replaceFrom old new 0 rest := by
      intro k
      induction k with
      | zero =>
        intro j hj
        have : new.drop j = [] := List.drop_eq_nil_of_le (by omega)
        simpa [this] using ih
      | succ k ihk =>
        intro j hj
        have hjl : j < new.length := by omega
        rw [List.drop_eq_getElem_cons hjl, List.cons_append, List.infix_cons_iff]
        rintro (hpre | hin)
        · rw [← List.cons_append, ← List.drop_eq_getElem_cons hjl] at hpre
          have h1 : old.take (old.length - j) <+: new.drop j ++ replaceFrom old new 0 rest :=
            (List.take_prefix _ old).trans hpre
          have hl : (old.take (old.length - j)).length = (new.drop j).length := by
            simp
            omega
          have h2 : old.take (old.length - j) <+: new.drop j :=
            List.prefix_of_prefix_length_le h1 (List.prefix_append _ _) (Nat.le_of_eq hl)
          exact hends j (by omega) (h2.eq_of_length hl).symm
        · exact ihk (j + 1) (by omega) hin
    simpa using main new.length 0 (by simp)
  · intro c cs hp ih
    intro hin
    rw [replaceFrom_miss old new c cs hp, List.infix_cons_iff] at hin
    rcases hin with hpre | hin
    · rw [← replaceFrom_miss old new c cs hp] at hpre
      exact replaceFrom_never_starts C old new hC htail hne h (c :: cs) hpre
    · exact ih hin

theorem ReplaceAll_data (s old new : String) (h : old.data ≠ []) :
    (ReplaceAll s old new).data = replaceFrom old.data new.data 0 s.data := by
  simp [ReplaceAll, h]

theorem ReplaceAll_removes (s old new : String) (h : removes old.data new.data = true) :
    ¬ Contains (ReplaceAll s old new) old := by
  simp only [removes, Bool.and_eq_true, Bool.not_eq_true', List.isEmpty_eq_false,
    List.all_eq_true, List.mem_range, bne_iff_ne, ne_eq, List.elem_eq_mem,
    decide_eq_false_iff_not, decide_eq_true_eq, Bool.not_eq_true, Bool.decide_eq_false] at h
  obtain ⟨⟨⟨h1, h2⟩, h3⟩, h4⟩ := h
  rw [Contains, ReplaceAll_data s old new h1]
  exact replaceFrom_never_contains _ _ _ h2 h3 h4 h1 s.data

theorem ReplaceAll_keeps (q s old new : String) (h : keeps q.data old.data new.data = true)
    (hq : ¬ Contains s q) : ¬ Contains (ReplaceAll s old new) q := by
  simp only [keeps, Bool.and_eq_true, Bool.not_eq_true', List.isEmpty_eq_false,
    List.all_eq_true, List.elem_eq_mem, decide_eq_false_iff_not, decide_eq_true_eq,
    Bool.not_eq_true, Bool.decide_eq_false] at h
  obtain ⟨⟨h1, h2⟩, h3⟩ := h
  rw [Contains, ReplaceAll_data s old new h1]
  intro hin
  exact hq (infix_of_within _ _ h3 _ _ (within_replaceFrom _ _ _ h1 h2 s.data) hin)

theorem foldl_ReplaceAll_keeps (q : String) (ps : List (String × String))
    (h : ∀ p ∈ ps, keeps q.data p.1.data p.2.data = true) (s : String)
    (hq : ¬ Contains s q) :
    ¬ Contains (ps.foldl (fun r p => ReplaceAll r p.1 p.2) s) q := by
  induction ps generalizing s with
  | nil => exact hq
  | cons p ps ih =>
    rw [List.foldl_cons]
    exact ih (fun p1 hp1 => h p1 (List.mem_cons_of_mem p hp1)) _
      (ReplaceAll_keeps q s p.1 p.2 (h p (List.mem_cons_self p ps)) hq)

theorem FixAAA_eq_foldl (str : String) :
    FixAAA str = acronyms.foldl (fun r p => ReplaceAll r p.1 p.2) str := rfl

theorem FixAAA_step_removes (before after : List (String × String)) (old new : String)
    (hsplit : acronyms = before ++ (old, new) :: after)
    (hold : removes old.data new.data = true)
    (hafter : ∀ p ∈ after, keeps old.data p.1.data p.2.data = true) (str : String) :
    ¬ Contains (FixAAA str) old := by
  rw [FixAAA_eq_foldl, hsplit, List.foldl_append, List.foldl_cons]
  exact foldl_ReplaceAll_keeps old after hafter _ (ReplaceAll_removes _ old new hold)

theorem replaceFrom_nil (old new : List Char) : replaceFrom old new 0 [] = [] := by
  simp [replaceFrom]

/-- Every position of the result of a replacement holds the character the text held
there, or lies in a written occurrence: the text held `old` from the start of the
occurrence and the result holds `new`. -/
theorem replaceFrom_position (old new : List Char) (hne : old ≠ [])
    (hlen : old.length = new.length) (s : List Char) :
    ∀ i, (replaceFrom old new 0 s)[i]? = s[i]?
      ∨ ∃ j, j ≤ i ∧ j < old.length
          ∧ ∀ m, m < old.length →
              s[i - j + m]? = old[m]? ∧ (replaceFrom old new 0 s)[i - j + m]? = new[m]? := by
  refine replaceFrom_induction old
    (fun s => ∀ i, (replaceFrom old new 0 s)[i]? = s[i]?
      ∨ ∃ j, j ≤ i ∧ j < old.length
          ∧ ∀ m, m < old.length →
              s[i - j + m]? = old[m]? ∧ (replaceFrom old new 0 s)[i - j + m]? = new[m]?)
    ?_ ?_ ?_ hne s
  · intro i
    left
    rw [replaceFrom_nil]
  · intro rest ih i
    rw [replaceFrom_hit old new rest hne]
    by_cases hi : i < old.length
    · right
      refine ⟨i, Nat.le_refl i, hi, ?_⟩
      intro m hm
      rw [Nat.sub_self, Nat.zero_add]
      exact ⟨List.getElem?_append_left hm, List.getElem?_append_left (hlen ▸ hm)⟩
    · have hge : old.length ≤ i := Nat.le_of_not_lt hi
      rcases ih (i - old.length) with h | ⟨j, hj, hjn, hblock⟩
      · left
        rw [List.getElem?_append_right (hlen ▸ hge), List.getElem?_append_right hge, ← hlen]
        exact h
      · right
        refine ⟨j, by omega, hjn, ?_⟩
        intro m hm
        obtain ⟨h1, h2⟩ := hblock m hm
        have e : i - j + m - old.length = i - old.length - j + m := by omega
        constructor
        · rw [List.getElem?_append_right (by omega), e]
          exact h1
        · rw [List.getElem?_append_right (by omega), ← hlen, e]
          exact h2
  · intro c cs hp ih i
    rw [replaceFrom_miss old new c cs hp]
    cases i with
    | zero =>
      left
      simp
    | succ k =>
      rcases ih k with h | ⟨j, hj, hjn, hblock⟩
      · left
        simpa using h
      · right
        refine ⟨j, by omega, hjn, ?_⟩
        intro m hm
        obtain ⟨h1, h2⟩ := hblock m hm
        have e : k + 1 - j + m = (k - j + m) + 1 := by omega
        rw [e, List.getElem?_cons_succ, List.getElem?_cons_succ]
        exact ⟨h1, h2⟩

/-- A character of the result that the replacement does not write stood in the text. -/
theorem within_getElem (C : List Char) (x : Char) (hx : x ∉ C) :
    ∀ (s t : List Char) (i : Nat), within C s t = true → t[i]? = some x → s[i]? = some x := by
  intro s
  induction s with
  | nil =>
    intro t i h ht
    cases t with
    | nil => simp at ht
    | cons b t => simp [within] at h
  | cons a s ih =>
    intro t i h ht
    cases t with
    | nil => simp at ht
    | cons b t =>
      simp only [within, Bool.and_eq_true, Bool.or_eq_true, beq_iff_eq, List.elem_eq_mem,
        decide_eq_true_eq] at h
      cases i with
      | zero =>
        simp only [List.getElem?_cons_zero, Option.some.injEq] at ht ⊢
        subst ht
        rcases h.1 with h1 | h1
        · exact h1.symm
        · exact absurd h1 hx
      | succ k =>
        simp only [List.getElem?_cons_succ] at ht ⊢
        exact ih t k h.2 ht

/-- A pattern that stands in a text occurs in it. -/
theorem infix_of_occursAt (q t : List Char) (k : Nat) (h : occursAt q t k) : q <:+: t := by
  have e : q = (t.drop k).take q.length := by
    apply List.ext_getElem?
    intro m
    rw [List.getElem?_take]
    by_cases hm : m < q.length
    · rw [if_pos hm, List.getElem?_drop, h m hm]
    · rw [if_neg hm, List.getElem?_eq_none (Nat.le_of_not_lt hm)]
  rw [e]
  exact ((List.take_prefix _ _).isInfix).trans (List.drop_suffix k t).isInfix

/-- A pattern that occurs behind `l` stands at the length of `l`. -/
theorem occursAt_append (q l r : List Char) : occursAt q (l ++ q ++ r) l.length := by
  intro m hm
  rw [List.append_assoc, List.getElem?_append_right (by omega)]
  have e : l.length + m - l.length = m := by omega
  rw [e, List.getElem?_append_left hm]

/-- A written occurrence leaves a character as it is where `new` has the character of
`old`. -/
theorem replaceFrom_keeps_char (old new : List Char) (hne : old ≠ [])
    (hlen : old.length = new.length) (x : Char)
    (hx : ∀ j, j < old.length → old[j]? = some x → new[j]? = some x)
    (s : List Char) (i : Nat) (h : s[i]? = some x) :
    (replaceFrom old new 0 s)[i]? = some x := by
  rcases replaceFrom_position old new hne hlen s i with h1 | ⟨j, hj, hjn, hblock⟩
  · rw [h1, h]
  · obtain ⟨b1, b2⟩ := hblock j hjn
    have e : i - j + j = i := by omega
    rw [e] at b1 b2
    rw [b2]
    exact hx j hjn (by rw [← b1, h])

/-- An occurrence of `q` whose first character the replacement leaves alone is left alone
altogether when no two neighbouring characters of `q` are neighbours in `old` with the
second of them rewritten. -/
theorem replaceFrom_keeps_at (old new : List Char) (hne : old ≠ [])
    (hlen : old.length = new.length) (h0 : old[0]? = new[0]?) (q : List Char)
    (hq : ∀ m, m + 1 < q.length → ∀ j, j < old.length → 1 ≤ j →
      old[j - 1]? = q[m]? → old[j]? = q[m + 1]? → new[j]? = old[j]?)
    (s : List Char) (k : Nat) (hocc : occursAt q s k)
    (hhead : (replaceFrom old new 0 s)[k]? = s[k]?) :
    occursAt q (replaceFrom old new 0 s) k := by
  intro m hm
  cases m with
  | zero =>
    rw [Nat.add_zero, hhead]
    exact hocc 0 hm
  | succ m =>
    have hs1 : s[k + (m + 1)]? = q[m + 1]? := hocc (m + 1) hm
    have hs0 : s[k + m]? = q[m]? := hocc m (by omega)
    rcases replaceFrom_position old new hne hlen s (k + (m + 1)) with h1 | ⟨j, hj, hjn, hblock⟩
    · rw [h1, hs1]
    · obtain ⟨b1, b2⟩ := hblock j hjn
      have e : k + (m + 1) - j + j = k + (m + 1) := by omega
      rw [e] at b1 b2
      rw [b2]
      cases j with
      | zero => rw [← h0, ← b1, hs1]
      | succ j =>
        obtain ⟨c1, _⟩ := hblock j (by omega)
        have e2 : k + (m + 1) - (j + 1) + j = k + m := by omega
        rw [e2] at c1
        have := hq m hm (j + 1) hjn (by omega) (by rw [Nat.add_sub_cancel, ← c1, hs0])
          (by rw [← b1, hs1])
        rw [this, ← b1, hs1]

theorem replaceFrom_spares (q old new : List Char) (h : spares q old new = true)
    (s : List Char) (k : Nat) (hocc : occursAt q s k)
    (hhead : (replaceFrom old new 0 s)[k]? = s[k]?) :
    occursAt q (replaceFrom old new 0 s) k := by
  simp only [spares, Bool.and_eq_true, Bool.not_eq_true', List.isEmpty_eq_false,
    List.all_eq_true, List.mem_range, beq_iff_eq, Bool.or_eq_true, Bool.and_eq_false_imp,
    Bool.not_eq_true, Bool.decide_eq_false] at h
  obtain ⟨⟨⟨h1, h2⟩, h3⟩, h4⟩ := h
  refine replaceFrom_keeps_at old new h1 h2 h3 q ?_ s k hocc hhead
  intro m hm j hj hj1 a b
  rcases h4 m (by omega) j hj with (h5 | h5) | h5
  · omega
  · simp [a, b] at h5
  · exact h5

/-- Two characters that stand in a text one after the other occur in it. -/
theorem infix_of_pair (t : List Char) (k : Nat) (a b : Char) (ha : t[k]? = some a)
    (hb : t[k + 1]? = some b) : [a, b] <:+: t := by
  apply infix_of_occursAt [a, b] t k
  intro m hm
  have : m = 0 ∨ m = 1 := by
    simp at hm
    omega
  rcases this with h | h <;> subst h <;> simp [ha, hb]

/-- After the replacement of `IDenti` by `Identi` in a text without `Id`, every `Id` is the
start of `Identi`. -/
theorem IdStartsIdenti_after (s : List Char) (hno : ¬ ['I', 'd'] <:+: s) :
    IdStartsIdenti
      (replaceFrom ['I', 'D', 'e', 'n', 't', 'i'] ['I', 'd', 'e', 'n', 't', 'i'] 0 s) := by
  intro k hI hd
  rcases replaceFrom_position ['I', 'D', 'e', 'n', 't', 'i'] ['I', 'd', 'e', 'n', 't', 'i']
      (by simp) rfl s (k + 1) with h1 | ⟨j, hj, hjn, hblock⟩
  · rw [h1] at hd
    rcases replaceFrom_position ['I', 'D', 'e', 'n', 't', 'i'] ['I', 'd', 'e', 'n', 't', 'i']
        (by simp) rfl s k with h2 | ⟨j, hj, hjn, hblock⟩
    · rw [h2] at hI
      exact absurd (infix_of_pair s k 'I' 'd' hI hd) hno
    · obtain ⟨_, b2⟩ := hblock j hjn
      have e : k - j + j = k := by omega
      rw [e, hI] at b2
      simp only [List.length_cons, List.length_nil] at hjn
      have hj0 : j = 0 := by
        interval_cases j <;> simp at b2 ⊢
      subst hj0
      obtain ⟨c1, _⟩ := hblock 1 (by simp)
      simp only [Nat.sub_zero] at c1
      rw [hd] at c1
      simp at c1
  · obtain ⟨_, b2⟩ := hblock j hjn
    have e : k + 1 - j + j = k + 1 := by omega
    rw [e, hd] at b2
    simp only [List.length_cons, List.length_nil] at hjn
    have hj1 : j = 1 := by
      interval_cases j <;> simp at b2 ⊢
    subst hj1
    intro m hm
    have := (hblock m hm).2
    simpa using this

/-- The replacement of `old` by `new` in a string keeps every `Id` the start of `Identi`
when it writes neither `I` nor `d` and spares `Identi`. -/
theorem ReplaceAll_keeps_Identi (t old new : String)
    (hw : within (changed old.data new.data) old.data new.data = true)
    (hI : 'I' ∉ changed old.data new.data) (hd : 'd' ∉ changed old.data new.data)
    (hq : spares ['I', 'd', 'e', 'n', 't', 'i'] old.data new.data = true)
    (h : IdStartsIdenti t.data) : IdStartsIdenti (ReplaceAll t old new).data := by
  have hne : old.data ≠ [] := by
    intro e
    simp [spares, e] at hq
  rw [ReplaceAll_data t old new hne]
  intro k h1 h2
  have hws := within_replaceFrom (changed old.data new.data) old.data new.data hne hw t.data
  have s1 := within_getElem _ 'I' hI t.data _ k hws h1
  have s2 := within_getElem _ 'd' hd t.data _ (k + 1) hws h2
  exact replaceFrom_spares _ old.data new.data hq t.data k (h k s1 s2) (by rw [h1, s1])

/-- An `I` in the text after the replacement of `Uri` by `URI` stood there before or
follows `UR`. -/
theorem Uri_I_follows_UR (s : List Char) (k : Nat)
    (h : (replaceFrom ['U', 'r', 'i'] ['U', 'R', 'I'] 0 s)[k]? = some 'I') :
    s[k]? = some 'I' ∨ followsUR (replaceFrom ['U', 'r', 'i'] ['U', 'R', 'I'] 0 s) k := by
  rcases replaceFrom_position ['U', 'r', 'i'] ['U', 'R', 'I'] (by simp) rfl s k
    with h1 | ⟨j, hj, hjn, hblock⟩
  · left
    rw [← h1, h]
  · right
    obtain ⟨_, b2⟩ := hblock j hjn
    have e : k - j + j = k := by omega
    rw [e, h] at b2
    simp only [List.length_cons, List.length_nil] at hjn
    have hj2 : j = 2 := by
      interval_cases j <;> simp at b2 ⊢
    subst hj2
    refine ⟨hj, ?_, ?_⟩
    · simpa using (hblock 0 (by simp)).2
    · have := (hblock 1 (by simp)).2
      have e1 : k - 2 + 1 = k - 1 := by omega
      rw [e1] at this
      simpa using this

/-- After the replacement of `Uri` by `URI` in a text without `Ip` where every `Id` is the
start of `Identi`: every `Ip` follows `UR`, and every `Id` is the start of `Identi` or
follows `UR`. -/
theorem Uri_step (s : List Char) (hId : IdStartsIdenti s) (hIp : ¬ ['I', 'p'] <:+: s)
    (k : Nat) (h1 : (replaceFrom ['U', 'r', 'i'] ['U', 'R', 'I'] 0 s)[k]? = some 'I') :
    ((replaceFrom ['U', 'r', 'i'] ['U', 'R', 'I'] 0 s)[k + 1]? = some 'p' →
      followsUR (replaceFrom ['U', 'r', 'i'] ['U', 'R', 'I'] 0 s) k)
    ∧ ((replaceFrom ['U', 'r', 'i'] ['U', 'R', 'I'] 0 s)[k + 1]? = some 'd' →
      occursAt ['I', 'd', 'e', 'n', 't', 'i'] (replaceFrom ['U', 'r', 'i'] ['U', 'R', 'I'] 0 s) k
      ∨ followsUR (replaceFrom ['U', 'r', 'i'] ['U', 'R', 'I'] 0 s) k) := by
  have hws := within_replaceFrom (changed ['U', 'r', 'i'] ['U', 'R', 'I']) ['U', 'r', 'i']
    ['U', 'R', 'I'] (by simp) (by decide) s
  rcases Uri_I_follows_UR s k h1 with hs | hf
  · constructor
    · intro h2
      have s2 := within_getElem _ 'p' (by decide) s _ (k + 1) hws h2
      exact absurd (infix_of_pair s k 'I' 'p' hs s2) hIp
    · intro h2
      have s2 := within_getElem _ 'd' (by decide) s _ (k + 1) hws h2
      left
      exact replaceFrom_spares _ ['U', 'r', 'i'] ['U', 'R', 'I'] (by decide) s k (hId k hs s2)
        (by rw [h1, hs])
  · exact ⟨fun _ => hf, fun _ => Or.inr hf⟩

/-- The replacement of `Url` by `URL` keeps `UR` where it stands. -/
theorem Url_keeps_UR (s : List Char) (k : Nat) (h : followsUR s k) :
    followsUR (replaceFrom ['U', 'r', 'l'] ['U', 'R', 'L'] 0 s) k :=
  ⟨h.1,
    replaceFrom_keeps_char ['U', 'r', 'l'] ['U', 'R', 'L'] (by simp) rfl 'U' (by decide) s _
      h.2.1,
    replaceFrom_keeps_char ['U', 'r', 'l'] ['U', 'R', 'L'] (by simp) rfl 'R' (by decide) s _
      h.2.2⟩

/-- The replacement of `Url` by `URL` keeps what the replacement of `Uri` has left of `Ip`
and `Id`. -/
theorem Url_step (s : List Char)
    (hIp : ∀ k, s[k]? = some 'I' → s[k + 1]? = some 'p' → followsUR s k)
    (hId : ∀ k, s[k]? = some 'I' → s[k + 1]? = some 'd' →
      occursAt ['I', 'd', 'e', 'n', 't', 'i'] s k ∨ followsUR s k)
    (k : Nat) (h1 : (replaceFrom ['U', 'r', 'l'] ['U', 'R', 'L'] 0 s)[k]? = some 'I') :
    ((replaceFrom ['U', 'r', 'l'] ['U', 'R', 'L'] 0 s)[k + 1]? = some 'p' →
      followsUR (replaceFrom ['U', 'r', 'l'] ['U', 'R', 'L'] 0 s) k)
    ∧ ((replaceFrom ['U', 'r', 'l'] ['U', 'R', 'L'] 0 s)[k + 1]? = some 'd' →
      occursAt ['I', 'd', 'e', 'n', 't', 'i'] (replaceFrom ['U', 'r', 'l'] ['U', 'R', 'L'] 0 s) k
      ∨ followsUR (replaceFrom ['U', 'r', 'l'] ['U', 'R', 'L'] 0 s) k) := by
  have hws := within_replaceFrom (changed ['U', 'r', 'l'] ['U', 'R', 'L']) ['U', 'r', 'l']
    ['U', 'R', 'L'] (by simp) (by decide) s
  have s1 := within_getElem _ 'I' (by decide) s _ k hws h1
  constructor
  · intro h2
    have s2 := within_getElem _ 'p' (by decide) s _ (k + 1) hws h2
    exact Url_keeps_UR s k (hIp k s1 s2)
  · intro h2
    have s2 := within_getElem _ 'd' (by decide) s _ (k + 1) hws h2
    rcases hId k s1 s2 with hocc | hf
    · left
      exact replaceFrom_spares _ ['U', 'r', 'l'] ['U', 'R', 'L'] (by decide) s k hocc
        (by rw [h1, s1])
    · exact Or.inr (Url_keeps_UR s k hf)

/-- Where `UR` stands just before the end of `l` in `l ++ p ++ r`, `l` ends in `UR`. -/
theorem followsUR_suffix (l p r : List Char) (h : followsUR (l ++ p ++ r) l.length) :
    ['U', 'R'] <:+ l := by
  obtain ⟨h2, hU, hR⟩ := h
  rw [List.append_assoc, List.getElem?_append_left (by omega)] at hU hR
  refine ⟨l.take (l.length - 2), ?_⟩
  have : l.drop (l.length - 2) = ['U', 'R'] := by
    apply List.ext_getElem?
    intro i
    rw [List.getElem?_drop]
    match i with
    | 0 => simpa using hU
    | 1 =>
      have e : l.length - 2 + 1 = l.length - 1 := by omega
      rw [e, hR]
      rfl
    | i + 2 =>
      rw [List.getElem?_eq_none (by omega)]
      rfl
  rw [← this, List.take_append_drop]

/-- Where `Identi` stands at the `Id` of `l ++ Id ++ r`, `r` starts with `enti`. -/
theorem occursAt_Identi_rest (l r : List Char)
    (h : occursAt ['I', 'd', 'e', 'n', 't', 'i'] (l ++ ['I', 'd'] ++ r) l.length) :
    ['e', 'n', 't', 'i'] <+: r := by
  have hr : ∀ m, m < 4 → r[m]? = ['e', 'n', 't', 'i'][m]? := by
    intro m hm
    have := h (m + 2) (by simp; omega)
    rw [List.append_assoc, List.getElem?_append_right (by omega)] at this
    have e : l.length + (m + 2) - l.length = m + 2 := by omega
    rw [e] at this
    simpa using this
  refine ⟨r.drop 4, ?_⟩
  have : r.take 4 = ['e', 'n', 't', 'i'] := by
    apply List.ext_getElem?
    intro i
    by_cases hi : i < 4
    · rw [List.getElem?_take_of_lt hi]
      exact hr i hi
    · rw [List.getElem?_eq_none (by simp; omega), List.getElem?_eq_none (by simp; omega)]
  rw [← this, List.take_append_drop]

/-- Where `FixAAA(s)` has an `I`: a `p` behind it makes the `I` follow `UR`; a `d` behind
it makes the `I` the start of `Identi` or follow `UR`. -/
theorem FixAAA_I_positions (s : String) (k : Nat) (h1 : (FixAAA s).data[k]? = some 'I') :
    ((FixAAA s).data[k + 1]? = some 'p' → followsUR (FixAAA s).data k)
    ∧ ((FixAAA s).data[k + 1]? = some 'd' →
      occursAt ['I', 'd', 'e', 'n', 't', 'i'] (FixAAA s).data k ∨ followsUR (FixAAA s).data k) := by
  have n2 : ¬ Contains (ReplaceAll (ReplaceAll s "Api" "API") "Id" "ID") "Id" :=
    ReplaceAll_removes _ "Id" "ID" (by decide)
  have i3 : IdStartsIdenti
      (ReplaceAll (ReplaceAll (ReplaceAll s "Api" "API") "Id" "ID") "IDenti" "Identi").data := by
    rw [ReplaceAll_data _ _ _ (by decide)]
    exact IdStartsIdenti_after _ n2
  have i4 := ReplaceAll_keeps_Identi _ "Ip" "IP" (by decide) (by decide) (by decide)
    (by decide) i3
  have p4 := ReplaceAll_removes
    (ReplaceAll (ReplaceAll (ReplaceAll s "Api" "API") "Id" "ID") "IDenti" "Identi")
    "Ip" "IP" (by decide)
  have i5 := ReplaceAll_keeps_Identi _ "Json" "JSON" (by decide) (by decide) (by decide)
    (by decide) i4
  have p5 := ReplaceAll_keeps "Ip" _ "Json" "JSON" (by decide) p4
  have i6 := ReplaceAll_keeps_Identi _ "Html" "HTML" (by decide) (by decide) (by decide)
    (by decide) i5
  have p6 := ReplaceAll_keeps "Ip" _ "Html" "HTML" (by decide) p5
  have i7 := ReplaceAll_keeps_Identi _ "Http" "HTTP" (by decide) (by decide) (by decide)
    (by decide) i6
  have p7 := ReplaceAll_keeps "Ip" _ "Http" "HTTP" (by decide) p6
  have i8 := ReplaceAll_keeps_Identi _ "Ttl" "TTL" (by decide) (by decide) (by decide)
    (by decide) i7
  have p8 := ReplaceAll_keeps "Ip" _ "Ttl" "TTL" (by decide) p7
  have i9 := ReplaceAll_keeps_Identi _ "Udp" "UDP" (by decide) (by decide) (by decide)
    (by decide) i8
  have p9 := ReplaceAll_keeps "Ip" _ "Udp" "UDP" (by decide) p8
  generalize ht : ReplaceAll (ReplaceAll (ReplaceAll (ReplaceAll (ReplaceAll (ReplaceAll
    (ReplaceAll (ReplaceAll (ReplaceAll s "Api" "API") "Id" "ID") "IDenti" "Identi")
    "Ip" "IP") "Json" "JSON") "Html" "HTML") "Http" "HTTP") "Ttl" "TTL") "Udp" "UDP" = t
    at i9 p9
  have e : (FixAAA s).data
      = replaceFrom ['U', 'r', 'l'] ['U', 'R', 'L'] 0
          (replaceFrom ['U', 'r', 'i'] ['U', 'R', 'I'] 0 t.data) := by
    rw [← ht]
    show (ReplaceAll (ReplaceAll _ "Uri" "URI") "Url" "URL").data = _
    rw [ReplaceAll_data _ _ _ (by decide), ReplaceAll_data _ _ _ (by decide)]
  rw [e] at h1 ⊢
  exact Url_step _ (fun k a b => (Uri_step t.data i9 p9 k a).1 b)
    (fun k a b => (Uri_step t.data i9 p9 k a).2 b) k h1

/-- C29 (counterexample). The replacement of `Uri` by `URI` comes after those of `Id`
and `Ip` and writes an `I`: `FixAAA("Urip")` is `URIp`, which contains `Ip`, and
`FixAAA("Urid")` is `URId`, which contains `Id` and no `Identi`. -/
theorem FixAAA_Uri_leaves_Ip_and_Id :
    FixAAA "Urip" = "URIp" ∧ Contains (FixAAA "Urip") "Ip"
    ∧ FixAAA "Urid" = "URId" ∧ Contains (FixAAA "Urid") "Id"
    ∧ ¬ Contains (FixAAA "Urid") "Identi" := by
  refine ⟨?_, ?_, ?_, ?_, ?_⟩ <;> decide

/-- C29 (amended). For every string `s`, `FixAAA(s)` contains no occurrence of `Api`,
`Json`, `Html`, `Http`, `Ttl`, `Udp`, `Uri` or `Url`; every occurrence of `Ip` in it comes
directly after `UR` (its `I` is the one written for `Uri`); and every occurrence of `Id` in
it is the start of `Identi` or comes directly after `UR`. -/
theorem FixAAA_removes_acronyms (s : String) :
    ¬ Contains (FixAAA s) "Api" ∧ ¬ Contains (FixAAA s) "Json"
    ∧ ¬ Contains (FixAAA s) "Html" ∧ ¬ Contains (FixAAA s) "Http"
    ∧ ¬ Contains (FixAAA s) "Ttl" ∧ ¬ Contains (FixAAA s) "Udp"
    ∧ ¬ Contains (FixAAA s) "Uri" ∧ ¬ Contains (FixAAA s) "Url"
    ∧ (∀ l r, (FixAAA s).data = l ++ "Ip".data ++ r → "UR".data <:+ l)
    ∧ (∀ l r, (FixAAA s).data = l ++ "Id".data ++ r →
        "enti".data <+: r ∨ "UR".data <:+ l) := by
  refine ⟨FixAAA_step_removes (acronyms.take 0) (acronyms.drop 1) "Api" "API" rfl
      (by decide) (by decide) s,
    FixAAA_step_removes (acronyms.take 4) (acronyms.drop 5) "Json" "JSON" rfl
      (by decide) (by decide) s,
    FixAAA_step_removes (acronyms.take 5) (acronyms.drop 6) "Html" "HTML" rfl
      (by decide) (by decide) s,
    FixAAA_step_removes (acronyms.take 6) (acronyms.drop 7) "Http" "HTTP" rfl
      (by decide) (by decide) s,
    FixAAA_step_removes (acronyms.take 7) (acronyms.drop 8) "Ttl" "TTL" rfl
      (by decide) (by decide) s,
    FixAAA_step_removes (acronyms.take 8) (acronyms.drop 9) "Udp" "UDP" rfl
      (by decide) (by decide) s,
    FixAAA_step_removes (acronyms.take 9) (acronyms.drop 10) "Uri" "URI" rfl
      (by decide) (by decide) s,
    FixAAA_step_removes (acronyms.take 10) (acronyms.drop 11) "Url" "URL" rfl
      (by decide) (by decide) s, ?_, ?_⟩
  · intro l r h
    have hI : (FixAAA s).data[l.length]? = some 'I' := by
      rw [h]
      exact occursAt_append "Ip".data l r 0 (by decide)
    have hp : (FixAAA s).data[l.length + 1]? = some 'p' := by
      rw [h]
      exact occursAt_append "Ip".data l r 1 (by decide)
    have := (FixAAA_I_positions s l.length hI).1 hp
    rw [h] at this
    exact followsUR_suffix l _ r this
  · intro l r h
    have hI : (FixAAA s).data[l.length]? = some 'I' := by
      rw [h]
      exact occursAt_append "Id".data l r 0 (by decide)
    have hp : (FixAAA s).data[l.length + 1]? = some 'd' := by
      rw [h]
      exact occursAt_append "Id".data l r 1 (by decide)
    have := (FixAAA_I_positions s l.length hI).2 hp
    rw [h] at this
    rcases this with h3 | h3
    · exact Or.inl (occursAt_Identi_rest l r h3)
    · exact Or.inr (followsUR_suffix l _ r h3)

/-! ## The dispatch iteration: unparsed payloads and the collection -/

/-- The body of the loop of `Client.receive` alone, handed a response as if `Receive` had
returned it, whose payload `UnmarshalType` does not parse, `client.catcher` being open
with room: the iteration ends with the message appended once to
`client.catcher` and the rest of the client, the queues of the listeners and the store
among it, as before. -/
theorem receive_drops_unparsed (U : String → Option TdType) (client : Client)
    (response : Response) (hparse : U response.Data = none)
    (hopen : client.catcher.closed = false)
    (hroom : client.catcher.buf.length < client.catcher.cap) :
    Client.receive U client response
        = .ok { client with
                catcher := { client.catcher with buf := client.catcher.buf ++ [response] } }
    ∧ ∀ client1, Client.receive U client response = .ok client1 →
        client1.listeners = client.listeners ∧ client1.listenerStore = client.listenerStore
        ∧ client1.catcher.buf = client.catcher.buf ++ [response] := by
  have h : Client.receive U client response
      = .ok { client with
              catcher := { client.catcher with buf := client.catcher.buf ++ [response] } } := by
    simp [Client.receive, Chan.send, hopen, hroom, hparse]
  refine ⟨h, ?_⟩
  intro client1 h1
  rw [h] at h1
  cases h1
  exact ⟨rfl, rfl, rfl⟩

/-- The loop over the listeners leaves `isActive` of every listener as it was, and
`needGc` is set exactly when a listener of the list is not active. -/
theorem broadcast_needGc (typ : TdType) :
    ∀ (store : List Nat) (heap heap1 : List Listener) (g g1 : Bool),
      Client.broadcast typ store heap g = .ok (heap1, g1) →
      g1 = (g || store.any (fun p => !listenerStore.isActiveAt heap p))
      ∧ ∀ p, listenerStore.isActiveAt heap1 p = listenerStore.isActiveAt heap p := by
  intro store
  induction store with
  | nil =>
    intro heap heap1 g g1 h
    simp only [Client.broadcast, Step.ok.injEq, Prod.mk.injEq] at h
    obtain ⟨h1, h2⟩ := h
    subst h1 h2
    simp
  | cons p rest ih =>
    intro heap heap1 g g1 h
    simp only [Client.broadcast] at h
    cases hl : heap[p]? with
    | none => simp [hl] at h
    | some l =>
      simp only [hl] at h
      have hplt : p < heap.length := (List.getElem?_eq_some.mp hl).1
      by_cases ha : l.IsActive = true
      · simp only [ha, if_true] at h
        cases hs : l.Updates.send typ with
        | blocked => simp [hs] at h
        | fatal => simp [hs] at h
        | ok ch =>
          simp only [hs] at h
          have hsame : ∀ q, listenerStore.isActiveAt
              (heap.set p { l with Updates := ch }) q = listenerStore.isActiveAt heap q := by
            intro q
            by_cases hq : q = p
            · subst hq
              simp [listenerStore.isActiveAt, hl, hplt, Listener.IsActive]
            · simp [listenerStore.isActiveAt, List.getElem?_set_ne (Ne.symm hq)]
          obtain ⟨h1, h2⟩ := ih _ heap1 g g1 h
          refine ⟨?_, fun q => (h2 q).trans (hsame q)⟩
          have hp : listenerStore.isActiveAt heap p = true := by
            simp [listenerStore.isActiveAt, hl, ha]
          simp [h1, hsame, hp]
      · simp only [ha] at h
        obtain ⟨h1, h2⟩ := ih heap heap1 true g1 h
        refine ⟨?_, h2⟩
        have hp : listenerStore.isActiveAt heap p = false := by
          simpa [listenerStore.isActiveAt, hl] using ha
        simp [h1, hp]

/-- The body of the loop of `Client.receive` alone, handed a response as if `Receive` had
returned it, after it parsed the message and went through the listeners of the store: if a listener of the store was not active, the store afterwards is the old
one without the listeners that are not active, so it holds active listeners only; if
every listener of the store was active, the store is the old one. -/
theorem receive_collects_iff_inactive_seen (U : String → Option TdType)
    (client client1 : Client) (response : Response) (e : TdType)
    (hparse : U response.Data = some e)
    (h : Client.receive U client response = .ok client1) :
    ((∃ p ∈ client.listenerStore, listenerStore.isActiveAt client.listeners p = false) →
      client1.listenerStore
          = client.listenerStore.filter (listenerStore.isActiveAt client1.listeners)
      ∧ ∀ p ∈ client1.listenerStore, listenerStore.isActiveAt client1.listeners p = true)
    ∧ ((∀ p ∈ client.listenerStore, listenerStore.isActiveAt client.listeners p = true) →
      client1.listenerStore = client.listenerStore) := by
  simp only [Client.receive] at h
  cases hc : client.catcher.send response with
  | blocked => simp [hc] at h
  | fatal => simp [hc] at h
  | ok catcher =>
    simp only [hc, hparse] at h
    cases hb : Client.broadcast e client.listenerStore client.listeners false with
    | blocked => simp [hb] at h
    | fatal => simp [hb] at h
    | ok r =>
      obtain ⟨heap, needGc⟩ := r
      simp only [hb, Step.ok.injEq] at h
      obtain ⟨hg, hact⟩ := broadcast_needGc e _ _ _ _ _ hb
      subst h
      simp only [Bool.false_or] at hg
      constructor
      · rintro ⟨p, hp, hpa⟩
        have hgc : needGc = true := by
          rw [hg, List.any_eq_true]
          exact ⟨p, hp, by simp [hpa]⟩
        simp only [hgc, if_true, gc_eq_filter]
        refine ⟨trivial, ?_⟩
        intro q hq
        exact (List.mem_filter.mp hq).2
      · intro hall
        have hgc : needGc = false := by
          rw [hg, List.any_eq_false]
          intro q hq
          simp [hall q hq]
        simp [hgc]

/-- C33. For every request and whatever token it carries: `Send` takes the token from
the configured generator, stores the slot it makes under that token, and the request it
passes to the engine carries that token. -/
theorem Send_stamps_generated_token (g : Nat → String) (pick : SelectCase) (client : Client)
    (request : Request) :
    runSend g pick 2 client (.entry request)
        = ({ client with
             extraCalls := client.extraCalls + 1
             slots := client.slots ++ [Chan.make 1]
             catchersStore := Store client.catchersStore (g client.extraCalls)
               client.slots.length
             sent := client.sent ++ [{ request with Extra := g client.extraCalls }] },
           .selecting { request with Extra := g client.extraCalls } client.slots.length)
    ∧ Load (Store client.catchersStore (g client.extraCalls) client.slots.length)
        (g client.extraCalls) = some client.slots.length
    ∧ (client.slots ++ [Chan.make 1])[client.slots.length]? = some (Chan.make 1) := by
  refine ⟨?_, Load_Store_self _ _ _, ?_⟩
  · simp [runSend, Client.Send]
  · simp

/-! ## Int64JSON read from a quoted text -/

/-- The value of the character of a digit is the digit. -/
theorem digitValue_digitChar (k : Nat) (h : k < 10) : digitValue (Nat.digitChar k) = some k := by
  interval_cases k <;> decide

/-- Reading the digits `toDigitsCore` writes in front of `ds` gives the number, from which
the reading goes on through `ds`. -/
theorem parseDigits_toDigitsCore (fuel : Nat) :
    ∀ (n : Nat) (ds : List Char), n < fuel →
      parseDigits (Nat.toDigitsCore 10 fuel n ds) 0 = parseDigits ds n := by
  induction fuel with
  | zero => intro n ds h; omega
  | succ fuel ih =>
    intro n ds h
    have hd : digitValue (Nat.digitChar (n % 10)) = some (n % 10) :=
      digitValue_digitChar _ (Nat.mod_lt _ (by decide))
    simp only [Nat.toDigitsCore]
    split
    · rename_i h0
      have h1 : n % 10 = n := by omega
      rw [h1] at hd
      simp [parseDigits, h1, hd]
    · rename_i h0
      rw [ih (n / 10) _ (by omega)]
      simp only [parseDigits, hd]
      congr 1
      omega

/-- Reading the decimal digits of a number gives the number. -/
theorem parseDigits_toDigits (n : Nat) : parseDigits (Nat.toDigits 10 n) 0 = some n := by
  rw [Nat.toDigits, parseDigits_toDigitsCore (n + 1) n [] (Nat.lt_succ_self n)]
  rfl

/-- A number has at least one digit. -/
theorem toDigitsCore_ne_nil (fuel n : Nat) (ds : List Char) (h : 0 < fuel ∨ ds ≠ []) :
    Nat.toDigitsCore 10 fuel n ds ≠ [] := by
  induction fuel generalizing n ds with
  | zero =>
    rcases h with h | h
    · omega
    · simpa [Nat.toDigitsCore] using h
  | succ fuel ih =>
    simp only [Nat.toDigitsCore]
    split
    · simp
    · exact ih _ _ (Or.inr (by simp))

/-- On a non-empty text of digits `ParseInt` gives their value when it is below `2^63` and
an error otherwise. -/
theorem ParseInt_of_parseDigits (l : List Char) (n : Nat) (hl : l ≠ [])
    (h : parseDigits l 0 = some n) :
    ParseInt l = if n < 2 ^ 63 then some (n : Int) else none := by
  cases l with
  | nil => exact absurd rfl hl
  | cons c rest =>
    have hc : digitValue c ≠ none := by
      intro hc
      simp [parseDigits, hc] at h
    by_cases hp : c = '+'
    · subst hp; exact absurd (by decide) hc
    · by_cases hm : c = '-'
      · subst hm; exact absurd (by decide) hc
      · unfold ParseInt
        split
        · rename_i heq
          exact absurd heq (by simp)
        · rename_i heq
          exact absurd (List.cons.inj heq).1 hp
        · rename_i heq
          exact absurd (List.cons.inj heq).1 hm
        · rename_i c1 r1 _ _ heq
          obtain ⟨h1, h2⟩ := List.cons.inj heq
          subst h1 h2
          rw [h]
          rfl

/-- Function `ParseInt` reads what `FormatInt` writes for an `int64`. -/
theorem ParseInt_FormatInt (n : Int) (hlo : -2 ^ 63 ≤ n) (hhi : n < 2 ^ 63) :
    ParseInt (FormatInt n) = some n := by
  by_cases hneg : n < 0
  · have hne : Nat.toDigits 10 n.natAbs ≠ [] := toDigitsCore_ne_nil _ _ _ (Or.inl (by omega))
    have hb : n.natAbs ≤ 2 ^ 63 := by omega
    have hv : -(n.natAbs : Int) = n := by omega
    simp only [FormatInt, hneg, if_true, ParseInt, hne, if_false, parseDigits_toDigits,
      Option.bind, if_pos hb, hv]
  · have hne : Nat.toDigits 10 n.natAbs ≠ [] := toDigitsCore_ne_nil _ _ _ (Or.inl (by omega))
    have hb : n.natAbs < 2 ^ 63 := by omega
    have hv : (n.natAbs : Int) = n := by omega
    simp only [FormatInt, hneg, if_false]
    rw [ParseInt_of_parseDigits _ n.natAbs hne (parseDigits_toDigits _), if_pos hb, hv]

/-- A character that is not a digit makes the reading of digits fail. -/
theorem parseDigits_none_of_mem (l : List Char) (c : Char) (hc : c ∈ l)
    (hd : digitValue c = none) : ∀ acc, parseDigits l acc = none := by
  induction l with
  | nil => simp at hc
  | cons a l ih =>
    intro acc
    simp only [parseDigits]
    rcases List.mem_cons.mp hc with h | h
    · subst h; simp [hd]
    · cases digitValue a with
      | none => rfl
      | some d => exact ih h _

/-- A character that is neither a digit nor a sign makes `ParseInt` fail. -/
theorem ParseInt_none_of_mem (t : List Char) (c : Char) (hc : c ∈ t)
    (hd : digitValue c = none) (hp : c ≠ '+') (hm : c ≠ '-') : ParseInt t = none := by
  unfold ParseInt
  split
  · rfl
  · rename_i rest
    have : c ∈ rest := by
      rcases List.mem_cons.mp hc with h | h
      · exact absurd h hp
      · exact h
    simp [parseDigits_none_of_mem rest c this hd]
  · rename_i rest
    have : c ∈ rest := by
      rcases List.mem_cons.mp hc with h | h
      · exact absurd h hm
      · exact h
    simp [parseDigits_none_of_mem rest c this hd]
  · rename_i a rest _ _
    simp [parseDigits_none_of_mem (a :: rest) c hc hd]

/-- On a text between two quotes `UnmarshalJSON` is `ParseInt` on the text. -/
theorem UnmarshalJSON_quoted (t : List Char) :
    Int64JSON.UnmarshalJSON ('"' :: t ++ ['"']) = .ok (ParseInt t) := by
  simp [Int64JSON.UnmarshalJSON]

/-- The reading of digits succeeds exactly on a text of digits, with their value. -/
theorem parseDigits_eq_some (l : List Char) :
    ∀ (acc v : Nat), parseDigits l acc = some v
      ↔ (∀ c ∈ l, '0' ≤ c ∧ c ≤ '9')
        ∧ v = l.foldl (fun acc c => acc * 10 + (c.toNat - '0'.toNat)) acc := by
  induction l with
  | nil =>
    intro acc v
    simp [parseDigits, eq_comm]
  | cons c cs ih =>
    intro acc v
    by_cases hc : '0' ≤ c ∧ c ≤ '9'
    · simp only [parseDigits, digitValue, if_pos hc, ih, List.mem_cons, forall_eq_or_imp,
        List.foldl_cons]
      constructor
      · rintro ⟨h1, h2⟩
        exact ⟨⟨hc, h1⟩, h2⟩
      · rintro ⟨⟨_, h1⟩, h2⟩
        exact ⟨h1, h2⟩
    · simp only [parseDigits, digitValue, if_neg hc, List.mem_cons, forall_eq_or_imp]
      constructor
      · intro h
        cases h
      · rintro ⟨⟨h, _⟩, _⟩
        exact absurd h hc

/-- Function `ParseInt` returns `n` exactly on the decimal `int64` texts of value `n`. -/
theorem ParseInt_eq_some (t : List Char) (n : Int) :
    ParseInt t = some n ↔ decimalInt64 t n := by
  constructor
  · intro h
    unfold ParseInt at h
    split at h
    · cases h
    · rename_i rest
      by_cases hr : rest = []
      · simp [hr] at h
      · simp only [if_neg hr] at h
        cases hp : parseDigits rest 0 with
        | none => simp [hp] at h
        | some v =>
          obtain ⟨hd, hv⟩ := (parseDigits_eq_some rest 0 v).1 hp
          by_cases hlt : v < 2 ^ 63
          · simp only [hp, Option.bind, if_pos hlt, Option.some.injEq] at h
            subst h
            refine ⟨rest, hr, hd, Or.inr (Or.inl ⟨rfl, by rw [hv]; rfl⟩), ?_, ?_⟩ <;> omega
          · simp [hp, Option.bind] at h
            exfalso
            omega
    · rename_i rest
      by_cases hr : rest = []
      · simp [hr] at h
      · simp only [if_neg hr] at h
        cases hp : parseDigits rest 0 with
        | none => simp [hp] at h
        | some v =>
          obtain ⟨hd, hv⟩ := (parseDigits_eq_some rest 0 v).1 hp
          by_cases hle : v ≤ 2 ^ 63
          · simp only [hp, Option.bind, if_pos hle, Option.some.injEq] at h
            subst h
            refine ⟨rest, hr, hd, Or.inr (Or.inr ⟨rfl, by rw [hv]; rfl⟩), ?_, ?_⟩ <;> omega
          · simp [hp, Option.bind] at h
            exfalso
            omega
    · rename_i c rest _ _
      cases hp : parseDigits (c :: rest) 0 with
      | none => simp [hp] at h
      | some v =>
        obtain ⟨hd, hv⟩ := (parseDigits_eq_some (c :: rest) 0 v).1 hp
        by_cases hlt : v < 2 ^ 63
        · simp only [hp, Option.bind, if_pos hlt, Option.some.injEq] at h
          subst h
          refine ⟨c :: rest, by simp, hd, Or.inl ⟨rfl, by rw [hv]; rfl⟩, ?_, ?_⟩ <;> omega
        · simp [hp, Option.bind] at h
          exfalso
          omega
  · rintro ⟨digits, hne, hd, hcase, hlo, hhi⟩
    have hp : parseDigits digits 0 = some (digitsValue digits) :=
      (parseDigits_eq_some digits 0 _).2 ⟨hd, rfl⟩
    rcases hcase with ⟨ht, hn⟩ | ⟨ht, hn⟩ | ⟨ht, hn⟩
    · subst ht
      rw [ParseInt_of_parseDigits _ _ hne hp, hn, if_pos (by omega)]
    · subst ht
      simp only [ParseInt, if_neg hne, hp, Option.bind, hn]
      rw [if_pos (by omega)]
    · subst ht
      simp only [ParseInt, if_neg hne, hp, Option.bind, hn]
      rw [if_pos (by omega)]

/-- C34. For every `int64` value `n`, `UnmarshalJSON` on a double quote, the decimal
rendering of `n` and a double quote sets the receiver to `n` and returns a nil error. On
every quoted text that is a decimal `int64`, an optional sign and digits within the
range, it sets the receiver to the value; on every quoted text that is not, it returns
the error of `ParseInt` and does not assign: so on the empty text, on a text with a
character that is neither a digit nor a sign, and on the decimal rendering of a number
outside the range of `int64`. -/
theorem UnmarshalJSON_reads_quoted_decimal (n : Int) (hlo : -2 ^ 63 ≤ n) (hhi : n < 2 ^ 63) :
    Int64JSON.UnmarshalJSON ('"' :: FormatInt n ++ ['"']) = .ok (some n)
    ∧ (∀ (t : List Char) (v : Int), decimalInt64 t v →
        Int64JSON.UnmarshalJSON ('"' :: t ++ ['"']) = .ok (some v))
    ∧ (∀ t : List Char, (¬ ∃ v, decimalInt64 t v) →
        Int64JSON.UnmarshalJSON ('"' :: t ++ ['"']) = .ok none)
    ∧ Int64JSON.UnmarshalJSON ['"', '"'] = .ok none
    ∧ (∀ (t : List Char) (c : Char), c ∈ t → digitValue c = none → c ≠ '+' → c ≠ '-' →
        Int64JSON.UnmarshalJSON ('"' :: t ++ ['"']) = .ok none)
    ∧ (∀ m : Nat, 2 ^ 63 ≤ m →
        Int64JSON.UnmarshalJSON ('"' :: Nat.toDigits 10 m ++ ['"']) = .ok none)
    ∧ (∀ m : Nat, 2 ^ 63 < m →
        Int64JSON.UnmarshalJSON ('"' :: '-' :: Nat.toDigits 10 m ++ ['"']) = .ok none) := by
  refine ⟨?_, ?_, ?_, by decide, ?_, ?_, ?_⟩
  · rw [UnmarshalJSON_quoted, ParseInt_FormatInt n hlo hhi]
  · intro t v hv
    rw [UnmarshalJSON_quoted, (ParseInt_eq_some t v).2 hv]
  · intro t hno
    rw [UnmarshalJSON_quoted]
    cases hp : ParseInt t with
    | none => rfl
    | some v => exact absurd ⟨v, (ParseInt_eq_some t v).1 hp⟩ hno
  · intro t c hc hd hp hm
    rw [UnmarshalJSON_quoted, ParseInt_none_of_mem t c hc hd hp hm]
  · intro m hm
    have hne : Nat.toDigits 10 m ≠ [] := toDigitsCore_ne_nil _ _ _ (Or.inl (Nat.succ_pos m))
    rw [UnmarshalJSON_quoted, ParseInt_of_parseDigits _ m hne (parseDigits_toDigits m),
      if_neg (by omega)]
  · intro m hm
    have hne : Nat.toDigits 10 m ≠ [] := toDigitsCore_ne_nil _ _ _ (Or.inl (Nat.succ_pos m))
    have hb : ¬ m ≤ 2 ^ 63 := by omega
    have := UnmarshalJSON_quoted ('-' :: Nat.toDigits 10 m)
    simp only [List.cons_append] at this ⊢
    rw [this]
    simp only [ParseInt, hne, if_false, parseDigits_toDigits, Option.bind, if_neg hb]

/-- Witness for C34: the value `-42`, and four texts that are no decimal `int64`. -/
theorem UnmarshalJSON_reads_quoted_decimal_witness :
    FormatInt (-42) = ['-', '4', '2']
    ∧ Int64JSON.UnmarshalJSON ('"' :: FormatInt (-42) ++ ['"']) = .ok (some (-42))
    ∧ Int64JSON.UnmarshalJSON ['"', '1', '-', '2', '"'] = .ok none
    ∧ Int64JSON.UnmarshalJSON ['"', '+', '"'] = .ok none
    ∧ Int64JSON.UnmarshalJSON ['"', '1', '2', '+', '"'] = .ok none
    ∧ Int64JSON.UnmarshalJSON ['"', '-', '-', '1', '"'] = .ok none :=
  ⟨by decide, (UnmarshalJSON_reads_quoted_decimal (-42) (by decide) (by decide)).1,
    by decide, by decide, by decide, by decide⟩

/-! ## FixAAA applied twice -/

/-- Where `old` does not occur the replacement changes nothing. -/
theorem replaceFrom_absent (old new : List Char) (s : List Char) (h : ¬ old <:+: s) :
    replaceFrom old new 0 s = s := by
  induction s with
  | nil => rfl
  | cons c cs ih =>
    rw [replaceFrom_miss old new c cs (fun hp => h hp.isInfix),
      ih (fun hi => h (List.infix_cons_iff.2 (Or.inr hi)))]

/-- Function `ReplaceAll` returns a string without `old` as it is. -/
theorem ReplaceAll_absent (s old new : String) (h : ¬ Contains s old) :
    ReplaceAll s old new = s := by
  have hne : old.data ≠ [] := by
    intro h0
    apply h
    rw [Contains, h0]
    exact List.nil_infix
  unfold ReplaceAll
  rw [if_neg hne, replaceFrom_absent _ _ _ h]

/-- What holds of the occurrences in a text holds of those in an end of it. -/
theorem eachStarts_suffix (p q : List Char) (r t : List Char) (h : r <:+ t)
    (hs : eachStarts p q t = true) : eachStarts p q r = true := by
  induction t with
  | nil =>
    rw [List.suffix_nil] at h
    subst h
    rfl
  | cons c cs ih =>
    rcases List.suffix_cons_iff.1 h with h1 | h1
    · subst h1
      exact hs
    · simp only [eachStarts, Bool.and_eq_true] at hs
      exact ih h1 hs.2

/-- On a text without `IDenti` in which every `Id` starts `Identi`, the replacement of
`Id` by `ID` followed by that of `IDenti` by `Identi` gives the text back. -/
theorem Id_then_IDenti (n : Nat) :
    ∀ t : List Char, t.length ≤ n →
      eachStarts ['I', 'd'] ['I', 'd', 'e', 'n', 't', 'i'] t = true →
      ¬ ['I', 'D', 'e', 'n', 't', 'i'] <:+: t →
      replaceFrom ['I', 'D', 'e', 'n', 't', 'i'] ['I', 'd', 'e', 'n', 't', 'i'] 0
        (replaceFrom ['I', 'd'] ['I', 'D'] 0 t) = t := by
  induction n with
  | zero =>
    intro t ht _ _
    cases t with
    | nil => rfl
    | cons c cs => simp at ht
  | succ n ih =>
    intro t ht hs hno
    cases t with
    | nil => rfl
    | cons c cs =>
      have hs1 := hs
      simp only [eachStarts, Bool.and_eq_true, Bool.or_eq_true, Bool.not_eq_true',
        List.isPrefixOf_iff_prefix] at hs1
      obtain ⟨hhead, htail⟩ := hs1
      have hnotail : ¬ ['I', 'D', 'e', 'n', 't', 'i'] <:+: cs :=
        fun hi => hno (List.infix_cons_iff.2 (Or.inr hi))
      by_cases hp : ['I', 'd'] <+: c :: cs
      · have hq : ['I', 'd', 'e', 'n', 't', 'i'] <+: c :: cs := by
          rcases hhead with h1 | h1
          · rw [← Bool.not_eq_true, List.isPrefixOf_iff_prefix] at h1
            exact absurd hp h1
          · exact h1
        obtain ⟨r, hr⟩ := hq
        rw [← hr]
        have e1 : replaceFrom ['I', 'd'] ['I', 'D'] 0 (['I', 'd', 'e', 'n', 't', 'i'] ++ r)
            = ['I', 'D', 'e', 'n', 't', 'i'] ++ replaceFrom ['I', 'd'] ['I', 'D'] 0 r := by
          have := replaceFrom_hit ['I', 'd'] ['I', 'D'] (['e', 'n', 't', 'i'] ++ r) (by simp)
          simp only [List.cons_append, List.nil_append] at this ⊢
          rw [this]
          rw [replaceFrom_miss _ _ 'e' _ (by simp [List.cons_prefix_cons]),
            replaceFrom_miss _ _ 'n' _ (by simp [List.cons_prefix_cons]),
            replaceFrom_miss _ _ 't' _ (by simp [List.cons_prefix_cons]),
            replaceFrom_miss _ _ 'i' _ (by simp [List.cons_prefix_cons])]
        rw [e1, replaceFrom_hit _ _ _ (by simp)]
        have hlen : r.length ≤ n := by
          have := congrArg List.length hr
          simp at this ht
          omega
        have hsuf : r <:+ c :: cs := ⟨_, hr⟩
        have hsr : eachStarts ['I', 'd'] ['I', 'd', 'e', 'n', 't', 'i'] r = true :=
          eachStarts_suffix _ _ _ _ hsuf hs
        rw [ih r hlen hsr (fun hi => hno (hi.trans hsuf.isInfix))]
      · rw [replaceFrom_miss _ _ c cs hp]
        have hnp : ¬ ['I', 'D', 'e', 'n', 't', 'i']
            <+: c :: replaceFrom ['I', 'd'] ['I', 'D'] 0 cs := by
          intro hpre
          rw [List.cons_prefix_cons] at hpre
          obtain ⟨hc, hrest⟩ := hpre
          cases cs with
          | nil => simp [replaceFrom] at hrest
          | cons d cs1 =>
            by_cases hp2 : ['I', 'd'] <+: d :: cs1
            · obtain ⟨r2, hr2⟩ := hp2
              rw [← hr2, replaceFrom_hit _ _ _ (by simp)] at hrest
              simp [List.cons_prefix_cons] at hrest
            · rw [replaceFrom_miss _ _ d cs1 hp2, List.cons_prefix_cons] at hrest
              obtain ⟨hd, hrest2⟩ := hrest
              have hw := within_replaceFrom ['D'] ['I', 'd'] ['I', 'D'] (by simp) (by decide) cs1
              have h4 : ['e', 'n', 't', 'i'] <+: cs1 :=
                prefix_of_within ['D'] _ (by decide) cs1 _ hw hrest2
              apply hno
              rw [← hc, ← hd]
              exact ((List.cons_prefix_cons.2 ⟨rfl, List.cons_prefix_cons.2 ⟨rfl, h4⟩⟩ :
                ['I', 'D', 'e', 'n', 't', 'i'] <+: 'I' :: 'D' :: cs1)).isInfix
        rw [replaceFrom_miss _ _ c _ hnp,
          ih cs (by simpa using ht) htail hnotail]


/-- The second and third replacement of `FixAAA` together, on a string without
`IDenti` in which every `Id` starts `Identi`. -/
theorem ReplaceAll_Id_then_IDenti (t : String)
    (hId : eachStarts "Id".data "Identi".data t.data = true)
    (hID : ¬ Contains t "IDenti") :
    ReplaceAll (ReplaceAll t "Id" "ID") "IDenti" "Identi" = t := by
  have h := Id_then_IDenti t.data.length t.data (Nat.le_refl _) hId hID
  have e1 : (ReplaceAll t "Id" "ID").data = replaceFrom "Id".data "ID".data 0 t.data :=
    ReplaceAll_data t "Id" "ID" (by decide)
  have e2 := ReplaceAll_data (ReplaceAll t "Id" "ID") "IDenti" "Identi" (by decide)
  rw [e1] at e2
  apply String.ext
  rw [e2]
  exact h

/-- A string is left as it is by `FixAAA` when it holds none of the patterns replaced
other than `Id` at the start of `Identi`. -/
theorem FixAAA_fixed (t : String)
    (hApi : ¬ Contains t "Api") (hId : eachStarts "Id".data "Identi".data t.data = true)
    (hID : ¬ Contains t "IDenti") (hIp : ¬ Contains t "Ip") (hJson : ¬ Contains t "Json")
    (hHtml : ¬ Contains t "Html") (hHttp : ¬ Contains t "Http") (hTtl : ¬ Contains t "Ttl")
    (hUdp : ¬ Contains t "Udp") (hUri : ¬ Contains t "Uri") (hUrl : ¬ Contains t "Url") :
    FixAAA t = t := by
  simp only [FixAAA]
  rw [ReplaceAll_absent t "Api" "API" hApi, ReplaceAll_Id_then_IDenti t hId hID,
    ReplaceAll_absent t "Ip" "IP" hIp, ReplaceAll_absent t "Json" "JSON" hJson,
    ReplaceAll_absent t "Html" "HTML" hHtml, ReplaceAll_absent t "Http" "HTTP" hHttp,
    ReplaceAll_absent t "Ttl" "TTL" hTtl, ReplaceAll_absent t "Udp" "UDP" hUdp,
    ReplaceAll_absent t "Uri" "URI" hUri, ReplaceAll_absent t "Url" "URL" hUrl]

/-- C35 (counterexample). A second pass changes what the first returned:
`FixAAA("Urip")` is `URIp` and `FixAAA("URIp")` is `URIP`; `FixAAA("UriDenti")` is
`URIDenti` and `FixAAA("URIDenti")` is `URIdenti`. -/
theorem FixAAA_twice_differs :
    FixAAA "Urip" = "URIp" ∧ FixAAA (FixAAA "Urip") = "URIP"
    ∧ FixAAA (FixAAA "Urip") ≠ FixAAA "Urip"
    ∧ FixAAA "UriDenti" = "URIDenti" ∧ FixAAA (FixAAA "UriDenti") = "URIdenti" := by
  refine ⟨?_, ?_, ?_, ?_, ?_⟩ <;> decide

/-- C35 (amended). For every string `s` such that `FixAAA(s)` contains no `Ip` and no
`IDenti` and every `Id` in it is the start of `Identi`:
`FixAAA(FixAAA(s)) = FixAAA(s)`. -/
theorem FixAAA_idempotent_when_settled (s : String)
    (hIp : ¬ Contains (FixAAA s) "Ip") (hID : ¬ Contains (FixAAA s) "IDenti")
    (hId : eachStarts "Id".data "Identi".data (FixAAA s).data = true) :
    FixAAA (FixAAA s) = FixAAA s :=
  FixAAA_fixed (FixAAA s)
    (FixAAA_step_removes (acronyms.take 0) (acronyms.drop 1) "Api" "API" rfl
      (by decide) (by decide) s)
    hId hID hIp
    (FixAAA_step_removes (acronyms.take 4) (acronyms.drop 5) "Json" "JSON" rfl
      (by decide) (by decide) s)
    (FixAAA_step_removes (acronyms.take 5) (acronyms.drop 6) "Html" "HTML" rfl
      (by decide) (by decide) s)
    (FixAAA_step_removes (acronyms.take 6) (acronyms.drop 7) "Http" "HTTP" rfl
      (by decide) (by decide) s)
    (FixAAA_step_removes (acronyms.take 7) (acronyms.drop 8) "Ttl" "TTL" rfl
      (by decide) (by decide) s)
    (FixAAA_step_removes (acronyms.take 8) (acronyms.drop 9) "Udp" "UDP" rfl
      (by decide) (by decide) s)
    (FixAAA_step_removes (acronyms.take 9) (acronyms.drop 10) "Uri" "URI" rfl
      (by decide) (by decide) s)
    (FixAAA_step_removes (acronyms.take 10) (acronyms.drop 11) "Url" "URL" rfl
      (by decide) (by decide) s)

/-- Witness for C35: a name of the schema with `Identi` and a final `Id`. -/
theorem FixAAA_idempotent_when_settled_witness :
    FixAAA "inputIdentityDocumentId" = "inputIdentityDocumentID"
    ∧ FixAAA (FixAAA "inputIdentityDocumentId") = FixAAA "inputIdentityDocumentId" :=
  ⟨by decide,
    FixAAA_idempotent_when_settled "inputIdentityDocumentId" (by decide) (by decide)
      (by decide)⟩

/-! ## ParseCode and Parse -/

/-- What `Sscanf` reads from a field: the field is `td_api::` followed by the text read, and
that text is not empty. -/
theorem Sscanf_eq_some (field m : String) :
    Sscanf field = some m ↔ field = "td_api::" ++ m ∧ m ≠ "" := by
  unfold Sscanf HasPrefix
  constructor
  · intro h
    split at h
    · rename_i hp
      rw [List.isPrefixOf_iff_prefix] at hp
      split at h
      · simp at h
      · rename_i hne
        simp only [Option.some.injEq] at h
        subst h
        obtain ⟨r, hr⟩ := hp
        have hd : field.data.drop 8 = r := by
          rw [← hr]
          rfl
        constructor
        · apply String.ext
          rw [String.data_append, hd, hr]
        · intro h0
          apply hne
          have := congrArg String.data h0
          simpa using this
    · simp at h
  · rintro ⟨h1, h2⟩
    subst h1
    have hp : "td_api::".data.isPrefixOf ("td_api::" ++ m).data = true := by
      rw [List.isPrefixOf_iff_prefix, String.data_append]
      exact List.prefix_append _ _
    have hd : ("td_api::" ++ m).data.drop 8 = m.data := by
      rw [String.data_append]
      rfl
    have hne : m.data ≠ [] := by
      intro h0
      apply h2
      apply String.ext
      rw [h0]
    rw [if_pos hp, hd, if_neg hne]

/-- The keys of the map after the loop over the fields: the keys before and what `Sscanf`
reads from a field. -/
theorem mem_methods (fields : List String) :
    ∀ (methods : List String) (m : String),
      m ∈ ParseCode.methods fields methods
        ↔ m ∈ methods ∨ ∃ field ∈ fields, Sscanf field = some m := by
  induction fields with
  | nil => intro methods m; simp [ParseCode.methods]
  | cons field rest ih =>
    intro methods m
    simp only [ParseCode.methods]
    cases hs : Sscanf field with
    | none =>
      rw [ih]
      simp [hs]
    | some name =>
      rw [ih]
      simp only [List.mem_append, List.mem_singleton, List.mem_cons, exists_eq_or_imp, hs,
        Option.some.injEq, List.not_mem_nil, or_false]
      constructor
      · rintro ((h | h) | h)
        · exact Or.inl h
        · exact Or.inr (Or.inl h.symm)
        · exact Or.inr (Or.inr h)
      · rintro (h | h | h)
        · exact Or.inl (Or.inl h)
        · exact Or.inl (Or.inr h.symm)
        · exact Or.inr h

/-- The pairs of neighbouring lines of a text are its first pair and those of its tail. -/
theorem scannedBy_cons_cons (marker : String) (a b : String) (rest : List String)
    (m : String) :
    scannedBy marker (a :: b :: rest) m
      ↔ (Contains b marker ∧ ∃ field ∈ Fields a, Sscanf field = some m)
        ∨ scannedBy marker (b :: rest) m := by
  constructor
  · rintro ⟨i, prev, cur, h1, h2, h3, h4⟩
    cases i with
    | zero =>
      simp only [List.getElem?_cons_zero, Option.some.injEq, zero_add,
        List.getElem?_cons_succ] at h1 h2
      subst h1 h2
      exact Or.inl ⟨h3, h4⟩
    | succ j =>
      rw [List.getElem?_cons_succ] at h1 h2
      exact Or.inr ⟨j, prev, cur, h1, h2, h3, h4⟩
  · rintro (⟨h3, h4⟩ | ⟨j, prev, cur, h1, h2, h3, h4⟩)
    · exact ⟨0, a, b, rfl, by simp, h3, h4⟩
    · exact ⟨j + 1, prev, cur, by rw [List.getElem?_cons_succ]; exact h1,
        by rw [List.getElem?_cons_succ]; exact h2, h3, h4⟩

/-- A text of one line has no pair of neighbouring lines. -/
theorem scannedBy_single (marker : String) (a : String) (m : String) :
    ¬ scannedBy marker [a] m := by
  rintro ⟨i, prev, cur, _, h2, _⟩
  simp at h2

/-- The keys of both maps after the loop over the lines. -/
theorem mem_scan (lines : List String) :
    ∀ (curLine : String) (userMethods botMethods : List String) (m : String),
      (m ∈ (ParseCode.scan lines curLine userMethods botMethods).1
        ↔ m ∈ userMethods ∨ scannedBy "CHECK_IS_USER();" (curLine :: lines) m)
      ∧ (m ∈ (ParseCode.scan lines curLine userMethods botMethods).2
        ↔ m ∈ botMethods ∨ scannedBy "CHECK_IS_BOT();" (curLine :: lines) m) := by
  induction lines with
  | nil =>
    intro curLine u b m
    simp [ParseCode.scan, scannedBy_single]
  | cons line rest ih =>
    intro curLine u b m
    simp only [ParseCode.scan]
    obtain ⟨h1, h2⟩ := ih line
      (if Contains line "CHECK_IS_USER();" then ParseCode.methods (Fields curLine) u else u)
      (if Contains line "CHECK_IS_BOT();" then ParseCode.methods (Fields curLine) b else b) m
    constructor
    · rw [h1, scannedBy_cons_cons]
      by_cases hc : Contains line "CHECK_IS_USER();"
      · rw [if_pos hc, mem_methods]
        simp only [hc, true_and]
        exact or_assoc
      · rw [if_neg hc]
        simp only [hc, false_and, false_or]
    · rw [h2, scannedBy_cons_cons]
      by_cases hc : Contains line "CHECK_IS_BOT();"
      · rw [if_pos hc, mem_methods]
        simp only [hc, true_and]
        exact or_assoc
      · rw [if_neg hc]
        simp only [hc, false_and, false_or]

/-- The empty line has no field. -/
theorem Fields_empty : Fields "" = [] := by decide

/-- For a name that is not empty, being read by `Sscanf` before a marked line is having the
field `td_api::` followed by the name there; the empty `prevLine` of the first round adds
nothing. -/
theorem scannedBy_iff_guardedBy (marker : String) (lines : List String) (m : String)
    (hm : m ≠ "") : scannedBy marker ("" :: lines) m ↔ guardedBy marker lines m := by
  have key : ∀ ls : List String, scannedBy marker ls m ↔ guardedBy marker ls m := by
    intro ls
    constructor
    · rintro ⟨i, prev, cur, h1, h2, h3, field, hf, hs⟩
      rw [Sscanf_eq_some] at hs
      exact ⟨i, prev, cur, h1, h2, h3, hs.1 ▸ hf⟩
    · rintro ⟨i, prev, cur, h1, h2, h3, hf⟩
      exact ⟨i, prev, cur, h1, h2, h3, _, hf, (Sscanf_eq_some _ _).2 ⟨rfl, hm⟩⟩
  cases lines with
  | nil =>
    constructor
    · intro h
      exact absurd h (scannedBy_single marker "" m)
    · rintro ⟨i, prev, cur, h1, _⟩
      simp at h1
  | cons a rest =>
    rw [scannedBy_cons_cons, Fields_empty, key]
    simp

/-- Function `Sscanf` reads no empty name, so no line counts for the empty name. -/
theorem scannedBy_empty (marker : String) (lines : List String) :
    ¬ scannedBy marker lines "" := by
  rintro ⟨i, prev, cur, _, _, _, field, _, hs⟩
  exact ((Sscanf_eq_some field "").1 hs).2 rfl

/-- Counterexample to C36 as stated: the name of the function is empty and the field
`td_api::`, which is `td_api::` followed by that name, stands on the line before one
containing `CHECK_IS_BOT();`, yet the function becomes `Common`: `Sscanf` reads nothing
from a field that ends with the literal. -/
theorem ParseCode_empty_name_stays_Common :
    guardedBy "CHECK_IS_BOT();" ["f(id, td_api:: &r)", " CHECK_IS_BOT();"] ""
    ∧ (ParseCode ["f(id, td_api:: &r)", " CHECK_IS_BOT();"] none
        { Types := [], Classes := [], Functions := [sampleFunction ""] }).1.Functions
        = [{ sampleFunction "" with Typ := .FunctionTypeCommon }] := by
  refine ⟨⟨0, "f(id, td_api:: &r)", " CHECK_IS_BOT();", rfl, rfl, by decide, by decide⟩, ?_⟩
  rfl

/-- C36 (amended). When the scanner reports no error `ParseCode` returns nil and leaves
`Types`, `Classes` and every field of a function but `Type` as they were. Each function
then has a type other than `Unknown`. A function whose name is not empty is `Bot`
exactly when some line just before a line containing `CHECK_IS_BOT();` has a field equal
to `td_api::` followed by its name, otherwise `User` exactly when the same holds for
`CHECK_IS_USER();`, otherwise `Common`. A function whose name is empty is `Common`. -/
theorem ParseCode_sets_types (lines : List String) (schema : Schema) :
    (ParseCode lines none schema).2 = none
    ∧ (ParseCode lines none schema).1.Types = schema.Types
    ∧ (ParseCode lines none schema).1.Classes = schema.Classes
    ∧ (ParseCode lines none schema).1.Functions.length = schema.Functions.length
    ∧ ∀ (i : Nat) (f : Function), schema.Functions[i]? = some f →
        ∃ t, (ParseCode lines none schema).1.Functions[i]? = some { f with Typ := t }
          ∧ t ≠ .FunctionTypeUnknown
          ∧ (f.Name ≠ "" →
              (t = .FunctionTypeBot ↔ guardedBy "CHECK_IS_BOT();" lines f.Name)
              ∧ (t = .FunctionTypeUser ↔ ¬ guardedBy "CHECK_IS_BOT();" lines f.Name
                  ∧ guardedBy "CHECK_IS_USER();" lines f.Name)
              ∧ (t = .FunctionTypeCommon ↔ ¬ guardedBy "CHECK_IS_BOT();" lines f.Name
                  ∧ ¬ guardedBy "CHECK_IS_USER();" lines f.Name))
          ∧ (f.Name = "" → t = .FunctionTypeCommon) := by
  refine ⟨rfl, rfl, rfl, by simp [ParseCode], ?_⟩
  intro i f hf
  obtain ⟨hu, hb⟩ := mem_scan lines "" [] [] f.Name
  simp only [List.not_mem_nil, false_or] at hu hb
  refine ⟨(ParseCode.setType (ParseCode.scan lines "" [] []).1
      (ParseCode.scan lines "" [] []).2 f).Typ, ?_, ?_, ?_, ?_⟩
  · simp only [ParseCode, List.getElem?_map, hf, Option.map_some']
    congr 1
    simp only [ParseCode.setType]
    split <;> split <;> simp
  · by_cases h1 : f.Name ∈ (ParseCode.scan lines "" [] []).1 <;>
      by_cases h2 : f.Name ∈ (ParseCode.scan lines "" [] []).2 <;>
      simp [ParseCode.setType, h1, h2]
  · intro hn
    rw [scannedBy_iff_guardedBy _ _ _ hn] at hu hb
    rw [← hu, ← hb]
    by_cases h1 : f.Name ∈ (ParseCode.scan lines "" [] []).1 <;>
      by_cases h2 : f.Name ∈ (ParseCode.scan lines "" [] []).2 <;>
      simp [ParseCode.setType, h1, h2]
  · intro hn
    rw [hn] at hu hb
    have h1 : f.Name ∉ (ParseCode.scan lines "" [] []).1 := by
      rw [hn, hu]
      exact scannedBy_empty _ _
    have h2 : f.Name ∉ (ParseCode.scan lines "" [] []).2 := by
      rw [hn, hb]
      exact scannedBy_empty _ _
    simp [ParseCode.setType, h1, h2]

/-- The loop of `Parse` passes over the lines `parseEntity` has read. -/
theorem Parse_loop_skip (schema : Schema) (hit : Bool) (rest : List String) :
    ∀ (read : List String), Parse.loop read.length (read ++ rest) schema hit
      = Parse.loop 0 rest schema hit := by
  intro read
  induction read with
  | nil => rfl
  | cons x xs ih => simpa [Parse.loop] using ih

/-- The loop of `parseEntity` stops behind the body line: what follows it plays no part,
and the lines read are the annotation lines and the body. -/
theorem parseEntity_scan_append (more : List String) (body : String) (rest : List String)
    (hmore : more.all (fun line => HasPrefix line "//@" || HasPrefix line "//-") = true)
    (h1 : HasPrefix body "//@" = false) (h2 : HasPrefix body "//-" = false) :
    ∀ propertiesLine,
      parseEntity.scan propertiesLine (more ++ body :: rest)
        = parseEntity.scan propertiesLine (more ++ [body])
      ∧ (parseEntity.scan propertiesLine (more ++ [body])).2.2 = more.length + 1 := by
  induction more with
  | nil =>
    intro propertiesLine
    simp [parseEntity.scan, h1, h2]
  | cons line more ih =>
    intro propertiesLine
    simp only [List.all_cons, Bool.and_eq_true, Bool.or_eq_true] at hmore
    obtain ⟨hl, hrest⟩ := hmore
    have ih1 := ih hrest
    show parseEntity.scan propertiesLine (line :: (more ++ body :: rest))
        = parseEntity.scan propertiesLine (line :: (more ++ [body]))
      ∧ (parseEntity.scan propertiesLine (line :: (more ++ [body]))).2.2
        = (line :: more).length + 1
    generalize more ++ body :: rest = l1 at ih1 ⊢
    generalize more ++ [body] = l2 at ih1 ⊢
    by_cases ha : HasPrefix line "//@" = true
    · obtain ⟨e1, e2⟩ := ih1 (propertiesLine ++ " " ++ TrimLeft line "//")
      simp only [parseEntity.scan, ha, if_true, e1, e2, List.length_cons, and_self]
    · have hb : HasPrefix line "//-" = true := by
        rcases hl with h | h
        · exact absurd h ha
        · exact h
      obtain ⟨e1, e2⟩ := ih1 (propertiesLine ++ " " ++ TrimLeft line "//-")
      simp only [parseEntity.scan, ha, hb, if_true, e1, e2, List.length_cons, and_self]
      simp

/-- Function `parseEntity` on a block does not depend on the lines behind the block. -/
theorem parseEntity_append (firstLine : String) (more : List String) (body : String)
    (rest : List String)
    (hmore : more.all (fun line => HasPrefix line "//@" || HasPrefix line "//-") = true)
    (h1 : HasPrefix body "//@" = false) (h2 : HasPrefix body "//-" = false) :
    parseEntity firstLine (more ++ body :: rest) = parseEntity firstLine (more ++ [body])
    ∧ ∀ e, parseEntity firstLine (more ++ [body]) = .ok e → e.2 = more.length + 1 := by
  obtain ⟨e1, e2⟩ := parseEntity_scan_append more body rest hmore h1 h2
    (TrimLeft firstLine "//")
  constructor
  · simp only [parseEntity, e1]
  · intro e he
    simp only [parseEntity] at he
    obtain ⟨b, _, he⟩ := Step.bind_eq_ok _ _ _ he
    obtain ⟨a, _, he⟩ := Step.bind_eq_ok _ _ _ he
    simp only [Step.ok.injEq] at he
    rw [← he]
    exact e2


/-- The default case of `Parse` on a line with a field appends one type, or one function
once the functions are open. -/
theorem Parse_bare_appends (line : String) (schema : Schema) (h : Fields line ≠ []) :
    ∃ t fn, Part.type? (.bare line) = some t ∧ Part.function? (.bare line) = some fn
      ∧ Parse.bare line schema false = .ok { schema with Types := schema.Types ++ [t] }
      ∧ Parse.bare line schema true
          = .ok { schema with Functions := schema.Functions ++ [fn] } := by
  cases hF : Fields line with
  | nil => exact absurd hF h
  | cons first rest =>
    by_cases hv : FixAAA first = "vector"
    · exact ⟨_, _, by simp [Part.type?, Parse.bare, hF, hv, Schema.empty]; rfl,
        by simp [Part.function?, Parse.bare, hF, Schema.empty]; rfl,
        by simp [Parse.bare, hF, hv], by simp [Parse.bare, hF]⟩
    · exact ⟨_, _, by simp [Part.type?, Parse.bare, hF, hv, Schema.empty]; rfl,
        by simp [Part.function?, Parse.bare, hF, Schema.empty]; rfl,
        by simp [Parse.bare, hF, hv], by simp [Parse.bare, hF]⟩

/-- The loop of `Parse` on a shaped description block appends what `parseType`, or
`parseFunction` once the functions are open, gives on the block, and goes on behind it. -/
theorem Parse_loop_block (firstLine : String) (more : List String) (body : String)
    (rest : List String) (schema : Schema)
    (hwf : (Part.block firstLine more body).shaped = true) :
    ∃ t fn, Part.type? (.block firstLine more body) = some t
      ∧ Part.function? (.block firstLine more body) = some fn
      ∧ Parse.loop 0 (firstLine :: (more ++ body :: rest)) schema false
          = Parse.loop 0 rest { schema with Types := schema.Types ++ [t] } false
      ∧ Parse.loop 0 (firstLine :: (more ++ body :: rest)) schema true
          = Parse.loop 0 rest { schema with Functions := schema.Functions ++ [fn] } true := by
  simp only [Part.shaped, Bool.and_eq_true, Bool.not_eq_true'] at hwf
  obtain ⟨⟨⟨⟨hd, hmore⟩, h1⟩, h2⟩, hok⟩ := hwf
  obtain ⟨happ, hread⟩ := parseEntity_append firstLine more body rest hmore h1 h2
  cases he : parseEntity firstLine (more ++ [body]) with
  | blocked => simp [he] at hok
  | fatal => simp [he] at hok
  | ok e =>
    have hr := hread e he
    have hskip : ∀ (sch : Schema) (hit : Bool),
        Parse.loop e.2 (more ++ body :: rest) sch hit = Parse.loop 0 rest sch hit := by
      intro sch hit
      have := Parse_loop_skip sch hit rest (more ++ [body])
      simpa [hr] using this
    refine ⟨_, _, by simp [Part.type?, parseType, he, Step.bind]; rfl,
      by simp [Part.function?, parseFunction, he, Step.bind]; rfl, ?_, ?_⟩
    · rw [Parse.loop]
      simp only [hd, if_true, parseType, happ, he, Step.bind, Bool.false_eq_true, if_false]
      exact hskip _ _
    · rw [Parse.loop]
      simp only [hd, if_true, parseFunction, happ, he, Step.bind]
      exact hskip _ _


/-- The loop of `Parse` over shaped pieces, from any schema and either value of
`hitFunctions`. -/
theorem Parse_loop_parts (parts : List Part) :
    (∀ p ∈ parts, p.shaped = true) →
    ∀ (schema : Schema) (hit : Bool),
      Parse.loop 0 (parts.flatMap Part.lines) schema hit
        = .ok { Types := schema.Types ++
                  (if hit then []
                   else (parts.takeWhile (fun p => !p.isFunctions)).filterMap Part.type?)
                Classes := schema.Classes ++ parts.filterMap Part.class?
                Functions := schema.Functions ++
                  ((if hit then parts
                    else parts.dropWhile (fun p => !p.isFunctions)).filterMap
                      Part.function?) } := by
  induction parts with
  | nil =>
    intro _ schema hit
    cases hit <;> simp [Parse.loop]
  | cons p ps ih =>
    intro hwf schema hit
    have hp := hwf p (List.mem_cons_self p ps)
    have ih1 := ih (fun q hq => hwf q (List.mem_cons_of_mem p hq))
    rw [List.flatMap_cons]
    cases p with
    | block firstLine more body =>
      obtain ⟨t, fn, ht, hf, e1, e2⟩ :=
        Parse_loop_block firstLine more body (ps.flatMap Part.lines) schema hp
      have hl : (Part.block firstLine more body).lines ++ ps.flatMap Part.lines
          = firstLine :: (more ++ body :: ps.flatMap Part.lines) := by
        simp [Part.lines]
      rw [hl]
      cases hit with
      | false =>
        rw [e1, ih1]
        simp [List.takeWhile_cons, List.dropWhile_cons, Part.isFunctions, ht,
          Part.class?, List.filterMap_cons]
      | true =>
        rw [e2, ih1]
        simp [hf, Part.class?, List.filterMap_cons]
    | bare line =>
      have hp1 := hp
      simp only [Part.shaped, Bool.and_eq_true, Bool.not_eq_true', decide_eq_true_eq,
        decide_eq_false_iff_not, ne_eq] at hp1
      obtain ⟨⟨⟨⟨h1, h2⟩, h3⟩, h4⟩, h5⟩ := hp1
      have h6 : Fields line ≠ [] := by simpa using h5
      have h7 : ¬ line = "" := by simpa using h4
      cases hit with
      | false =>
        obtain ⟨t, fn, ht, hf, e1, e2⟩ := Parse_bare_appends line schema h6
        simp only [Part.lines, List.singleton_append]
        rw [Parse.loop]
        simp only [h1, h2, h3, h7, e1, if_false, Bool.false_eq_true]
        rw [ih1]
        simp [List.takeWhile_cons, List.dropWhile_cons, Part.isFunctions, ht,
          Part.class?, List.filterMap_cons]
      | true =>
        obtain ⟨t, fn, ht, hf, e1, e2⟩ := Parse_bare_appends line schema h6
        simp only [Part.lines, List.singleton_append]
        rw [Parse.loop]
        simp only [h1, h2, h3, h7, e2, if_false, Bool.false_eq_true]
        rw [ih1]
        simp [hf, Part.class?, List.filterMap_cons]
    | classLine line =>
      have hp1 := hp
      simp only [Part.shaped, Bool.and_eq_true, Bool.not_eq_true'] at hp1
      obtain ⟨⟨h1, h2⟩, h3⟩ := hp1
      cases hc : parseClass line with
      | blocked => simp [hc] at h3
      | fatal => simp [hc] at h3
      | ok c =>
        simp only [Part.lines, List.singleton_append]
        rw [Parse.loop]
        simp only [h1, h2, hc, if_true, if_false, Bool.false_eq_true]
        rw [ih1]
        cases hit <;>
          simp [List.takeWhile_cons, List.dropWhile_cons, Part.isFunctions, Part.type?,
            Part.function?, Part.class?, hc, List.filterMap_cons]
    | functions line =>
      have hp1 := hp
      simp only [Part.shaped, Bool.and_eq_true, Bool.not_eq_true',
        decide_eq_true_eq] at hp1
      obtain ⟨⟨h1, h2⟩, h3⟩ := hp1
      simp only [Part.lines, List.singleton_append]
      rw [Parse.loop]
      simp only [h1, h2, h3, if_true, if_false, Bool.false_eq_true]
      rw [ih1]
      cases hit <;>
        simp [List.takeWhile_cons, List.dropWhile_cons, Part.isFunctions, Part.type?,
          Part.function?, Part.class?, List.filterMap_cons]
    | blank =>
      simp only [Part.lines, List.singleton_append]
      rw [Parse.loop]
      have h1 : HasPrefix "" "//@description" = false := by decide
      have h2 : HasPrefix "" "//@class" = false := by decide
      have h3 : ¬ Contains "" "---functions---" := by decide
      simp only [h1, h2, h3, if_true, if_false, Bool.false_eq_true]
      rw [ih1]
      cases hit <;>
        simp [List.takeWhile_cons, List.dropWhile_cons, Part.isFunctions, Part.type?,
          Part.function?, Part.class?, List.filterMap_cons]

/-- C37. For every text made of well formed pieces: `Parse` returns; `Types` holds, in
the order of the text, what the entities (description blocks and bare definition lines)
before the first line containing `---functions---` give, `Functions` what the entities
after it give, and `Classes` what the class lines give; every entity and every class
line gives an element. -/
theorem Parse_places_entities (parts : List Part)
    (hwf : ∀ p ∈ parts, p.wellFormed = true) :
    Parse (parts.flatMap Part.lines)
        = .ok { Types :=
                  (parts.takeWhile (fun p => !p.isFunctions)).filterMap Part.type?
                Classes := parts.filterMap Part.class?
                Functions :=
                  (parts.dropWhile (fun p => !p.isFunctions)).filterMap Part.function? }
    ∧ (∀ p ∈ parts, ∀ line ∈ p.lines,
        Contains line "---functions---" ↔ p.isFunctions = true)
    ∧ (∀ p ∈ parts, ∀ firstLine more body, p = .block firstLine more body →
        (p.type?).isSome = true ∧ (p.function?).isSome = true)
    ∧ (∀ p ∈ parts, ∀ line, p = .bare line →
        (p.type?).isSome = true ∧ (p.function?).isSome = true)
    ∧ (∀ p ∈ parts, ∀ line, p = .classLine line → (p.class?).isSome = true) := by
  have hsh : ∀ p ∈ parts, p.shaped = true := by
    intro p hp
    have := hwf p hp
    simp only [Part.wellFormed, Bool.and_eq_true] at this
    exact this.1
  refine ⟨?_, ?_, ?_, ?_, ?_⟩
  · rw [Parse, Parse_loop_parts parts hsh]
    simp
  · intro p hp line hl
    have := hwf p hp
    simp only [Part.wellFormed, Bool.and_eq_true, List.all_eq_true, beq_iff_eq] at this
    have h1 := this.2 line hl
    rw [← h1]
    simp
  · intro p hp firstLine more body e
    subst e
    obtain ⟨t, fn, ht, hf, _⟩ :=
      Parse_loop_block firstLine more body [] Schema.empty (hsh _ hp)
    simp [ht, hf]
  · intro p hp line e
    subst e
    have hp1 := hsh _ hp
    simp only [Part.shaped, Bool.and_eq_true, Bool.not_eq_true', decide_eq_true_eq,
      decide_eq_false_iff_not, ne_eq] at hp1
    obtain ⟨t, fn, ht, hf, _⟩ := Parse_bare_appends line Schema.empty (by simpa using hp1.2)
    simp [ht, hf]
  · intro p hp line e
    subst e
    have hp1 := hsh _ hp
    simp only [Part.shaped, Bool.and_eq_true] at hp1
    cases hc : parseClass line with
    | blocked => simp [hc] at hp1
    | fatal => simp [hc] at hp1
    | ok c => simp [Part.class?, hc]

/-- Witness for C37: a text of seven pieces. -/
theorem Parse_places_entities_witness :
    (∀ p ∈ sampleParts, p.wellFormed = true)
    ∧ Parse (sampleParts.flatMap Part.lines)
        = .ok { Types :=
                  (sampleParts.takeWhile (fun p => !p.isFunctions)).filterMap Part.type?
                Classes := sampleParts.filterMap Part.class?
                Functions :=
                  (sampleParts.dropWhile (fun p => !p.isFunctions)).filterMap
                    Part.function? }
    ∧ (sampleParts.takeWhile (fun p => !p.isFunctions)).filterMap Part.type?
        = [{ Name := "error", Description := "An error", Class := "Error",
             Properties :=
               [{ Name := "code", Typ := "int32", Description := "Error code" },
                { Name := "message", Typ := "string",
                  Description := "Error message; cannot be empty" }] },
           { Name := "double", Description := "", Class := "Double", Properties := [] }] :=
  ⟨by decide, (Parse_places_entities sampleParts (by decide)).1, by decide⟩

/-- C38 (evaluated on the code). The parser indexes the fields of a line without
checking how many there are and uses the result of `getProperty` without checking it for
nil: it panics on a line of one blank (`bodyFields[0]`), on a class line without a
description (`classLineParts[2]`), on a description block followed by an empty line
(`bodyFields[0]`) or by a line of two fields (`bodyFields[1 : 0]`), on a property without
a colon (`propertyParts[1]`), on an annotation that names no property of the entity
(`property.Description` on nil) and on an annotation without a name (`strParts[0]`). -/
theorem Parse_panics_on_short_lines :
    Parse [" "] = .fatal
    ∧ Parse ["//@class A"] = .fatal
    ∧ Parse ["//@description A", ""] = .fatal
    ∧ Parse ["//@description A", "a B;"] = .fatal
    ∧ Parse ["//@description A", "a b = B;"] = .fatal
    ∧ Parse ["//@description A @foo bar", "a = B;"] = .fatal
    ∧ Parse ["//@description A @", "a = B;"] = .fatal := by
  refine ⟨?_, ?_, ?_, ?_, ?_, ?_, ?_⟩ <;> decide

/-- Witness for C36: three functions, one guarded for users, one for bots. -/
theorem ParseCode_sets_types_witness :
    (ParseCode sampleCode none sampleSchema).2 = none
    ∧ (ParseCode sampleCode none sampleSchema).1.Functions
        = [{ sampleFunction "getMe" with Typ := .FunctionTypeUser },
           { sampleFunction "getChat" with Typ := .FunctionTypeCommon },
           { sampleFunction "answerInlineQuery" with Typ := .FunctionTypeBot }] :=
  ⟨(ParseCode_sets_types sampleCode sampleSchema).1, by rfl⟩

/-! ## The dispatch loop with its call of Receive -/

/-- An iteration of `Client.receive` whose call of `Receive` gets a message from the
engine does not end: `Receive` waits in its deferred function for a signal on the
`Handled` channel it has just made, or, the mutex being held, at its `Lock`. -/
theorem receiveIteration_message_blocks (U : String → Option TdType) (data : String)
    (m : Meta) (client : Client) :
    Client.receiveIteration U (some { data := data, parsed := some m }) client
      = .blocked := by
  cases hl : client.tdClient.locker with
  | true =>
    simp [Client.receiveIteration, runCall, TDClient.Receive, TDClient.Lock, hl]
  | false =>
    simp [Client.receiveIteration, runCall, TDClient.Receive, TDClient.Lock, hl,
      TDClient.build, TDClient.makeHandled, TDClient.finish, TDClient.recvHandled]

/-- An iteration of `Client.receive` that ends leaves the client as it was: its call of
`Receive` got nothing usable from the engine. -/
theorem receiveIteration_ok (U : String → Option TdType) (result : Option Raw)
    (client client1 : Client) (h : Client.receiveIteration U result client = .ok client1) :
    client1 = client := by
  cases hl : client.tdClient.locker with
  | true =>
    simp [Client.receiveIteration, runCall, TDClient.Receive, TDClient.Lock, hl] at h
  | false =>
    cases result with
    | none =>
      simp [Client.receiveIteration, runCall, TDClient.Receive, TDClient.Lock, hl,
        TDClient.build, TDClient.finish, TDClient.Unlock, TDClient.unlocked_eq] at h
      exact h.symm
    | some raw =>
      cases hp : raw.parsed with
      | none =>
        simp [Client.receiveIteration, runCall, TDClient.Receive, TDClient.Lock, hl,
          TDClient.build, TDClient.finish, TDClient.Unlock, TDClient.unlocked_eq, hp] at h
        exact h.symm
      | some m =>
        obtain ⟨d, pr⟩ := raw
        simp only at hp
        subst hp
        rw [receiveIteration_message_blocks] at h
        cases h

/-- The loop of `Client.receive`, whatever the engine returns to its calls of `Receive`:
either it waits, or it has come through its iterations with the client as it was. -/
theorem receiveLoop_ok (U : String → Option TdType) :
    ∀ (results : List (Option Raw)) (client client1 : Client),
      Client.receiveLoop U results client = .ok client1 → client1 = client := by
  intro results
  induction results with
  | nil =>
    intro client client1 h
    simp only [Client.receiveLoop, Step.ok.injEq] at h
    exact h.symm
  | cons result rest ih =>
    intro client client1 h
    simp only [Client.receiveLoop] at h
    obtain ⟨c, hc, hrest⟩ := Step.bind_eq_ok _ _ _ h
    have := receiveIteration_ok U result client c hc
    subst this
    exact ih c client1 hrest

/-- C10 (evaluated on the code). No iteration of `Client.receive` appends an event to
the queue of a listener. The iteration whose call of `Receive` gets a message does not
end, since `Receive` waits for a signal on the `Handled` channel of the message before
it returns; a loop that got a message waits from then on; and a loop that has come
through its iterations has left every listener, the store and `client.catcher` as they
were. On the client with an active listener and the update `rawUpdate` the iteration
waits, though the body of the loop, handed the response, would append the event. -/
theorem receive_loop_never_broadcasts (U : String → Option TdType) (data : String)
    (m : Meta) (client : Client) (before after : List (Option Raw)) :
    Client.receiveIteration U (some { data := data, parsed := some m }) client = .blocked
    ∧ (∀ client1, Client.receiveLoop U
          (before ++ some { data := data, parsed := some m } :: after) client
        ≠ .ok client1)
    ∧ (∀ results client1, Client.receiveLoop U results client = .ok client1 →
        client1.listeners = client.listeners ∧ client1.listenerStore = client.listenerStore
        ∧ client1.catcher = client.catcher)
    ∧ Client.receiveIteration parseAny (some rawUpdate) clientListening = .blocked
    ∧ (∃ client1, Client.receive parseAny clientListening updateResponse = .ok client1
        ∧ client1.listeners[0]? = some
            { isActive := true
              Updates := { buf := [{ GetType := updateResponse.Data, GetClass := "Update" }]
                           cap := 1024, closed := false } }) := by
  refine ⟨receiveIteration_message_blocks U data m client, ?_, ?_, by rfl, ⟨_, by rfl, by rfl⟩⟩
  · intro client1
    induction before generalizing client with
    | nil =>
      simp [Client.receiveLoop, receiveIteration_message_blocks, Step.bind]
    | cons r rs ih =>
      intro h
      simp only [List.cons_append, Client.receiveLoop] at h
      obtain ⟨c, hc, hrest⟩ := Step.bind_eq_ok _ _ _ h
      have := receiveIteration_ok U r client c hc
      subst this
      exact ih c hrest
  · intro results client1 h
    have := receiveLoop_ok U results client client1 h
    subst this
    exact ⟨rfl, rfl, rfl⟩

/-- C31 (evaluated on the code). A message whose payload `UnmarshalType` does not parse
is not forwarded to `client.catcher`: the iteration whose call of `Receive` gets it does
not end, `Receive` waits for a signal on the `Handled` channel of the message before it
returns, and the send on `client.catcher` comes after the call; the body of the loop,
handed the response, would forward it and go on. -/
theorem unparsed_message_never_forwarded (U : String → Option TdType) (data : String)
    (m : Meta) (client : Client) (hU : U data = none) :
    Client.receiveIteration U (some { data := data, parsed := some m }) client = .blocked
    ∧ (∀ after client1, Client.receiveLoop U
          (some { data := data, parsed := some m } :: after) client ≠ .ok client1)
    ∧ (∀ results client1, Client.receiveLoop U results client = .ok client1 →
        client1.catcher = client.catcher)
    ∧ (∀ r : Response, r.Data = data → client.catcher.closed = false →
        client.catcher.buf.length < client.catcher.cap →
        Client.receive U client r
          = .ok { client with
                  catcher := { client.catcher with buf := client.catcher.buf ++ [r] } }) := by
  refine ⟨receiveIteration_message_blocks U data m client, ?_, ?_, ?_⟩
  · intro after client1
    simp [Client.receiveLoop, receiveIteration_message_blocks, Step.bind]
  · intro results client1 h
    have := receiveLoop_ok U results client client1 h
    subst this
    rfl
  · intro r hr hopen hroom
    exact (receive_drops_unparsed U client r (by rw [hr]; exact hU) hopen hroom).1

/-- Witness for C31: a message with an empty payload, which `parseAny` does not parse,
on the client `NewClient` builds; the buffer `client.catcher` stays empty. -/
theorem unparsed_message_never_forwarded_witness :
    parseAny "" = none
    ∧ Client.receiveIteration parseAny
        (some { data := "", parsed := some { Typ := "updateOption", Extra := "" } })
        NewClient = .blocked
    ∧ NewClient.catcher.buf = [] :=
  ⟨rfl,
    (unparsed_message_never_forwarded parseAny "" { Typ := "updateOption", Extra := "" }
      NewClient rfl).1, rfl⟩

/-- C32 (evaluated on the code). A listener of the store that is not active is never
removed by the loop of `Client.receive`: the iteration that gets a message does not
end, so it reaches neither the listeners nor the collection, and a loop that has come
through its iterations has left the store as it was. -/
theorem inactive_listener_never_collected (U : String → Option TdType) (client : Client)
    (p : Nat) (hp : p ∈ client.listenerStore)
    (hin : listenerStore.isActiveAt client.listeners p = false) :
    (∀ data m, Client.receiveIteration U (some { data := data, parsed := some m }) client
        = .blocked)
    ∧ (∀ results client1, Client.receiveLoop U results client = .ok client1 →
        p ∈ client1.listenerStore
        ∧ listenerStore.isActiveAt client1.listeners p = false) := by
  refine ⟨fun data m => receiveIteration_message_blocks U data m client, ?_⟩
  intro results client1 h
  have := receiveLoop_ok U results client client1 h
  subst this
  exact ⟨hp, hin⟩

/-- Witness for C32: the client whose second listener is closed, on an update. -/
theorem inactive_listener_never_collected_witness :
    (1 ∈ clientListening.listenerStore
      ∧ listenerStore.isActiveAt clientListening.listeners 1 = false)
    ∧ Client.receiveIteration parseAny (some rawUpdate) clientListening = .blocked
    ∧ Client.receiveLoop parseAny [none, none] clientListening = .ok clientListening :=
  ⟨⟨by decide, rfl⟩,
    (inactive_listener_never_collected parseAny clientListening 1 (by decide) rfl).1
      rawUpdate.data { Typ := "updateOption", Extra := "" },
    by rfl⟩

end TDLib
